import Mathlib

/-!
libtask: tasks, task pools, hybrid conditions and semaphores.

A shallow embedding of `src/libtask/task.c`, `src/src/task_pool.c`,
`src/libtask/condition.c` and `src/libtask/util/semaphore.c`.

Objects live in a heap of total maps from identifiers (the C pointers) to
records; `ntask`, `npool`, `ncond`, `nsem` count the objects handed out so
far.  Every library call is one atomic step of the heap: spinlocks, the task
mutex and the `libtask_spinlock_status` assertions are not part of the state.
A failed `CHECK`/`assert` or a dereferenced `NULL` is the result `abort`.
The `int32_t` counters are integers; wrap-around is outside this development.
-/

namespace Libtask

/-- The C `error_t`: zero is success. -/
abbrev error_t := Nat

/-- The `errno.h` value of `EINVAL`. -/
def EINVAL : error_t := 22

/-- The `errno.h` value of `ENOENT`. -/
def ENOENT : error_t := 2

/-- A pointer to a `libtask_condition_t`: a stand-alone condition, or the
`waiting_condition` member embedded in a task pool. -/
inductive CondRef where
  | cond (c : Nat)
  | waiting_condition (pool : Nat)
  deriving DecidableEq

/-- The library calls an entry function makes, in program order. -/
inductive Call where
  | task_suspend
  | task_yield
  | task_pool_switch (pool : Nat)
  | semaphore_down (sem : Nat)
  | semaphore_up (sem : Nat)
  | condition_wait (cond : CondRef)
  | condition_signal (cond : CondRef)
  | condition_broadcast (cond : CondRef)
  | task_finalize (task : Nat)
  deriving DecidableEq

/-- The user function of a task, `int (*function)(void *)`: the library calls
it makes and the value it returns for its argument. -/
structure Entry where
  calls : List Call
  value : Int → Int

/-- The saved context `uct_self`: where the task continues when it is swapped in. -/
inductive Context where
  /-- Set by `makecontext`: enters `libtask_task_main`. -/
  | main
  /-- Swapped out inside the entry function, with these calls still to make. -/
  | inside (rest : List Call)
  /-- Swapped out by the last suspend of `libtask_task_main`. -/
  | final
  deriving DecidableEq

/-- Modelled from the spec: the reference-count primitive (not among the
sources).  A count is an integer: `libtask_refcount_initialize` sets it to 0,
`libtask_refcount_create` sets it to 1 for the handle of the creator, a `ref`
adds one and an `unref` takes one off.  What an `unref` that reaches zero
destroys is outside this development. -/
abbrev libtask_refcount_t := Int

/-- The record `libtask_condition_t`: `blocked` counts the threads blocked in
`pthread_cond_wait` on `cond`, `list` holds the task waiters, and `spinlock`
says where `cond->spinlock` points: `some p` is the spinlock of pool `p`,
`none` a spinlock of the caller that belongs to no pool. -/
structure libtask_condition_t where
  blocked : Nat
  list : List Nat
  spinlock : Option Nat := none

/-- The record `libtask_task_pool_t`. -/
structure libtask_task_pool_t where
  ntasks : Int
  refcount : libtask_refcount_t
  waiting_list : List Nat
  waiting_condition : libtask_condition_t

/-- The record `libtask_semaphore_t`. -/
structure libtask_semaphore_t where
  count : Int
  waiting_list : List Nat

/-- Modelled from the spec: the record `libtask_task_t` (its header is not
among the sources).  The spec has one `pool` field per task; `task.c` and
`task_pool.c` reach it as `task_pool`, `condition.c` and `semaphore.c` as
`owner`.  The `waiting_link` is not a field: a task is linked where the
waiter lists of the heap mention it.  `stack` is the size of the allocated
stack (`none` once freed), `mutex` says that the mutex is initialised. -/
structure libtask_task_t where
  stack : Option Nat
  mutex : Bool
  complete : Bool
  task_pool : Option Nat
  result : Int
  argument : Int
  function : Entry
  uct_self : Context
  refcount : libtask_refcount_t

/-- The heap, the global list of all tasks and the thread-local current task. -/
structure State where
  tasks : Nat → libtask_task_t
  pools : Nat → libtask_task_pool_t
  conds : Nat → libtask_condition_t
  sems : Nat → libtask_semaphore_t
  ntask : Nat
  npool : Nat
  ncond : Nat
  nsem : Nat
  all_task_list : List Nat
  libtask_current_task : Option Nat

/-- The outcome of a library call. -/
inductive Res (α : Type) where
  /-- The call returned `a`, leaving the heap `s`. -/
  | ret (a : α) (s : State)
  /-- The caller was swapped out (or, for a thread, blocked) with the heap `s`;
  the call returns `a` once the caller runs again. -/
  | susp (a : α) (s : State)
  /-- A `CHECK` or `assert` failed, or `NULL` was dereferenced. -/
  | abort
  /-- The call has not returned within its budget: the recursion budget of
  `signalFuel` ran out, or the call spins on a spinlock that its own thread
  holds, which no budget ends. -/
  | timeout

/-- Store a task record. -/
def State.setTask (s : State) (task : Nat) (x : libtask_task_t) : State :=
  { s with tasks := Function.update s.tasks task x }

/-- Store a pool record. -/
def State.setPool (s : State) (pool : Nat) (x : libtask_task_pool_t) : State :=
  { s with pools := Function.update s.pools pool x }

/-- Store a semaphore record. -/
def State.setSem (s : State) (sem : Nat) (x : libtask_semaphore_t) : State :=
  { s with sems := Function.update s.sems sem x }

/-- Read through a condition pointer. -/
def State.cond (s : State) : CondRef → libtask_condition_t
  | .cond c => s.conds c
  | .waiting_condition pool => (s.pools pool).waiting_condition

/-- Write through a condition pointer. -/
def State.setCond (s : State) (r : CondRef) (x : libtask_condition_t) : State :=
  match r with
  | .cond c => { s with conds := Function.update s.conds c x }
  | .waiting_condition pool => s.setPool pool { s.pools pool with waiting_condition := x }

/-- Modelled from the spec: `libtask_list_push_back` of the intrusive list
primitive (not among the sources): the link goes to the back of the list. -/
def libtask_list_push_back (list : List Nat) (link : Nat) : List Nat :=
  list ++ [link]

/-- Modelled from the spec: `libtask_list_pop_front` of the intrusive list
primitive (not among the sources): the head of the list is taken off and
handed out, `none` (the C `NULL`) when the list is empty.  The operations
below read a pop, and the test `libtask_list_empty` of a list head in front
of it, as a `match` on the list; `libtask_list_move` hands over the whole
content and leaves the source empty. -/
def libtask_list_pop_front (list : List Nat) : Option Nat × List Nat :=
  match list with
  | [] => (none, [])
  | link :: rest => (some link, rest)

/-- A list with every occurrence of the link of `task` taken out. -/
def unlink (task : Nat) (list : List Nat) : List Nat :=
  list.filter (fun x => x != task)

/-- Modelled from the spec: `libtask_list_erase` applied to the `waiting_link`
of a task (intrusive list primitive, not among the sources): the link leaves
whichever list holds it and is a self-loop afterwards. -/
def libtask_list_erase (s : State) (task : Nat) : State :=
  { s with
    pools := fun p =>
      { s.pools p with
        waiting_list := unlink task (s.pools p).waiting_list
        waiting_condition :=
          { (s.pools p).waiting_condition with
            list := unlink task (s.pools p).waiting_condition.list } }
    conds := fun c => { s.conds c with list := unlink task (s.conds c).list }
    sems := fun m => { s.sems m with waiting_list := unlink task (s.sems m).waiting_list } }

/-- Modelled from the spec: `libtask_list_empty` applied to the `waiting_link`
of a task (intrusive list primitive, not among the sources): true when the
link is a self-loop, that is when no waiter list of an allocated pool,
condition or semaphore holds the task. -/
def libtask_list_empty_link (s : State) (task : Nat) : Bool :=
  !((List.range s.npool).any (fun p =>
        (s.pools p).waiting_list.contains task
          || (s.pools p).waiting_condition.list.contains task)
      || (List.range s.ncond).any (fun c => (s.conds c).list.contains task)
      || (List.range s.nsem).any (fun m => (s.sems m).waiting_list.contains task))

/-- The C statement `if (!libtask_list_empty(&task->waiting_link))
libtask_list_erase(&task->waiting_link);`. -/
def unlink_if_linked (s : State) (task : Nat) : State :=
  if !libtask_list_empty_link s task then libtask_list_erase s task else s

/-! ## src/src/task_pool.c -/

/-- The C `libtask_task_pool_initialize`: resets the counter, the reference
count and the waiting list.  This `task_pool.c` does not touch
`waiting_condition`. -/
def libtask_task_pool_initialize (s : State) (pool : Nat) : Res error_t :=
  .ret 0 (s.setPool pool
    { s.pools pool with ntasks := 0, refcount := 0, waiting_list := [] })

/-- The C `libtask_task_pool_create`: `calloc` hands out the next pool,
zeroed; the pool is initialised and the creator holds one reference.
Allocation is taken to succeed. -/
def libtask_task_pool_create (s : State) : Res (error_t × Nat) :=
  let pool := s.npool
  let s1 : State :=
    { s with
      npool := s.npool + 1
      pools := Function.update s.pools pool
        { ntasks := 0, refcount := 0, waiting_list := [],
          waiting_condition := { blocked := 0, list := [] } } }
  match libtask_task_pool_initialize s1 pool with
  | .ret error s2 =>
    if error != 0 then .ret (error, pool) s
    else .ret (0, pool) (s2.setPool pool { s2.pools pool with refcount := 1 })
  | .susp _ _ => .abort
  | .abort => .abort
  | .timeout => .timeout

/-- The C `libtask_get_task_pool_size`. -/
def libtask_get_task_pool_size (s : State) (pool : Nat) : Int :=
  (s.pools pool).ntasks

/-- The C `libtask_task_pool_push_back`. -/
def libtask_task_pool_push_back (s : State) (pool task : Nat) : Res error_t :=
  if (s.tasks task).task_pool ≠ some pool then .ret EINVAL s
  else
    let s1 := libtask_list_erase s task
    .ret 0 (s1.setPool pool
      { s1.pools pool with
        waiting_list := libtask_list_push_back (s1.pools pool).waiting_list task })

/-- The C `libtask_task_pool_pop_front`: the second component is the task
stored through `taskp`. -/
def libtask_task_pool_pop_front (s : State) (pool : Nat) : Res (error_t × Option Nat) :=
  match (s.pools pool).waiting_list with
  | [] => .ret (ENOENT, none) s
  | task :: rest =>
    .ret (0, some task) (s.setPool pool { s.pools pool with waiting_list := rest })

/-- The C `libtask_task_pool_insert`. -/
def libtask_task_pool_insert (s : State) (pool task : Nat) : Res error_t :=
  if (s.tasks task).task_pool ≠ none then .abort
  else
    let s1 := s.setPool pool
      { s.pools pool with
        ntasks := (s.pools pool).ntasks + 1
        refcount := (s.pools pool).refcount + 1 }
    let s2 := s1.setTask task { s1.tasks task with task_pool := some pool }
    .ret 0 (s2.setPool pool
      { s2.pools pool with
        waiting_list := libtask_list_push_back (s2.pools pool).waiting_list task })

/-- The C `libtask_task_pool_erase`. -/
def libtask_task_pool_erase (s : State) (pool task : Nat) : Res error_t :=
  if (s.tasks task).task_pool ≠ some pool then .ret EINVAL s
  else
    let s1 := s.setPool pool { s.pools pool with ntasks := (s.pools pool).ntasks - 1 }
    if (s1.pools pool).ntasks < 0 then .abort
    else
      let s2 := s1.setTask task { s1.tasks task with task_pool := none }
      let s3 := unlink_if_linked s2 task
      if (s3.pools pool).ntasks == 0 && !libtask_list_empty_link s3 task then .abort
      else .ret 0 (s3.setPool pool { s3.pools pool with refcount := (s3.pools pool).refcount - 1 })

/-! ## src/libtask/task.c -/

/-- The C `libtask_get_task_current`. -/
def libtask_get_task_current (s : State) : Option Nat :=
  s.libtask_current_task

/-- The C `libtask_task_initialize`: `malloc` of the stack is taken to
succeed; a fresh `waiting_link` is in no list. -/
def libtask_task_initialize (s : State) (task : Nat) (function : Entry) (argument : Int)
    (stack_size : Nat) : Res error_t :=
  let s1 := s.setTask task
    { stack := some stack_size, mutex := true, complete := false, task_pool := none,
      result := 0, argument := argument, function := function, uct_self := .main,
      refcount := 0 }
  .ret 0 { s1 with all_task_list := libtask_list_push_back s1.all_task_list task }

/-- The C `libtask_task_create`: `malloc` hands out the next task; the
creator holds one reference. -/
def libtask_task_create (s : State) (function : Entry) (argument : Int) (stack_size : Nat) :
    Res (error_t × Nat) :=
  let task := s.ntask
  let s1 : State := { s with ntask := s.ntask + 1 }
  match libtask_task_initialize s1 task function argument stack_size with
  | .ret error s2 =>
    if error != 0 then .ret (error, task) s
    else .ret (0, task) (s2.setTask task { s2.tasks task with refcount := 1 })
  | .susp _ _ => .abort
  | .abort => .abort
  | .timeout => .timeout

/-- The C `libtask_task_suspend`: from a task, `swapcontext` gives control
back to the thread inside `libtask_task_execute`; the call returns 0 when the
task is swapped in again. -/
def libtask_task_suspend (s : State) : Res error_t :=
  match s.libtask_current_task with
  | none => .ret EINVAL s
  | some _ => .susp 0 s

/-- Modelled from the spec: `libtask__task_suspend`, the suspend that
`condition.c` and `semaphore.c` call (not among the sources); the spec has one
`suspend()`, which swaps the task out and changes nothing else. -/
def libtask__task_suspend (s : State) : Res error_t :=
  match s.libtask_current_task with
  | none => .ret EINVAL s
  | some _ => .susp 0 s

/-- The C `libtask_task_schedule`. -/
def libtask_task_schedule (s : State) (task : Nat) : Res error_t :=
  if (s.tasks task).complete then .ret EINVAL s
  else
    match (s.tasks task).task_pool with
    | some pool => libtask_task_pool_push_back s pool task
    | none => .ret 0 s

/-- The C `libtask_task_yield`: from a thread it is `pthread_yield`, which
returns 0. -/
def libtask_task_yield (s : State) : Res error_t :=
  match s.libtask_current_task with
  | none => .ret 0 s
  | some task =>
    if (s.tasks task).complete then .ret EINVAL s
    else
      match (s.tasks task).task_pool with
      | none =>
        match libtask_task_suspend s with
        | .ret _ s1 => .ret 0 s1
        | .susp _ s1 => .susp 0 s1
        | .abort => .abort
        | .timeout => .timeout
      | some _ =>
        match libtask_task_schedule s task with
        | .ret error s1 =>
          if error != 0 then .abort
          else
            match libtask_task_suspend s1 with
            | .ret _ s2 => .ret 0 s2
            | .susp _ s2 => .susp 0 s2
            | .abort => .abort
            | .timeout => .timeout
        | .susp _ _ => .abort
        | .abort => .abort
        | .timeout => .timeout

/-- The C `libtask_task_pool_switch`; `oldp` says whether the caller passed a
place for the previous pool, and the second component is what is stored there. -/
def libtask_task_pool_switch (s : State) (pool : Nat) (oldp : Bool) :
    Res (error_t × Option Nat) :=
  match s.libtask_current_task with
  | none => .ret (EINVAL, none) s
  | some task =>
    if (s.tasks task).task_pool = some pool then .ret (EINVAL, none) s
    else
      let old := if oldp then (s.tasks task).task_pool else none
      let s1 :=
        match old with
        | some q => s.setPool q { s.pools q with refcount := (s.pools q).refcount + 1 }
        | none => s
      let erased : Res error_t :=
        match (s1.tasks task).task_pool with
        | some q => libtask_task_pool_erase s1 q task
        | none => .ret 0 s1
      match erased with
      | .ret error s2 =>
        if error != 0 then .abort
        else
          match libtask_task_pool_insert s2 pool task with
          | .ret error s3 =>
            if error != 0 then .abort
            else
              match libtask_task_yield s3 with
              | .ret e s4 => .ret (e, old) s4
              | .susp e s4 => .susp (e, old) s4
              | .abort => .abort
              | .timeout => .timeout
          | .susp _ _ => .abort
          | .abort => .abort
          | .timeout => .timeout
      | .susp _ _ => .abort
      | .abort => .abort
      | .timeout => .timeout

/-! ## src/libtask/util/semaphore.c -/

/-- The value an `int32_t` holds after an arithmetic result `x`: the result
modulo 2^32, in the range from -2147483648 to 2147483647. -/
def int32_t (x : Int) : Int :=
  (x + 2147483648) % 4294967296 - 2147483648

/-- The C `libtask_semaphore_initialize`; `pthread_spin_init` is taken to
succeed.  `count` is an `int32_t` argument. -/
def libtask_semaphore_initialize (s : State) (sem : Nat) (count : Int) : Res error_t :=
  .ret 0 (s.setSem sem { count := count, waiting_list := [] })

/-- The C `libtask_semaphore_up`; `sem->count` is an `int32_t`. -/
def libtask_semaphore_up (s : State) (sem : Nat) : Res error_t :=
  match (s.sems sem).waiting_list with
  | [] => .ret 0 (s.setSem sem { s.sems sem with count := int32_t ((s.sems sem).count + 1) })
  | task :: rest =>
    let s1 := s.setSem sem { s.sems sem with waiting_list := rest }
    match (s1.tasks task).task_pool with
    | none => .abort
    | some task_pool =>
      let s2 := s1.setPool task_pool
        { s1.pools task_pool with ntasks := (s1.pools task_pool).ntasks + 1 }
      .ret 0 (s2.setPool task_pool
        { s2.pools task_pool with
          waiting_list := libtask_list_push_back (s2.pools task_pool).waiting_list task })

/-- The C `libtask_semaphore_down`; `sem->count` is an `int32_t`. -/
def libtask_semaphore_down (s : State) (sem : Nat) : Res error_t :=
  match libtask_get_task_current s with
  | none => .ret EINVAL s
  | some task =>
    if (s.sems sem).count > 0 then
      .ret 0 (s.setSem sem { s.sems sem with count := int32_t ((s.sems sem).count - 1) })
    else
      libtask__task_suspend (s.setSem sem
        { s.sems sem with
          waiting_list := libtask_list_push_back (s.sems sem).waiting_list task })

/-! ## src/libtask/condition.c -/

/-- The POSIX `pthread_cond_signal`: one blocked thread, if any, is released. -/
def pthread_cond_signal (c : libtask_condition_t) : libtask_condition_t :=
  { c with blocked := c.blocked - 1 }

/-- The POSIX `pthread_cond_broadcast`: every blocked thread is released. -/
def pthread_cond_broadcast (c : libtask_condition_t) : libtask_condition_t :=
  { c with blocked := 0 }

/-- The C `libtask_condition_initialize`: `spinlock` is the lock the caller
supplies, as in the field `spinlock` of the record. -/
def libtask_condition_initialize (s : State) (cond : CondRef) (spinlock : Option Nat) :
    State :=
  s.setCond cond { blocked := 0, list := [], spinlock := spinlock }

/-- The pointer `cond->spinlock`, as the pool whose spinlock it is.  A
stand-alone condition holds what `libtask_condition_initialize` stored.
Modelled from the spec for the `waiting_condition` of a pool, which this
`task_pool.c` does not initialise: it uses the spinlock of its pool. -/
def State.spinlock (s : State) : CondRef → Option Nat
  | .cond c => (s.conds c).spinlock
  | .waiting_condition pool => some pool

/-- The C `libtask_condition_wait`: a task is queued on `cond->list` and
swapped out; a thread blocks in `pthread_cond_wait`. -/
def libtask_condition_wait (s : State) (cond : CondRef) : Res Unit :=
  match libtask_get_task_current s with
  | some task =>
    let s1 := s.setCond cond
      { s.cond cond with list := libtask_list_push_back (s.cond cond).list task }
    match libtask__task_suspend s1 with
    | .ret _ s2 => .ret () s2
    | .susp _ s2 => .susp () s2
    | .abort => .abort
    | .timeout => .timeout
  | none =>
    .susp () (s.setCond cond { s.cond cond with blocked := (s.cond cond).blocked + 1 })

/-- The C `libtask_condition_wakeup_first`, run by a thread that holds the
spinlocks of the pools `held`; `spinlock` is `cond->spinlock`.  `list` is the
content of the list it is handed and `store` writes the popped list back to
where it lives; `signal` is `libtask_condition_signal`, told which spinlocks
its caller holds.  The second component of the result is the list after the
pop.  Modelled from the spec: `libtask_spinlock_lock` (not among the
sources) spins until the lock is free, so on a spinlock that the calling
thread holds itself it never returns; the unlock after the nested signal
gives back what the lock took. -/
def libtask_condition_wakeup_first (signal : List Nat → State → CondRef → Res Unit)
    (held : List Nat) (spinlock : Option Nat) (s : State)
    (list : List Nat) (store : State → List Nat → State) : Res (Bool × List Nat) :=
  match list with
  | [] => .ret (false, []) s
  | task :: rest =>
    let s1 := store s rest
    match (s1.tasks task).task_pool with
    | none => .abort
    | some task_pool =>
      if spinlock ≠ some task_pool ∧ task_pool ∈ held then .timeout
      else
        let held1 := if spinlock ≠ some task_pool then task_pool :: held else held
        let s2 := s1.setPool task_pool
          { s1.pools task_pool with
            waiting_list := libtask_list_push_back (s1.pools task_pool).waiting_list task }
        match signal held1 s2 (.waiting_condition task_pool) with
        | .ret _ s3 => .ret (true, rest) s3
        | .susp _ _ => .abort
        | .abort => .abort
        | .timeout => .timeout

/-- The C `libtask_condition_signal` called by a thread that holds the
spinlocks of the pools `held`, with a bound on the depth of the recursion
through `libtask_condition_wakeup_first`. -/
def signalFuel : Nat → List Nat → State → CondRef → Res Unit
  | 0, _, _, _ => .timeout
  | fuel + 1, held, s, cond =>
    match libtask_condition_wakeup_first (signalFuel fuel) held (s.spinlock cond) s
        (s.cond cond).list
        (fun s1 rest => s1.setCond cond { s1.cond cond with list := rest }) with
    | .ret (woken, _) s1 =>
      if woken == false then .ret () (s1.setCond cond (pthread_cond_signal (s1.cond cond)))
      else .ret () s1
    | .susp _ _ => .abort
    | .abort => .abort
    | .timeout => .timeout

/-- The number of tasks queued on the conditions of the heap. -/
def State.waiters (s : State) : Nat :=
  ((List.range s.npool).map (fun p => (s.pools p).waiting_condition.list.length)).sum
    + ((List.range s.ncond).map (fun c => (s.conds c).list.length)).sum

/-- The C `libtask_condition_signal` called by a thread that holds the
spinlocks of the pools `held`: every nested call pops one queued task, so
the number of queued tasks bounds the recursion. -/
def libtask_condition_signal_holding (held : List Nat) (s : State) (cond : CondRef) :
    Res Unit :=
  signalFuel (s.waiters + 1) held s cond

/-- The spinlocks of pools that the caller of a condition operation holds:
`cond->spinlock` when it is the spinlock of a pool (the operations assert
that it is locked), and no other. -/
def State.held (s : State) (cond : CondRef) : List Nat :=
  (s.spinlock cond).toList

/-- The C `libtask_condition_signal`, called with `cond->spinlock` held. -/
def libtask_condition_signal (s : State) (cond : CondRef) : Res Unit :=
  libtask_condition_signal_holding (s.held cond) s cond

/-- The drain loop of `libtask_condition_broadcast` over the local list. -/
def broadcast_drain (cond : CondRef) : List Nat → State → Res Unit
  | [], s => .ret () s
  | task :: rest, s =>
    match libtask_condition_wakeup_first libtask_condition_signal_holding (s.held cond)
        (s.spinlock cond) s (task :: rest) (fun s1 _ => s1) with
    | .ret _ s1 => broadcast_drain cond rest s1
    | .susp _ _ => .abort
    | .abort => .abort
    | .timeout => .timeout

/-- The C `libtask_condition_broadcast`, called with `cond->spinlock` held. -/
def libtask_condition_broadcast (s : State) (cond : CondRef) : Res Unit :=
  let list := (s.cond cond).list
  let s1 := s.setCond cond { s.cond cond with list := [] }
  match broadcast_drain cond list s1 with
  | .ret _ s2 => .ret () (s2.setCond cond (pthread_cond_broadcast (s2.cond cond)))
  | .susp _ _ => .abort
  | .abort => .abort
  | .timeout => .timeout

/-- The C `libtask_task_finalize`; `pthread_mutex_destroy` is taken to succeed. -/
def libtask_task_finalize (s : State) (task : Nat) : Res error_t :=
  if (s.tasks task).refcount > 1 then .abort
  else if (s.tasks task).task_pool ≠ none then .abort
  else if !libtask_list_empty_link s task then .abort
  else if s.libtask_current_task = some task then .ret EINVAL s
  else
    let s1 : State := { s with all_task_list := unlink task s.all_task_list }
    .ret 0 (s1.setTask task { s1.tasks task with mutex := false, stack := none })

/-! ## Running a task: `libtask_task_main` and `libtask_task_execute` -/

/-- Forget the value a call returns. -/
def Res.void {α : Type} : Res α → Res Unit
  | .ret _ s => .ret () s
  | .susp _ s => .susp () s
  | .abort => .abort
  | .timeout => .timeout

/-- One library call made by the entry function of the current task. -/
def Call.run (s : State) : Call → Res Unit
  | .task_suspend => (libtask_task_suspend s).void
  | .task_yield => (libtask_task_yield s).void
  | .task_pool_switch pool => (libtask_task_pool_switch s pool false).void
  | .semaphore_down sem => (libtask_semaphore_down s sem).void
  | .semaphore_up sem => (libtask_semaphore_up s sem).void
  | .condition_wait cond => libtask_condition_wait s cond
  | .condition_signal cond => libtask_condition_signal s cond
  | .condition_broadcast cond => libtask_condition_broadcast s cond
  | .task_finalize task => (libtask_task_finalize s task).void

/-- The call `task->function(task->argument)` from the given point of the
entry function on: `ret` when the function returns, `susp` when one of its
calls swaps the task out, the rest of the function being saved in `uct_self`. -/
def run_function (task : Nat) : List Call → State → Res Unit
  | [], s => .ret () s
  | c :: rest, s =>
    match c.run s with
    | .ret _ s1 => run_function task rest s1
    | .susp _ s1 => .susp () (s1.setTask task { s1.tasks task with uct_self := .inside rest })
    | .abort => .abort
    | .timeout => .timeout

/-- The part of `libtask_task_main` after the entry function has returned:
the result is stored, the task leaves its pool and suspends for good.  The
`CHECK` on the value of the last suspend and the `CHECK(0)` behind it run
only if the task is swapped in again: that is the context `final`. -/
def task_main_return (s : State) (task : Nat) : Res Unit :=
  let s1 := s.setTask task
    { s.tasks task with
      result := (s.tasks task).function.value (s.tasks task).argument
      complete := true }
  if s1.libtask_current_task ≠ some task then .abort
  else
    let erased : Res error_t :=
      match (s1.tasks task).task_pool with
      | some pool => libtask_task_pool_erase s1 pool task
      | none => .ret 0 s1
    match erased with
    | .ret _ s2 =>
      if (s2.tasks task).task_pool ≠ none then .abort
      else if !libtask_list_empty_link s2 task then .abort
      else
        match libtask_task_suspend s2 with
        | .susp _ s3 => .susp () (s3.setTask task { s3.tasks task with uct_self := .final })
        | .ret _ _ => .abort
        | .abort => .abort
        | .timeout => .timeout
    | .susp _ _ => .abort
    | .abort => .abort
    | .timeout => .timeout

/-- The C `libtask_task_main`, entered or continued at the saved context: the
result is `susp` when the task gives control back to the thread. -/
def libtask_task_main (s : State) (task : Nat) : Context → Res Unit
  | .main =>
    if s.libtask_current_task ≠ some task then .abort
    else
      let s1 := s.setTask task { s.tasks task with complete := false }
      match run_function task (s1.tasks task).function.calls s1 with
      | .ret _ s2 => task_main_return s2 task
      | r => r
  | .inside rest =>
    match run_function task rest s with
    | .ret _ s2 => task_main_return s2 task
    | r => r
  | .final => .abort

/-- The C `libtask_task_execute`: `swapcontext` runs the task from its saved
context until it swaps itself out. -/
def libtask_task_execute (s : State) (task : Nat) : Res error_t :=
  if (s.tasks task).complete then .ret EINVAL s
  else
    let s1 := s.setTask task { s.tasks task with refcount := (s.tasks task).refcount + 1 }
    let s2 : State := { s1 with libtask_current_task := some task }
    match libtask_task_main s2 task (s2.tasks task).uct_self with
    | .susp _ s3 =>
      let s4 : State := { s3 with libtask_current_task := none }
      .ret 0 (s4.setTask task { s4.tasks task with refcount := (s4.tasks task).refcount - 1 })
    | .ret _ _ => .abort
    | .abort => .abort
    | .timeout => .timeout

/-- Modelled from the spec: the main loop of a worker thread (not among the
sources): it pops a task from the pool and executes it, `rounds` times or
until the waiting list is empty; the result lists the tasks in the order
they were executed. -/
def worker (pool : Nat) : Nat → State → List Nat × Res Unit
  | 0, s => ([], .ret () s)
  | rounds + 1, s =>
    match libtask_task_pool_pop_front s pool with
    | .ret (_, some task) s1 =>
      match libtask_task_execute s1 task with
      | .ret _ s2 => (task :: (worker pool rounds s2).1, (worker pool rounds s2).2)
      | .susp _ _ => ([task], .abort)
      | .abort => ([task], .abort)
      | .timeout => ([task], .timeout)
    | .ret (_, none) s1 => ([], .ret () s1)
    | .susp _ _ => ([], .abort)
    | .abort => ([], .abort)
    | .timeout => ([], .timeout)

/-- A heap with no object in it. -/
def State.empty : State :=
  { tasks := fun _ =>
      { stack := none, mutex := false, complete := false, task_pool := none, result := 0,
        argument := 0, function := { calls := [], value := fun _ => 0 }, uct_self := .main,
        refcount := 0 }
    pools := fun _ =>
      { ntasks := 0, refcount := 0, waiting_list := [],
        waiting_condition := { blocked := 0, list := [] } }
    conds := fun _ => { blocked := 0, list := [] }
    sems := fun _ => { count := 0, waiting_list := [] }
    ntask := 0, npool := 0, ncond := 0, nsem := 0
    all_task_list := []
    libtask_current_task := none }

/-! ## Sequences of operations and concrete heaps used by the theorems -/

/-- The four queue operations of a task pool. -/
inductive PoolOp where
  | insert (task : Nat)
  | erase (task : Nat)
  | push_back (task : Nat)
  | pop_front

/-- One pool operation on the pool `pool`. -/
def PoolOp.run (s : State) (pool : Nat) : PoolOp → Res Unit
  | .insert task => (libtask_task_pool_insert s pool task).void
  | .erase task => (libtask_task_pool_erase s pool task).void
  | .push_back task => (libtask_task_pool_push_back s pool task).void
  | .pop_front => (libtask_task_pool_pop_front s pool).void

/-- A sequence of pool operations, one after the other; `none` when one of
them aborts (an insert of a task that has a pool). -/
def run_pool_ops (pool : Nat) : List PoolOp → State → Option State
  | [], s => some s
  | op :: ops, s =>
    match op.run s pool with
    | .ret _ s1 => run_pool_ops pool ops s1
    | .susp _ _ => none
    | .abort => none
    | .timeout => none

/-- The pool accounting invariant: `M` is the set of tasks whose `task_pool`
is `pool`, `ntasks` is its size, and the waiting list holds members only,
each at most once. -/
def PoolInv (s : State) (pool : Nat) (M : Finset Nat) : Prop :=
  pool < s.npool ∧ (∀ t, t ∈ M ↔ (s.tasks t).task_pool = some pool) ∧
    (s.pools pool).ntasks = (M.card : Int) ∧ (s.pools pool).waiting_list.Nodup ∧
    ∀ t ∈ (s.pools pool).waiting_list, t ∈ M

/-- The state an optional result holds, the empty heap when there is none. -/
def the_state (r : Option State) : State :=
  r.getD State.empty

/-- A heap with one allocated pool and no task in any pool. -/
def pool_start : State :=
  { State.empty with npool := 1 }

/-- The heap `pool_start` after `libtask_task_pool_initialize` of pool 0. -/
def pool_fresh : State :=
  pool_start.setPool 0 { pool_start.pools 0 with ntasks := 0, refcount := 0, waiting_list := [] }

/-- A sequence of pool operations: two inserts, a pop, a re-queue of the
popped task, an erase of the other, and an erase that is refused. -/
def pool_ops_example : List PoolOp :=
  [.insert 0, .insert 1, .pop_front, .push_back 0, .erase 1, .erase 7]

/-- A condition pointer that points to an allocated object. -/
def CondRef.allocated (s : State) : CondRef → Prop
  | .cond c => c < s.ncond
  | .waiting_condition pool => pool < s.npool

/-- A task of the pool `pool` that is swapped out inside its entry function. -/
def parked_task (pool : Nat) : libtask_task_t :=
  { stack := some 4096, mutex := true, complete := false, task_pool := some pool, result := 0,
    argument := 0, function := { calls := [], value := fun _ => 0 },
    uct_self := .inside [], refcount := 1 }

/-- A pool with two member tasks 0 and 1 parked on its own waiting condition,
next to one blocked worker thread. -/
def signal_own_pool : State :=
  { State.empty with
    npool := 1
    tasks := fun t => if t < 2 then parked_task 0 else State.empty.tasks t
    pools := fun _ =>
      { ntasks := 2, refcount := 3, waiting_list := [],
        waiting_condition := { blocked := 1, list := [0, 1] } } }

/-- A condition with the task waiters 0 and 1 of pool 0 and one blocked
thread; one worker thread is blocked on the waiting condition of the pool. -/
def signal_scene : State :=
  { State.empty with
    npool := 1
    ncond := 1
    tasks := fun t => if t < 2 then parked_task 0 else State.empty.tasks t
    pools := fun _ =>
      { ntasks := 2, refcount := 3, waiting_list := [],
        waiting_condition := { blocked := 1, list := [] } }
    conds := fun _ => { blocked := 1, list := [0, 1] } }

/-- Pool 0 has the members 0, 1 and 2; tasks 0 and 1 wait on condition 0 and
task 2 is parked on the waiting condition of the pool. -/
def broadcast_nested : State :=
  { State.empty with
    npool := 1
    ncond := 1
    tasks := fun t => if t < 3 then parked_task 0 else State.empty.tasks t
    pools := fun _ =>
      { ntasks := 3, refcount := 4, waiting_list := [],
        waiting_condition := { blocked := 0, list := [2] } }
    conds := fun _ => { blocked := 0, list := [0, 1] } }

/-- Three pools with no queued task; tasks 0 to 99 wait on condition 0, task
`t` being a member of pool `t % 3`. -/
def broadcast_hundred : State :=
  { State.empty with
    npool := 3
    ncond := 1
    tasks := fun t => if t < 100 then parked_task (t % 3) else State.empty.tasks t
    pools := fun _ =>
      { ntasks := 34, refcount := 35, waiting_list := [],
        waiting_condition := { blocked := 1, list := [] } }
    conds := fun c => if c = 0 then { blocked := 0, list := List.range 100 }
      else { blocked := 0, list := [] } }

/-- The heap at the moment the task `task` is running on the thread. -/
def State.running (s : State) (task : Nat) : State :=
  { s with libtask_current_task := some task }

/-- The heap at a moment the thread runs no task. -/
def State.idle (s : State) : State :=
  { s with libtask_current_task := none }

/-- The operations on a semaphore: an up, a down called by a running task,
or a down called by a thread that runs no task. -/
inductive SemOp where
  | up
  | down (task : Nat)
  | thread_down

/-- A run of semaphore operations: the heap reached, the number of ups, and
the number of downs that have completed, either because they returned at
once or because an up released them. -/
structure SemRun where
  heap : State
  ups : Nat
  downs : Nat

/-- One semaphore operation on the semaphore `sem`; `none` when the call aborts. -/
def SemRun.step (sem : Nat) (r : SemRun) : SemOp → Option SemRun
  | .up =>
    match libtask_semaphore_up r.heap sem with
    | .ret _ s1 =>
      some
        { heap := s1
          ups := r.ups + 1
          downs := if (r.heap.sems sem).waiting_list.isEmpty then r.downs else r.downs + 1 }
    | .susp _ _ => none
    | .abort => none
    | .timeout => none
  | .down task =>
    match libtask_semaphore_down (r.heap.running task) sem with
    | .ret error s1 =>
      some { heap := s1, ups := r.ups, downs := if error == 0 then r.downs + 1 else r.downs }
    | .susp _ s1 => some { heap := s1, ups := r.ups, downs := r.downs }
    | .abort => none
    | .timeout => none
  | .thread_down =>
    match libtask_semaphore_down r.heap.idle sem with
    | .ret error s1 =>
      some { heap := s1, ups := r.ups, downs := if error == 0 then r.downs + 1 else r.downs }
    | .susp _ s1 => some { heap := s1, ups := r.ups, downs := r.downs }
    | .abort => none
    | .timeout => none

/-- A sequence of semaphore operations, one after the other. -/
def run_sem_ops (sem : Nat) : List SemOp → SemRun → Option SemRun
  | [], r => some r
  | op :: ops, r =>
    match r.step sem op with
    | some r1 => run_sem_ops sem ops r1
    | none => none

/-- What a run keeps true of the semaphore `sem` initialised with `C`. -/
def SemInv (sem : Nat) (C : Int) (r : SemRun) : Prop :=
  (r.heap.sems sem).count = C + r.ups - r.downs ∧ 0 ≤ (r.heap.sems sem).count ∧
    ((r.heap.sems sem).waiting_list ≠ [] → (r.heap.sems sem).count = 0) ∧
    (r.heap.sems sem).count ≤ 2147483647

/-- Whether the operation leaves the counter of the semaphore inside the
range of an `int32_t`: an up on an empty waiting list, which increments the
counter, must not find it at 2147483647. -/
def SemOp.fits (sem : Nat) (r : SemRun) : SemOp → Bool
  | .up => !(r.heap.sems sem).waiting_list.isEmpty || decide ((r.heap.sems sem).count < 2147483647)
  | _ => true

/-- Whether every operation of the run fits, each in the heap it is applied to. -/
def no_overflow (sem : Nat) : List SemOp → SemRun → Bool
  | [], _ => true
  | op :: ops, r =>
    op.fits sem r &&
      match r.step sem op with
      | some r1 => no_overflow sem ops r1
      | none => true

/-- The run an optional result holds. -/
def the_run (r : Option SemRun) : SemRun :=
  r.getD { heap := State.empty, ups := 0, downs := 0 }

/-- One pool with the two member tasks 0 and 1, both off the runnable list,
and one allocated semaphore. -/
def sem_scene : State :=
  { State.empty with
    npool := 1
    nsem := 1
    tasks := fun t => if t < 2 then parked_task 0 else State.empty.tasks t
    pools := fun _ =>
      { ntasks := 2, refcount := 3, waiting_list := [],
        waiting_condition := { blocked := 0, list := [] } } }

/-- The heap `sem_scene` after `libtask_semaphore_initialize` of semaphore 0 with `count`. -/
def sem_fresh (count : Int) : State :=
  sem_scene.setSem 0 { count := count, waiting_list := [] }

/-- A run on a semaphore: a down that returns at once, a down that parks, the
up that releases it, and one more up. -/
def sem_ops_example : List SemOp :=
  [.down 0, .down 1, .up, .up]

/-- A run on a semaphore: a down from a thread, which is refused, two downs
that park and one up. -/
def sem_ops_parked : List SemOp :=
  [.thread_down, .down 0, .down 1, .up]

/-- The heap a call leaves, the empty heap when it aborts. -/
def Res.heap {α : Type} : Res α → State
  | .ret _ s => s
  | .susp _ s => s
  | .abort => State.empty
  | .timeout => State.empty

/-- An entry function that calls `libtask_task_yield` three times and returns 0. -/
def yield_thrice : Entry :=
  { calls := [.task_yield, .task_yield, .task_yield], value := fun _ => 0 }

/-- A pool (0) into which two tasks A (0) and B (1) with the entry
`yield_thrice` have been inserted, in that order, on the empty heap. -/
def yield_scene : State :=
  let s1 := (libtask_task_pool_create State.empty).heap
  let s2 := (libtask_task_create s1 yield_thrice 0 4096).heap
  let s3 := (libtask_task_create s2 yield_thrice 0 4096).heap
  let s4 := (libtask_task_pool_insert s3 0 0).heap
  (libtask_task_pool_insert s4 0 1).heap

/-- Two pools: task 0 is the only member of pool 0 and is off its runnable
list, task 1 is the only member of pool 1 and is queued there, task 2 has no
pool. -/
def switch_scene : State :=
  { State.empty with
    npool := 2
    ntask := 3
    tasks := fun t =>
      if t = 0 then parked_task 0
      else if t = 1 then parked_task 1
      else { parked_task 0 with task_pool := none }
    pools := fun p =>
      if p = 0 then
        { ntasks := 1, refcount := 2, waiting_list := [],
          waiting_condition := { blocked := 0, list := [] } }
      else
        { ntasks := 1, refcount := 2, waiting_list := [1],
          waiting_condition := { blocked := 0, list := [] } } }

/-- A pointer to a list of waiting tasks: the `waiting_list` of a pool, the
`list` of a condition or the `waiting_list` of a semaphore. -/
inductive QueueRef where
  | pool (p : Nat)
  | cond (c : CondRef)
  | sem (m : Nat)
  deriving DecidableEq

/-- The content of a list of waiting tasks. -/
def State.queue (s : State) : QueueRef → List Nat
  | .pool p => (s.pools p).waiting_list
  | .cond c => (s.cond c).list
  | .sem m => (s.sems m).waiting_list

/-- A list pointer that points into an allocated object. -/
def QueueRef.allocated (s : State) : QueueRef → Prop
  | .pool p => p < s.npool
  | .cond c => c.allocated s
  | .sem m => m < s.nsem

/-- Pool 0 with one idle worker thread blocked on its waiting condition and
an empty waiting list.  Task 0 has no pool; tasks 1, 2 and 3 are members of
pool 0 and off its waiting list: task 1 is running, task 2 waits on
semaphore 0 and task 3 waits on condition 0. -/
def idle_worker_scene : State :=
  { State.empty with
    ntask := 4
    npool := 1
    ncond := 1
    nsem := 1
    tasks := fun t =>
      if t = 0 then { parked_task 0 with task_pool := none }
      else if t < 4 then parked_task 0
      else State.empty.tasks t
    pools := fun _ =>
      { ntasks := 3, refcount := 4, waiting_list := [],
        waiting_condition := { blocked := 1, list := [] } }
    conds := fun _ => { blocked := 0, list := [3] }
    sems := fun _ => { count := 0, waiting_list := [2] } }

/-- An entry function that calls `libtask_task_finalize` on task 0 and returns 0. -/
def finalize_self : Entry :=
  { calls := [.task_finalize 0], value := fun _ => 0 }

/-- The empty heap after `libtask_task_create` of a task (task 0) with the
entry `finalize_self`: the creator holds the only reference. -/
def finalize_scene : State :=
  (libtask_task_create State.empty finalize_self 0 4096).heap

/-- Every task queued on an allocated condition is a member of an allocated pool. -/
def State.waiters_have_pools (s : State) : Prop :=
  ∀ c : CondRef, c.allocated s → ∀ t ∈ (s.cond c).list,
    ∃ p, (s.tasks t).task_pool = some p ∧ p < s.npool

/-- The heap a call leaves behind when it returns or swaps its caller out;
`none` when the call aborts or runs out of budget. -/
def Res.after {α : Type} : Res α → Option State
  | .ret _ s => some s
  | .susp _ s => some s
  | .abort => none
  | .timeout => none

/-- The heap as the caller of a library call sees it: `libtask_current_task`
is the calling task, `none` for a call made by a thread. -/
def State.called_by (s : State) (caller : Option Nat) : State :=
  { s with libtask_current_task := caller }

/-- What the library never changes after a task was created: the allocation
counters, and for every task the flag `complete` and the saved context. -/
def Framed (s s' : State) : Prop :=
  s'.ntask = s.ntask ∧ s'.npool = s.npool ∧ s'.ncond = s.ncond ∧ s'.nsem = s.nsem ∧
    ∀ t, (s'.tasks t).complete = (s.tasks t).complete ∧
      (s'.tasks t).uct_self = (s.tasks t).uct_self

/-- The same as `Framed` for every task but `task`. -/
def FramedExcept (task : Nat) (s s' : State) : Prop :=
  s'.ntask = s.ntask ∧ s'.npool = s.npool ∧ s'.ncond = s.ncond ∧ s'.nsem = s.nsem ∧
    ∀ t, t ≠ task → (s'.tasks t).complete = (s.tasks t).complete ∧
      (s'.tasks t).uct_self = (s.tasks t).uct_self

/-- The public operations on the lists of waiting tasks. -/
inductive Op where
  | pool_insert (pool task : Nat)
  | pool_erase (pool task : Nat)
  | pool_push_back (pool task : Nat)
  | pool_pop_front (pool : Nat)
  | pool_switch (pool : Nat) (oldp : Bool)
  | task_yield
  | task_schedule (task : Nat)
  | condition_wait (cond : CondRef)
  | condition_signal (cond : CondRef)
  | condition_broadcast (cond : CondRef)
  | semaphore_up (sem : Nat)
  | semaphore_down (sem : Nat)
  deriving DecidableEq

/-- One operation made by `caller`; `none` when it aborts. -/
def Op.run (s : State) (caller : Option Nat) : Op → Option State
  | .pool_insert pool task => (libtask_task_pool_insert (s.called_by caller) pool task).after
  | .pool_erase pool task => (libtask_task_pool_erase (s.called_by caller) pool task).after
  | .pool_push_back pool task =>
    (libtask_task_pool_push_back (s.called_by caller) pool task).after
  | .pool_pop_front pool => (libtask_task_pool_pop_front (s.called_by caller) pool).after
  | .pool_switch pool oldp => (libtask_task_pool_switch (s.called_by caller) pool oldp).after
  | .task_yield => (libtask_task_yield (s.called_by caller)).after
  | .task_schedule task => (libtask_task_schedule (s.called_by caller) task).after
  | .condition_wait cond => (libtask_condition_wait (s.called_by caller) cond).after
  | .condition_signal cond => (libtask_condition_signal (s.called_by caller) cond).after
  | .condition_broadcast cond => (libtask_condition_broadcast (s.called_by caller) cond).after
  | .semaphore_up sem => (libtask_semaphore_up (s.called_by caller) sem).after
  | .semaphore_down sem => (libtask_semaphore_down (s.called_by caller) sem).after

/-- A sequence of operations, each with its caller; `none` when one aborts. -/
def run_ops : List (Option Nat × Op) → State → Option State
  | [], s => some s
  | (caller, op) :: rest, s =>
    match op.run s caller with
    | some s1 => run_ops rest s1
    | none => none

/-- The public operations of the library on existing and new objects. -/
inductive LifeOp where
  | queue (caller : Option Nat) (op : Op)
  | task_create (function : Entry) (argument : Int) (stack_size : Nat)
  | task_execute (task : Nat)
  | task_suspend (caller : Option Nat)
  | task_finalize (caller : Option Nat) (task : Nat)
  | task_pool_create

/-- One public operation; `none` when it aborts. -/
def LifeOp.run (s : State) : LifeOp → Option State
  | .queue caller op => op.run s caller
  | .task_create function argument stack_size =>
    (libtask_task_create s function argument stack_size).after
  | .task_execute task => (libtask_task_execute (s.called_by none) task).after
  | .task_suspend caller => (libtask_task_suspend (s.called_by caller)).after
  | .task_finalize caller task => (libtask_task_finalize (s.called_by caller) task).after
  | .task_pool_create => (libtask_task_pool_create s).after

/-- A sequence of public operations; `none` when one aborts. -/
def run_life_ops : List LifeOp → State → Option State
  | [], s => some s
  | op :: rest, s =>
    match op.run s with
    | some s1 => run_life_ops rest s1
    | none => none

/-- Whether the operation enters the entry function of `task` at its start:
an execute of the task while it is not complete and its saved context is the
one `makecontext` set up. -/
def enters_function (s : State) (task : Nat) : LifeOp → Bool
  | .task_execute t => t == task && !(s.tasks task).complete && (s.tasks task).uct_self == .main
  | _ => false

/-- How often a sequence of public operations enters the entry function of `task`. -/
def entries (task : Nat) : List LifeOp → State → Nat
  | [], _ => 0
  | op :: rest, s =>
    (if enters_function s task op then 1 else 0) +
      match op.run s with
      | some s1 => entries task rest s1
      | none => 0

/-- An entry function that makes no call and returns its argument plus one. -/
def successor : Entry :=
  { calls := [], value := fun x => x + 1 }

/-- The empty heap after the creation of task 0 with the entry `successor`
and one `libtask_task_execute` of it: the task is complete. -/
def completed_scene : State :=
  (libtask_task_execute (libtask_task_create State.empty successor 41 4096).heap 0).heap

/-- The wait link of `task` is in no list. -/
def State.unlinked (s : State) (task : Nat) : Prop :=
  ∀ q, task ∉ s.queue q

/-- Wait-link exclusivity: no list of waiting tasks holds a task twice, and
no task is in two lists. -/
def Exclusive (s : State) : Prop :=
  (∀ q, (s.queue q).Nodup) ∧ ∀ t q q', t ∈ s.queue q → t ∈ s.queue q' → q = q'

/-- A heap of freshly created objects: every list of waiting tasks is empty
and no task is complete. -/
def State.fresh (s : State) : Prop :=
  (∀ q, s.queue q = []) ∧ ∀ t, (s.tasks t).complete = false

/-- The calls that queue a wait link without unlinking it first are made
with a link that is in no list: `libtask_task_pool_insert` of such a task,
`libtask_condition_wait` and `libtask_semaphore_down` by such a task. -/
def Op.disciplined (s : State) (caller : Option Nat) : Op → Prop
  | .pool_insert _ task => s.unlinked task
  | .condition_wait _ => ∀ t, caller = some t → s.unlinked t
  | .semaphore_down _ => ∀ t, caller = some t → s.unlinked t
  | _ => True

/-- Every operation of the sequence is disciplined in the heap it is applied to. -/
def disciplined : List (Option Nat × Op) → State → Prop
  | [], _ => True
  | (caller, op) :: rest, s =>
    op.disciplined s caller ∧ ∀ s1, op.run s caller = some s1 → disciplined rest s1

/-- One task, one pool, one condition and one semaphore with count 0, freshly created. -/
def exclusive_fresh : State :=
  { State.empty with ntask := 1, npool := 1, ncond := 1, nsem := 1 }

/-- Task 0 is inserted into pool 0, popped by a worker, and parks on
semaphore 0; an up hands it back to the pool, a worker pops it again, it
waits on condition 0, is woken by a broadcast and yields after the next pop. -/
def exclusive_run : List (Option Nat × Op) :=
  [(none, .pool_insert 0 0), (none, .pool_pop_front 0), (some 0, .semaphore_down 0),
    (none, .semaphore_up 0), (none, .pool_pop_front 0), (some 0, .condition_wait (.cond 0)),
    (none, .condition_broadcast (.cond 0)), (none, .pool_pop_front 0), (some 0, .task_yield)]

/-- The heap after the first `k` operations of `exclusive_run`. -/
def exclusive_at (k : Nat) : State :=
  the_state (run_ops (exclusive_run.take k) exclusive_fresh)

/-- The pool of every task queued on an allocated condition, if it has one,
is an allocated pool. -/
def State.waiter_pools_allocated (s : State) : Prop :=
  ∀ c : CondRef, c.allocated s → ∀ t ∈ (s.cond c).list,
    ∀ p, (s.tasks t).task_pool = some p → p < s.npool

/-- A heap with one task (task 0) that was set up by `libtask_task_initialize`
in storage of its owner, with the entry `finalize_self`: nobody holds a
reference to it. -/
def embedded_scene : State :=
  ( libtask_task_initialize { State.empty with ntask := 1 } 0 finalize_self 0 4096).heap

/-- The tasks queued on `cond`, when `cond` uses the spinlock of a pool `p`,
are members of `p` or of pools that `rank` puts below `p`. -/
def State.descends (s : State) (rank : Nat → Nat) (cond : CondRef) : Prop :=
  ∀ p, s.spinlock cond = some p → ∀ t ∈ (s.cond cond).list, ∀ q,
    (s.tasks t).task_pool = some q → q = p ∨ rank q < rank p

/-- The waiting condition of every allocated pool holds members of the pool
and of pools that `rank` puts below it. -/
def State.ordered (s : State) (rank : Nat → Nat) : Prop :=
  ∀ p, p < s.npool → s.descends rank (.waiting_condition p)

/-- The spinlocks `held` by the caller of an operation on `cond` are those
of pools that `rank` does not put below the pool whose spinlock `cond` uses;
none is held when `cond` uses no spinlock of a pool. -/
def State.holds_above (s : State) (rank : Nat → Nat) (held : List Nat) (cond : CondRef) :
    Prop :=
  (s.spinlock cond = none → held = []) ∧
    ∀ p, s.spinlock cond = some p → ∀ h ∈ held, rank p ≤ rank h

/-- Pools 0 and 1, each with one member (tasks 0 and 1) that is parked on
the waiting condition of the other pool. -/
def signal_cycle : State :=
  { State.empty with
    ntask := 2
    npool := 2
    tasks := fun t => if t < 2 then parked_task t else State.empty.tasks t
    pools := fun p =>
      { ntasks := 1, refcount := 2, waiting_list := [],
        waiting_condition := { blocked := 0, list := if p = 0 then [1] else [0] } } }

/-! ## Projections of the heap after a store -/

@[simp] theorem setTask_tasks (s : State) (task : Nat) (x : libtask_task_t) :
    (s.setTask task x).tasks = Function.update s.tasks task x := rfl

@[simp] theorem setTask_pools (s : State) (task : Nat) (x : libtask_task_t) :
    (s.setTask task x).pools = s.pools := rfl

@[simp] theorem setTask_conds (s : State) (task : Nat) (x : libtask_task_t) :
    (s.setTask task x).conds = s.conds := rfl

@[simp] theorem setTask_sems (s : State) (task : Nat) (x : libtask_task_t) :
    (s.setTask task x).sems = s.sems := rfl

@[simp] theorem setTask_ntask (s : State) (task : Nat) (x : libtask_task_t) :
    (s.setTask task x).ntask = s.ntask := rfl

@[simp] theorem setTask_npool (s : State) (task : Nat) (x : libtask_task_t) :
    (s.setTask task x).npool = s.npool := rfl

@[simp] theorem setTask_ncond (s : State) (task : Nat) (x : libtask_task_t) :
    (s.setTask task x).ncond = s.ncond := rfl

@[simp] theorem setTask_nsem (s : State) (task : Nat) (x : libtask_task_t) :
    (s.setTask task x).nsem = s.nsem := rfl

@[simp] theorem setTask_all_task_list (s : State) (task : Nat) (x : libtask_task_t) :
    (s.setTask task x).all_task_list = s.all_task_list := rfl

@[simp] theorem setTask_libtask_current_task (s : State) (task : Nat) (x : libtask_task_t) :
    (s.setTask task x).libtask_current_task = s.libtask_current_task := rfl

@[simp] theorem setPool_tasks (s : State) (pool : Nat) (x : libtask_task_pool_t) :
    (s.setPool pool x).tasks = s.tasks := rfl

@[simp] theorem setPool_pools (s : State) (pool : Nat) (x : libtask_task_pool_t) :
    (s.setPool pool x).pools = Function.update s.pools pool x := rfl

@[simp] theorem setPool_conds (s : State) (pool : Nat) (x : libtask_task_pool_t) :
    (s.setPool pool x).conds = s.conds := rfl

@[simp] theorem setPool_sems (s : State) (pool : Nat) (x : libtask_task_pool_t) :
    (s.setPool pool x).sems = s.sems := rfl

@[simp] theorem setPool_ntask (s : State) (pool : Nat) (x : libtask_task_pool_t) :
    (s.setPool pool x).ntask = s.ntask := rfl

@[simp] theorem setPool_npool (s : State) (pool : Nat) (x : libtask_task_pool_t) :
    (s.setPool pool x).npool = s.npool := rfl

@[simp] theorem setPool_ncond (s : State) (pool : Nat) (x : libtask_task_pool_t) :
    (s.setPool pool x).ncond = s.ncond := rfl

@[simp] theorem setPool_nsem (s : State) (pool : Nat) (x : libtask_task_pool_t) :
    (s.setPool pool x).nsem = s.nsem := rfl

@[simp] theorem setPool_all_task_list (s : State) (pool : Nat) (x : libtask_task_pool_t) :
    (s.setPool pool x).all_task_list = s.all_task_list := rfl

@[simp] theorem setPool_libtask_current_task (s : State) (pool : Nat) (x : libtask_task_pool_t) :
    (s.setPool pool x).libtask_current_task = s.libtask_current_task := rfl

@[simp] theorem setSem_tasks (s : State) (sem : Nat) (x : libtask_semaphore_t) :
    (s.setSem sem x).tasks = s.tasks := rfl

@[simp] theorem setSem_pools (s : State) (sem : Nat) (x : libtask_semaphore_t) :
    (s.setSem sem x).pools = s.pools := rfl

@[simp] theorem setSem_conds (s : State) (sem : Nat) (x : libtask_semaphore_t) :
    (s.setSem sem x).conds = s.conds := rfl

@[simp] theorem setSem_sems (s : State) (sem : Nat) (x : libtask_semaphore_t) :
    (s.setSem sem x).sems = Function.update s.sems sem x := rfl

@[simp] theorem setSem_ntask (s : State) (sem : Nat) (x : libtask_semaphore_t) :
    (s.setSem sem x).ntask = s.ntask := rfl

@[simp] theorem setSem_npool (s : State) (sem : Nat) (x : libtask_semaphore_t) :
    (s.setSem sem x).npool = s.npool := rfl

@[simp] theorem setSem_ncond (s : State) (sem : Nat) (x : libtask_semaphore_t) :
    (s.setSem sem x).ncond = s.ncond := rfl

@[simp] theorem setSem_nsem (s : State) (sem : Nat) (x : libtask_semaphore_t) :
    (s.setSem sem x).nsem = s.nsem := rfl

@[simp] theorem setSem_all_task_list (s : State) (sem : Nat) (x : libtask_semaphore_t) :
    (s.setSem sem x).all_task_list = s.all_task_list := rfl

@[simp] theorem setSem_libtask_current_task (s : State) (sem : Nat) (x : libtask_semaphore_t) :
    (s.setSem sem x).libtask_current_task = s.libtask_current_task := rfl

@[simp] theorem setCond_tasks (s : State) (r : CondRef) (x : libtask_condition_t) :
    (s.setCond r x).tasks = s.tasks := by
  cases r <;> rfl

@[simp] theorem libtask_list_erase_tasks (s : State) (task : Nat) :
    (libtask_list_erase s task).tasks = s.tasks := rfl

@[simp] theorem setCond_sems (s : State) (r : CondRef) (x : libtask_condition_t) :
    (s.setCond r x).sems = s.sems := by
  cases r <;> rfl

@[simp] theorem setCond_ntask (s : State) (r : CondRef) (x : libtask_condition_t) :
    (s.setCond r x).ntask = s.ntask := by
  cases r <;> rfl

@[simp] theorem libtask_list_erase_ntask (s : State) (task : Nat) :
    (libtask_list_erase s task).ntask = s.ntask := rfl

@[simp] theorem setCond_npool (s : State) (r : CondRef) (x : libtask_condition_t) :
    (s.setCond r x).npool = s.npool := by
  cases r <;> rfl

@[simp] theorem libtask_list_erase_npool (s : State) (task : Nat) :
    (libtask_list_erase s task).npool = s.npool := rfl

@[simp] theorem setCond_ncond (s : State) (r : CondRef) (x : libtask_condition_t) :
    (s.setCond r x).ncond = s.ncond := by
  cases r <;> rfl

@[simp] theorem libtask_list_erase_ncond (s : State) (task : Nat) :
    (libtask_list_erase s task).ncond = s.ncond := rfl

@[simp] theorem setCond_nsem (s : State) (r : CondRef) (x : libtask_condition_t) :
    (s.setCond r x).nsem = s.nsem := by
  cases r <;> rfl

@[simp] theorem libtask_list_erase_nsem (s : State) (task : Nat) :
    (libtask_list_erase s task).nsem = s.nsem := rfl

@[simp] theorem setCond_all_task_list (s : State) (r : CondRef) (x : libtask_condition_t) :
    (s.setCond r x).all_task_list = s.all_task_list := by
  cases r <;> rfl

@[simp] theorem libtask_list_erase_all_task_list (s : State) (task : Nat) :
    (libtask_list_erase s task).all_task_list = s.all_task_list := rfl

@[simp] theorem setCond_libtask_current_task (s : State) (r : CondRef) (x : libtask_condition_t) :
    (s.setCond r x).libtask_current_task = s.libtask_current_task := by
  cases r <;> rfl

@[simp] theorem libtask_list_erase_libtask_current_task (s : State) (task : Nat) :
    (libtask_list_erase s task).libtask_current_task = s.libtask_current_task := rfl

@[simp] theorem setCond_cond_pools (s : State) (c : Nat) (x : libtask_condition_t) :
    (s.setCond (.cond c) x).pools = s.pools := rfl

@[simp] theorem setCond_cond_conds (s : State) (c : Nat) (x : libtask_condition_t) :
    (s.setCond (.cond c) x).conds = Function.update s.conds c x := rfl

@[simp] theorem setCond_waiting_condition_conds (s : State) (p : Nat) (x : libtask_condition_t) :
    (s.setCond (.waiting_condition p) x).conds = s.conds := rfl

@[simp] theorem setCond_waiting_condition_pools (s : State) (p : Nat) (x : libtask_condition_t) :
    (s.setCond (.waiting_condition p) x).pools =
      Function.update s.pools p { s.pools p with waiting_condition := x } := rfl

@[simp] theorem setCond_pool_ntasks (s : State) (r : CondRef) (x : libtask_condition_t) (q : Nat) :
    ((s.setCond r x).pools q).ntasks = (s.pools q).ntasks := by
  cases r with
  | cond c => rfl
  | waiting_condition p =>
    by_cases h : q = p
    · subst h; simp
    · simp [Function.update_noteq h]

@[simp] theorem setCond_pool_waiting_list (s : State) (r : CondRef) (x : libtask_condition_t)
    (q : Nat) : ((s.setCond r x).pools q).waiting_list = (s.pools q).waiting_list := by
  cases r with
  | cond c => rfl
  | waiting_condition p =>
    by_cases h : q = p
    · subst h; simp
    · simp [Function.update_noteq h]

@[simp] theorem setCond_pool_refcount (s : State) (r : CondRef) (x : libtask_condition_t)
    (q : Nat) : ((s.setCond r x).pools q).refcount = (s.pools q).refcount := by
  cases r with
  | cond c => rfl
  | waiting_condition p =>
    by_cases h : q = p
    · subst h; simp
    · simp [Function.update_noteq h]

@[simp] theorem cond_setCond_same (s : State) (r : CondRef) (x : libtask_condition_t) :
    (s.setCond r x).cond r = x := by
  cases r <;> simp [State.cond, State.setCond]

theorem cond_setCond_ne (s : State) {r r' : CondRef} (x : libtask_condition_t) (h : r' ≠ r) :
    (s.setCond r x).cond r' = s.cond r' := by
  cases r with
  | cond c =>
    cases r' with
    | cond c' =>
      have : c' ≠ c := fun e => h (by rw [e])
      simp [State.cond, Function.update_noteq this]
    | waiting_condition p' => simp [State.cond]
  | waiting_condition p =>
    cases r' with
    | cond c' => simp [State.cond]
    | waiting_condition p' =>
      have : p' ≠ p := fun e => h (by rw [e])
      simp [State.cond, Function.update_noteq this]

@[simp] theorem libtask_list_erase_pool_waiting_list (s : State) (task q : Nat) :
    ((libtask_list_erase s task).pools q).waiting_list = unlink task (s.pools q).waiting_list :=
  rfl

@[simp] theorem libtask_list_erase_pool_ntasks (s : State) (task q : Nat) :
    ((libtask_list_erase s task).pools q).ntasks = (s.pools q).ntasks := rfl

@[simp] theorem libtask_list_erase_pool_refcount (s : State) (task q : Nat) :
    ((libtask_list_erase s task).pools q).refcount = (s.pools q).refcount := rfl

@[simp] theorem libtask_list_erase_sem_count (s : State) (task m : Nat) :
    ((libtask_list_erase s task).sems m).count = (s.sems m).count := rfl

@[simp] theorem libtask_list_erase_sem_waiting_list (s : State) (task m : Nat) :
    ((libtask_list_erase s task).sems m).waiting_list = unlink task (s.sems m).waiting_list :=
  rfl

/-! ## Facts about the list primitives -/

theorem unlink_eq_self {task : Nat} {list : List Nat} (h : task ∉ list) :
    unlink task list = list := by
  unfold unlink
  rw [List.filter_eq_self]
  intro a ha
  have : a ≠ task := fun e => h (e ▸ ha)
  simpa using this

theorem not_mem_unlink (task : Nat) (list : List Nat) : task ∉ unlink task list := by
  simp [unlink]

theorem mem_unlink {task x : Nat} {list : List Nat} :
    x ∈ unlink task list ↔ x ∈ list ∧ x ≠ task := by
  simp [unlink]

theorem nodup_unlink {task : Nat} {list : List Nat} (h : list.Nodup) :
    (unlink task list).Nodup :=
  h.filter _

theorem link_empty_after_erase (s : State) (task : Nat) :
    libtask_list_empty_link (libtask_list_erase s task) task = true := by
  simp [libtask_list_empty_link, libtask_list_erase, unlink]

theorem not_mem_of_link_empty {s : State} {task pool : Nat} (hp : pool < s.npool)
    (h : libtask_list_empty_link s task = true) : task ∉ (s.pools pool).waiting_list := by
  simp only [libtask_list_empty_link, Bool.not_eq_true', Bool.or_eq_false_iff,
    List.any_eq_false, List.mem_range] at h
  have := h.1.1 pool hp
  simp at this
  exact this.1

theorem unlink_if_linked_link_empty (s : State) (task : Nat) :
    libtask_list_empty_link (unlink_if_linked s task) task = true := by
  unfold unlink_if_linked
  by_cases h : libtask_list_empty_link s task = true
  · simp [h]
  · simp only [Bool.not_eq_true] at h
    simp [h, link_empty_after_erase]

theorem unlink_if_linked_tasks (s : State) (task : Nat) :
    (unlink_if_linked s task).tasks = s.tasks := by
  unfold unlink_if_linked
  split <;> rfl

theorem unlink_if_linked_current (s : State) (task : Nat) :
    (unlink_if_linked s task).libtask_current_task = s.libtask_current_task := by
  unfold unlink_if_linked
  split <;> rfl

theorem unlink_if_linked_npool (s : State) (task : Nat) :
    (unlink_if_linked s task).npool = s.npool := by
  unfold unlink_if_linked
  split <;> rfl

theorem unlink_if_linked_ntasks (s : State) (task q : Nat) :
    ((unlink_if_linked s task).pools q).ntasks = (s.pools q).ntasks := by
  unfold unlink_if_linked
  split <;> rfl

theorem unlink_if_linked_refcount (s : State) (task q : Nat) :
    ((unlink_if_linked s task).pools q).refcount = (s.pools q).refcount := by
  unfold unlink_if_linked
  split <;> rfl

theorem unlink_if_linked_waiting_list {s : State} {q : Nat} (task : Nat) (hq : q < s.npool) :
    ((unlink_if_linked s task).pools q).waiting_list = unlink task (s.pools q).waiting_list := by
  unfold unlink_if_linked
  by_cases h : libtask_list_empty_link s task = true
  · simp only [h, Bool.not_true, Bool.false_eq_true, if_false]
    exact (unlink_eq_self (not_mem_of_link_empty hq h)).symm
  · simp only [Bool.not_eq_true] at h
    simp [h, libtask_list_erase]

/-- What `libtask_task_pool_erase` does to a member of a pool with a positive counter. -/
theorem libtask_task_pool_erase_member {s : State} {pool task : Nat}
    (hm : (s.tasks task).task_pool = some pool) (hn : 1 ≤ (s.pools pool).ntasks) :
    libtask_task_pool_erase s pool task =
      .ret 0
        ((unlink_if_linked
            ((s.setPool pool { s.pools pool with ntasks := (s.pools pool).ntasks - 1 }).setTask
              task { s.tasks task with task_pool := none }) task).setPool pool
          { (unlink_if_linked
              ((s.setPool pool { s.pools pool with ntasks := (s.pools pool).ntasks - 1 }).setTask
                task { s.tasks task with task_pool := none }) task).pools pool with
            refcount := (s.pools pool).refcount - 1 }) := by
  unfold libtask_task_pool_erase
  simp only [hm, ne_eq, not_true_eq_false, if_false]
  have h1 : ¬ ((s.setPool pool
      { s.pools pool with ntasks := (s.pools pool).ntasks - 1 }).pools pool).ntasks < 0 := by
    simp only [State.setPool, Function.update_same]
    omega
  simp only [h1, if_false]
  rw [if_neg]
  · simp [unlink_if_linked_refcount, State.setPool, State.setTask]
  · rw [unlink_if_linked_link_empty]
    simp

/-- A task of another pool is refused and nothing changes. -/
theorem libtask_task_pool_erase_foreign {s : State} {pool task : Nat}
    (hm : (s.tasks task).task_pool ≠ some pool) :
    libtask_task_pool_erase s pool task = .ret EINVAL s := by
  unfold libtask_task_pool_erase
  simp [hm]

/-! ## The pool accounting invariant -/

theorem PoolInv.length_le {s : State} {pool : Nat} {M : Finset Nat} (h : PoolInv s pool M) :
    ((s.pools pool).waiting_list.length : Int) ≤ (s.pools pool).ntasks := by
  obtain ⟨_, _, hn, hnd, hsub⟩ := h
  rw [hn]
  have : (s.pools pool).waiting_list.toFinset ⊆ M := by
    intro x hx
    exact hsub x (List.mem_toFinset.mp hx)
  have h2 := Finset.card_le_card this
  rw [List.toFinset_card_of_nodup hnd] at h2
  exact_mod_cast h2

theorem PoolInv.insert {s s1 : State} {pool task : Nat} {M : Finset Nat} {e : error_t}
    (h : PoolInv s pool M) (hr : libtask_task_pool_insert s pool task = .ret e s1) :
    PoolInv s1 pool (insert task M) := by
  obtain ⟨hp, hM, hn, hnd, hsub⟩ := h
  unfold libtask_task_pool_insert at hr
  split at hr
  · cases hr
  · rename_i hnone
    simp only [ne_eq, not_not] at hnone
    injection hr with _ hs
    subst hs
    have htM : task ∉ M := by
      intro hm
      rw [(hM task).mp hm] at hnone
      cases hnone
    have htl : task ∉ (s.pools pool).waiting_list := fun hm => htM (hsub _ hm)
    refine ⟨hp, ?_, ?_, ?_, ?_⟩
    · intro t
      by_cases ht : t = task
      · subst ht
        simp
      · simp [Function.update_apply, ht, hM]
    · simp [Finset.card_insert_of_not_mem htM, hn]
    · simp only [setPool_pools, setTask_pools, Function.update_same, libtask_list_push_back]
      exact List.Nodup.append hnd (List.nodup_singleton _) (by simpa using htl)
    · intro t ht
      simp only [setPool_pools, setTask_pools, Function.update_same, libtask_list_push_back,
        List.mem_append, List.mem_singleton] at ht
      rcases ht with ht | ht
      · exact Finset.mem_insert_of_mem (hsub t ht)
      · exact ht ▸ Finset.mem_insert_self _ _

theorem PoolInv.erase {s s1 : State} {pool task : Nat} {M : Finset Nat} {e : error_t}
    (h : PoolInv s pool M) (hr : libtask_task_pool_erase s pool task = .ret e s1) :
    PoolInv s1 pool (if (s.tasks task).task_pool = some pool then M.erase task else M) := by
  by_cases hmem : (s.tasks task).task_pool = some pool
  · obtain ⟨hp, hM, hn, hnd, hsub⟩ := h
    have htM : task ∈ M := (hM task).mpr hmem
    have hc : 1 ≤ M.card := Finset.card_pos.mpr ⟨task, htM⟩
    rw [libtask_task_pool_erase_member hmem (by omega)] at hr
    injection hr with _ hs
    subst hs
    simp only [hmem, if_true]
    have hp2 : pool < ((s.setPool pool { s.pools pool with
        ntasks := (s.pools pool).ntasks - 1 }).setTask task
          { s.tasks task with task_pool := none }).npool := hp
    refine ⟨?_, ?_, ?_, ?_, ?_⟩
    · simpa [unlink_if_linked_npool] using hp
    · intro t
      simp only [setPool_tasks, unlink_if_linked_tasks, setTask_tasks, Function.update_apply]
      by_cases ht : t = task
      · subst ht; simp
      · simp [ht, hM]
    · simp only [setPool_pools, Function.update_same, unlink_if_linked_ntasks, setTask_pools]
      rw [Finset.card_erase_of_mem htM, hn]
      omega
    · simp only [setPool_pools, Function.update_same]
      rw [unlink_if_linked_waiting_list task hp2]
      simpa using nodup_unlink hnd
    · intro t ht
      simp only [setPool_pools, Function.update_same] at ht
      rw [unlink_if_linked_waiting_list task hp2] at ht
      simp only [setPool_pools, setTask_pools, Function.update_same, mem_unlink] at ht
      exact Finset.mem_erase.mpr ⟨ht.2, hsub t ht.1⟩
  · rw [libtask_task_pool_erase_foreign hmem] at hr
    injection hr with _ hs
    subst hs
    simpa [hmem] using h

theorem PoolInv.push_back {s s1 : State} {pool task : Nat} {M : Finset Nat} {e : error_t}
    (h : PoolInv s pool M) (hr : libtask_task_pool_push_back s pool task = .ret e s1) :
    PoolInv s1 pool M := by
  obtain ⟨hp, hM, hn, hnd, hsub⟩ := h
  unfold libtask_task_pool_push_back at hr
  split at hr
  · injection hr with _ hs
    subst hs
    exact ⟨hp, hM, hn, hnd, hsub⟩
  · rename_i hmem
    simp only [ne_eq, not_not] at hmem
    injection hr with _ hs
    subst hs
    refine ⟨hp, hM, ?_, ?_, ?_⟩
    · simpa using hn
    · simp only [setPool_pools, Function.update_same, libtask_list_push_back,
        libtask_list_erase_pool_waiting_list]
      exact List.Nodup.append (nodup_unlink hnd) (List.nodup_singleton _)
        (by simpa using not_mem_unlink task _)
    · intro t ht
      simp only [setPool_pools, Function.update_same, libtask_list_push_back,
        libtask_list_erase_pool_waiting_list, List.mem_append, List.mem_singleton,
        mem_unlink] at ht
      rcases ht with ht | ht
      · exact hsub t ht.1
      · exact ht ▸ (hM task).mpr hmem

theorem PoolInv.pop_front {s s1 : State} {pool : Nat} {M : Finset Nat}
    {a : error_t × Option Nat}
    (h : PoolInv s pool M) (hr : libtask_task_pool_pop_front s pool = .ret a s1) :
    PoolInv s1 pool M := by
  obtain ⟨hp, hM, hn, hnd, hsub⟩ := h
  unfold libtask_task_pool_pop_front at hr
  split at hr
  · injection hr with _ hs
    subst hs
    exact ⟨hp, hM, hn, hnd, hsub⟩
  · rename_i task rest hl
    injection hr with _ hs
    subst hs
    rw [hl] at hnd hsub
    refine ⟨hp, hM, ?_, ?_, ?_⟩
    · simpa using hn
    · simpa using (List.nodup_cons.mp hnd).2
    · intro t ht
      simp only [setPool_pools, Function.update_same] at ht
      exact hsub t (List.mem_cons_of_mem _ ht)

theorem Res.void_ret {α : Type} {r : Res α} {u : Unit} {s1 : State} (h : r.void = .ret u s1) :
    ∃ a, r = .ret a s1 := by
  cases r with
  | ret a s => simp only [Res.void] at h; injection h with _ hs; exact ⟨a, by rw [hs]⟩
  | susp a s => simp [Res.void] at h
  | abort => simp [Res.void] at h
  | timeout => simp [Res.void] at h

theorem PoolInv.pool_op {s s1 : State} {pool : Nat} {M : Finset Nat} (op : PoolOp) {u : Unit}
    (h : PoolInv s pool M) (hr : op.run s pool = .ret u s1) : ∃ M1, PoolInv s1 pool M1 := by
  cases op with
  | insert task =>
    obtain ⟨a, ha⟩ := Res.void_ret hr
    exact ⟨_, h.insert ha⟩
  | erase task =>
    obtain ⟨a, ha⟩ := Res.void_ret hr
    exact ⟨_, h.erase ha⟩
  | push_back task =>
    obtain ⟨a, ha⟩ := Res.void_ret hr
    exact ⟨_, h.push_back ha⟩
  | pop_front =>
    obtain ⟨a, ha⟩ := Res.void_ret hr
    exact ⟨_, h.pop_front ha⟩

theorem PoolInv.pool_ops {pool : Nat} (ops : List PoolOp) :
    ∀ {s s1 : State} {M : Finset Nat}, PoolInv s pool M → run_pool_ops pool ops s = some s1 →
      ∃ M1, PoolInv s1 pool M1 := by
  induction ops with
  | nil =>
    intro s s1 M h hr
    simp only [run_pool_ops, Option.some.injEq] at hr
    exact ⟨M, hr ▸ h⟩
  | cons op ops ih =>
    intro s s1 M h hr
    simp only [run_pool_ops] at hr
    split at hr
    · rename_i u s2 hop
      obtain ⟨M2, h2⟩ := h.pool_op op hop
      exact ih h2 hr
    · cases hr
    · cases hr
    · cases hr

/-! ## C1: `ntasks` counts the members of a pool -/

theorem libtask_task_pool_create_eq (s : State) :
    libtask_task_pool_create s =
      .ret (0, s.npool)
        (({ s with npool := s.npool + 1 } : State).setPool s.npool
          { ntasks := 0, refcount := 1, waiting_list := [],
            waiting_condition := { blocked := 0, list := [] } }) := by
  simp [libtask_task_pool_create, libtask_task_pool_initialize, State.setPool]

theorem libtask_task_create_eq (s : State) (function : Entry) (argument : Int) (stack_size : Nat) :
    libtask_task_create s function argument stack_size =
      .ret (0, s.ntask)
        (({ s with
            ntask := s.ntask + 1
            all_task_list := s.all_task_list ++ [s.ntask] } : State).setTask s.ntask
          { stack := some stack_size, mutex := true, complete := false, task_pool := none,
            result := 0, argument := argument, function := function, uct_self := .main,
            refcount := 1 }) := by
  simp [libtask_task_create, libtask_task_initialize, State.setTask, libtask_list_push_back]

theorem libtask_task_pool_insert_eq {s : State} {pool task : Nat}
    (h : (s.tasks task).task_pool = none) :
    libtask_task_pool_insert s pool task =
      .ret 0
        ((s.setTask task { s.tasks task with task_pool := some pool }).setPool pool
          { s.pools pool with
            ntasks := (s.pools pool).ntasks + 1
            refcount := (s.pools pool).refcount + 1
            waiting_list := (s.pools pool).waiting_list ++ [task] }) := by
  simp [libtask_task_pool_insert, h, State.setTask, State.setPool, libtask_list_push_back]

theorem libtask_task_pool_pop_front_cons {s : State} {pool task : Nat} {rest : List Nat}
    (h : (s.pools pool).waiting_list = task :: rest) :
    libtask_task_pool_pop_front s pool =
      .ret (0, some task) (s.setPool pool { s.pools pool with waiting_list := rest }) := by
  simp [libtask_task_pool_pop_front, h]

theorem libtask_task_pool_pop_front_nil {s : State} {pool : Nat}
    (h : (s.pools pool).waiting_list = []) :
    libtask_task_pool_pop_front s pool = .ret (ENOENT, none) s := by
  simp [libtask_task_pool_pop_front, h]

theorem libtask_task_pool_push_back_member {s : State} {pool task : Nat}
    (h : (s.tasks task).task_pool = some pool) :
    libtask_task_pool_push_back s pool task =
      .ret 0
        ((libtask_list_erase s task).setPool pool
          { (libtask_list_erase s task).pools pool with
            waiting_list := unlink task (s.pools pool).waiting_list ++ [task] }) := by
  simp [libtask_task_pool_push_back, h, libtask_list_push_back]


theorem link_empty_congr {s s1 : State} (task : Nat)
    (hn : s1.npool = s.npool) (hc : s1.ncond = s.ncond) (hm : s1.nsem = s.nsem)
    (hp : ∀ p, (s1.pools p).waiting_list = (s.pools p).waiting_list ∧
      (s1.pools p).waiting_condition = (s.pools p).waiting_condition)
    (hcs : s1.conds = s.conds) (hs : s1.sems = s.sems) :
    libtask_list_empty_link s1 task = libtask_list_empty_link s task := by
  simp only [libtask_list_empty_link, hn, hc, hm, hcs, hs, hp]


theorem unlink_if_linked_blocked (s : State) (task q : Nat) :
    ((unlink_if_linked s task).pools q).waiting_condition.blocked
      = (s.pools q).waiting_condition.blocked := by
  unfold unlink_if_linked
  split <;> rfl

theorem libtask_task_pool_erase_spec {s : State} {pool task : Nat}
    (hm : (s.tasks task).task_pool = some pool) (hn : 1 ≤ (s.pools pool).ntasks) :
    ∃ s1, libtask_task_pool_erase s pool task = .ret 0 s1 ∧
      s1.tasks = Function.update s.tasks task { s.tasks task with task_pool := none } ∧
      (∀ q, (s1.pools q).ntasks
        = if q = pool then (s.pools pool).ntasks - 1 else (s.pools q).ntasks) ∧
      (∀ q, q < s.npool →
        (s1.pools q).waiting_list = unlink task (s.pools q).waiting_list) ∧
      libtask_list_empty_link s1 task = true ∧
      s1.libtask_current_task = s.libtask_current_task ∧
      s1.npool = s.npool ∧ s1.ncond = s.ncond ∧ s1.nsem = s.nsem := by
  refine ⟨_, libtask_task_pool_erase_member hm hn, ?_, ?_, ?_, ?_, ?_, ?_, ?_, ?_⟩
  · simp [unlink_if_linked_tasks]
  · intro q
    by_cases hq : q = pool
    · subst hq; simp [unlink_if_linked_ntasks]
    · simp [hq, Function.update_noteq hq, unlink_if_linked_ntasks]
  · intro q hq
    by_cases hqp : q = pool
    · subst hqp
      simp only [setPool_pools, Function.update_same]
      rw [unlink_if_linked_waiting_list task (by simpa using hq)]
      simp
    · simp only [setPool_pools, Function.update_noteq hqp]
      rw [unlink_if_linked_waiting_list task (by simpa using hq)]
      simp [Function.update_noteq hqp]
  · rw [← unlink_if_linked_link_empty
      ((s.setPool pool { s.pools pool with ntasks := (s.pools pool).ntasks - 1 }).setTask
        task { s.tasks task with task_pool := none }) task]
    apply link_empty_congr
    · simp
    · simp
    · simp
    · intro p
      by_cases hp : p = pool
      · subst hp; simp
      · simp [Function.update_noteq hp]
    · simp
    · simp
  · simp [unlink_if_linked_current]
  · simp [unlink_if_linked_npool]
  · simp [unlink_if_linked]; split <;> rfl
  · simp [unlink_if_linked]; split <;> rfl

theorem task_main_return_member {s : State} {task pool : Nat}
    (hcur : s.libtask_current_task = some task)
    (hp : (s.tasks task).task_pool = some pool) (hn : 1 ≤ (s.pools pool).ntasks) :
    ∃ s1, task_main_return s task = .susp () s1 ∧
      (s1.tasks task).complete = true ∧
      (s1.tasks task).result = (s.tasks task).function.value (s.tasks task).argument ∧
      (s1.tasks task).task_pool = none ∧ (s1.tasks task).uct_self = .final ∧
      (s1.pools pool).ntasks = (s.pools pool).ntasks - 1 ∧
      libtask_list_empty_link s1 task = true ∧
      s1.libtask_current_task = some task := by
  obtain ⟨s2, he, ht, hnt, -, hle, hc, -, -, -⟩ :=
    @libtask_task_pool_erase_spec
      (s.setTask task
        { s.tasks task with
          result := (s.tasks task).function.value (s.tasks task).argument
          complete := true })
      pool task (by simp [hp]) (by simpa using hn)
  have hpool : ((s.setTask task
      { s.tasks task with
        result := (s.tasks task).function.value (s.tasks task).argument
        complete := true }).tasks task).task_pool = some pool := by simp [hp]
  unfold task_main_return
  simp only [setTask_libtask_current_task, hcur, ne_eq, not_true_eq_false, if_false, hpool, he]
  simp only [setTask_libtask_current_task, hcur] at hc
  have h1 : (s2.tasks task).task_pool = none := by simp [ht]
  simp only [h1, not_true_eq_false, if_false, hle, Bool.not_true, Bool.false_eq_true,
    libtask_task_suspend, hc, bne_self_eq_false]
  refine ⟨_, rfl, ?_, ?_, ?_, ?_, ?_, ?_, ?_⟩
  · simp [ht]
  · simp [ht]
  · simp
  · simp
  · simpa using hnt pool
  · rw [← hle]
    apply link_empty_congr <;> simp
  · simpa using hc


theorem libtask_task_main_without_calls {s : State} {task pool : Nat}
    (hcur : s.libtask_current_task = some task)
    (hcalls : (s.tasks task).function.calls = [])
    (hp : (s.tasks task).task_pool = some pool) (hn : 1 ≤ (s.pools pool).ntasks) :
    ∃ s1, libtask_task_main s task .main = .susp () s1 ∧
      (s1.tasks task).complete = true ∧
      (s1.tasks task).result = (s.tasks task).function.value (s.tasks task).argument ∧
      (s1.tasks task).task_pool = none ∧ (s1.tasks task).uct_self = .final ∧
      (s1.pools pool).ntasks = (s.pools pool).ntasks - 1 ∧
      libtask_list_empty_link s1 task = true ∧
      s1.libtask_current_task = some task := by
  obtain ⟨s1, h1, h2, h3, h4, h5, h6, h7, h8⟩ :=
    @task_main_return_member (s.setTask task { s.tasks task with complete := false })
      task pool (by simpa using hcur) (by simp [hp]) (by simpa using hn)
  have hc2 : ((s.setTask task { s.tasks task with complete := false }).tasks task).function.calls
      = [] := by simp [hcalls]
  refine ⟨s1, ?_, h2, by simpa using h3, h4, h5, by simpa using h6, h7, h8⟩
  unfold libtask_task_main
  simp only [hcur, ne_eq, not_true_eq_false, if_false, hc2, run_function, h1]

theorem libtask_task_execute_without_calls {s : State} {task pool : Nat}
    (hc : (s.tasks task).complete = false) (hctx : (s.tasks task).uct_self = .main)
    (hcalls : (s.tasks task).function.calls = [])
    (hp : (s.tasks task).task_pool = some pool) (hn : 1 ≤ (s.pools pool).ntasks) :
    ∃ s1, libtask_task_execute s task = .ret 0 s1 ∧
      (s1.tasks task).complete = true ∧
      (s1.tasks task).result = (s.tasks task).function.value (s.tasks task).argument ∧
      (s1.tasks task).task_pool = none ∧
      (s1.pools pool).ntasks = (s.pools pool).ntasks - 1 ∧
      libtask_list_empty_link s1 task = true ∧
      s1.libtask_current_task = none := by
  obtain ⟨s1, h1, h2, h3, h4, h5, h6, h7, h8⟩ :=
    @libtask_task_main_without_calls
      { s.setTask task { s.tasks task with refcount := (s.tasks task).refcount + 1 } with
        libtask_current_task := some task }
      task pool rfl (by simp [hcalls]) (by simp [hp]) (by simpa using hn)
  have hctx2 : (({ s.setTask task
      { s.tasks task with refcount := (s.tasks task).refcount + 1 } with
        libtask_current_task := some task } : State).tasks task).uct_self = .main := by
    simp [hctx]
  unfold libtask_task_execute
  rw [if_neg (by simp [hc])]
  dsimp only at h1 hctx2 ⊢
  rw [hctx2, h1]
  refine ⟨_, rfl, ?_, ?_, ?_, ?_, ?_, ?_⟩
  · simp [h2]
  · simpa using h3
  · simp [h4]
  · simpa using h6
  · rw [← h7]
    apply link_empty_congr <;> simp
  · simp

/-! ## C2: the round trip of one task through a pool -/

@[simp] theorem cond_cond (s : State) (c : Nat) : s.cond (.cond c) = s.conds c := rfl

@[simp] theorem cond_waiting_condition (s : State) (p : Nat) :
    s.cond (.waiting_condition p) = (s.pools p).waiting_condition := rfl

theorem cond_setPool (s : State) (p : Nat) (x : libtask_task_pool_t) (c : CondRef)
    (h : x.waiting_condition = (s.pools p).waiting_condition) :
    (s.setPool p x).cond c = s.cond c := by
  cases c with
  | cond c => rfl
  | waiting_condition q =>
    by_cases hq : q = p
    · subst hq; simp [h]
    · simp [Function.update_noteq hq]

@[simp] theorem cond_setPool_waiting_list (s : State) (p : Nat) (l : List Nat) (c : CondRef) :
    (s.setPool p { s.pools p with waiting_list := l }).cond c = s.cond c :=
  cond_setPool s p _ c rfl

@[simp] theorem cond_setPool_ntasks (s : State) (p : Nat) (n : Int) (c : CondRef) :
    (s.setPool p { s.pools p with ntasks := n }).cond c = s.cond c :=
  cond_setPool s p _ c rfl

theorem length_le_sum_map_range (f : Nat → Nat) {n i : Nat} (h : i < n) :
    f i ≤ ((List.range n).map f).sum := by
  apply List.single_le_sum (by simp)
  exact List.mem_map.mpr ⟨i, List.mem_range.mpr h, rfl⟩

theorem cond_list_length_le_waiters {s : State} {cond : CondRef} (h : cond.allocated s) :
    (s.cond cond).list.length ≤ s.waiters := by
  cases cond with
  | cond c =>
    have := length_le_sum_map_range (fun c => (s.conds c).list.length) h
    dsimp only at this
    simp only [State.waiters, cond_cond]
    omega
  | waiting_condition pool =>
    have := length_le_sum_map_range (fun p => (s.pools p).waiting_condition.list.length) h
    dsimp only at this
    simp only [State.waiters, cond_waiting_condition]
    omega

theorem held_no_spin (s : State) (cond : CondRef) (pool : Nat) :
    ¬ (s.spinlock cond ≠ some pool ∧ pool ∈ s.held cond) := by
  intro h
  apply h.1
  have := h.2
  unfold State.held at this
  cases hs : s.spinlock cond with
  | none => rw [hs] at this; cases this
  | some q =>
    rw [hs] at this
    have hq : pool = q := by simpa using this
    rw [hq]

theorem signalFuel_no_task (fuel : Nat) (held : List Nat) {s : State} {cond : CondRef}
    (h : (s.cond cond).list = []) :
    signalFuel (fuel + 1) held s cond
      = .ret () (s.setCond cond (pthread_cond_signal (s.cond cond))) := by
  simp [signalFuel, libtask_condition_wakeup_first, h]

theorem signalFuel_task (fuel : Nat) (held : List Nat) {s : State} {cond : CondRef}
    {task pool : Nat}
    {rest : List Nat} (h : (s.cond cond).list = task :: rest)
    (hp : (s.tasks task).task_pool = some pool) (hne : cond ≠ .waiting_condition pool)
    (hw : (s.pools pool).waiting_condition.list = [])
    (hs : ¬ (s.spinlock cond ≠ some pool ∧ pool ∈ held)) :
    signalFuel (fuel + 2) held s cond =
      .ret ()
        (((s.setCond cond { s.cond cond with list := rest }).setPool pool
            { (s.setCond cond { s.cond cond with list := rest }).pools pool with
              waiting_list := (s.pools pool).waiting_list ++ [task] }).setCond
          (.waiting_condition pool) (pthread_cond_signal (s.pools pool).waiting_condition)) := by
  have hwc : ((s.setCond cond { s.cond cond with list := rest }).pools pool).waiting_condition
      = (s.pools pool).waiting_condition := by
    have := cond_setCond_ne s { s.cond cond with list := rest } (Ne.symm hne)
    simpa using this
  have hnested : ∀ held1, signalFuel (fuel + 1) held1
      ((s.setCond cond { s.cond cond with list := rest }).setPool pool
        { (s.setCond cond { s.cond cond with list := rest }).pools pool with
          waiting_list := libtask_list_push_back
            ((s.setCond cond { s.cond cond with list := rest }).pools pool).waiting_list task })
      (.waiting_condition pool) = _ :=
    fun held1 => signalFuel_no_task fuel held1 (by simp [hwc, hw])
  rw [signalFuel, h]
  simp only [libtask_condition_wakeup_first, setCond_tasks, hp]
  rw [if_neg hs]
  dsimp only at hnested ⊢
  rw [hnested]
  simp [hwc, libtask_list_push_back]

/-! ## C3: what one `libtask_condition_signal` wakes -/

/-- C3, counterexample.  A pool whose own waiting condition holds two member
tasks and one blocked worker thread: a single signal on that condition pops
the first task, and the signal that `libtask_condition_wakeup_first` sends to
the waiting condition of the woken task's pool is a signal on the same
condition, so the second task is popped too and the blocked thread is
signalled as well.  The list does not keep its second waiter. -/
theorem condition_signal_wakes_more_than_one :
    ∃ s1, libtask_condition_signal signal_own_pool (.waiting_condition 0) = .ret () s1 ∧
      (signal_own_pool.cond (.waiting_condition 0)).list = [0, 1] ∧
      (signal_own_pool.cond (.waiting_condition 0)).blocked = 1 ∧
      (s1.cond (.waiting_condition 0)).list = [] ∧
      (s1.cond (.waiting_condition 0)).list ≠ [1] ∧
      (s1.cond (.waiting_condition 0)).blocked = 0 ∧
      (s1.pools 0).waiting_list = [0, 1] :=
  ⟨_, rfl, rfl, rfl, rfl, by decide, rfl, rfl⟩

/-- C3, amended.  On an allocated condition whose list is `task :: rest`,
where the task is a member of `pool` and the waiting condition of `pool` is
another condition with no task waiter, one signal pops exactly `task`, leaves
`rest`, appends `task` to the waiting list of `pool`, does not signal the
thread waiters of the condition and sends one thread signal to the waiting
condition of `pool`; it moves no other task.  On a condition with an empty
list, one signal releases one thread waiter of the condition and moves no task. -/
theorem condition_signal_prefers_task (s : State) (cond : CondRef) (hc : cond.allocated s) :
    (∀ task rest pool, (s.cond cond).list = task :: rest →
        (s.tasks task).task_pool = some pool → cond ≠ .waiting_condition pool →
        (s.pools pool).waiting_condition.list = [] →
        ∃ s1, libtask_condition_signal s cond = .ret () s1 ∧
          (s1.cond cond).list = rest ∧ (s1.cond cond).blocked = (s.cond cond).blocked ∧
          (s1.pools pool).waiting_list = (s.pools pool).waiting_list ++ [task] ∧
          (∀ q, q ≠ pool → (s1.pools q).waiting_list = (s.pools q).waiting_list) ∧
          (∀ c, c ≠ cond → (s1.cond c).list = (s.cond c).list) ∧
          (∀ c, c ≠ .waiting_condition pool → (s1.cond c).blocked = (s.cond c).blocked) ∧
          (s1.cond (.waiting_condition pool)).blocked
            = (s.cond (.waiting_condition pool)).blocked - 1 ∧
          (∀ q, (s1.pools q).ntasks = (s.pools q).ntasks) ∧
          s1.sems = s.sems ∧ s1.tasks = s.tasks) ∧
      ((s.cond cond).list = [] →
        ∃ s1, libtask_condition_signal s cond = .ret () s1 ∧
          (s1.cond cond).blocked = (s.cond cond).blocked - 1 ∧
          (∀ c, c ≠ cond → s1.cond c = s.cond c) ∧
          (∀ c, (s1.cond c).list = (s.cond c).list) ∧
          (∀ q, (s1.pools q).waiting_list = (s.pools q).waiting_list) ∧
          (∀ q, (s1.pools q).ntasks = (s.pools q).ntasks) ∧
          s1.sems = s.sems ∧ s1.tasks = s.tasks) := by
  constructor
  · intro task rest pool h hp hne hw
    have hlen := cond_list_length_le_waiters hc
    rw [h] at hlen
    obtain ⟨n, hn⟩ : ∃ n, s.waiters + 1 = n + 2 := ⟨s.waiters - 1, by simp at hlen; omega⟩
    have hwc : (s.setCond cond { s.cond cond with list := rest }).cond (.waiting_condition pool)
        = s.cond (.waiting_condition pool) :=
      cond_setCond_ne s { s.cond cond with list := rest } (Ne.symm hne)
    refine ⟨_, by
        rw [libtask_condition_signal, libtask_condition_signal_holding, hn]
        exact signalFuel_task n _ h hp hne hw (held_no_spin s cond pool),
      ?_, ?_, ?_, ?_, ?_, ?_, ?_, ?_, ?_, ?_⟩
    · rw [cond_setCond_ne _ _ hne, cond_setPool_waiting_list, cond_setCond_same]
    · rw [cond_setCond_ne _ _ hne, cond_setPool_waiting_list, cond_setCond_same]
    · simp
    · intro q hq
      simp [Function.update_noteq hq]
    · intro c hcne
      by_cases hcw : c = .waiting_condition pool
      · subst hcw
        rw [cond_setCond_same]
        simp [pthread_cond_signal]
      · rw [cond_setCond_ne _ _ hcw, cond_setPool_waiting_list, cond_setCond_ne _ _ hcne]
    · intro c hcw
      rw [cond_setCond_ne _ _ hcw, cond_setPool_waiting_list]
      by_cases hcc : c = cond
      · subst hcc; rw [cond_setCond_same]
      · rw [cond_setCond_ne _ _ hcc]
    · rw [cond_setCond_same]
      simp [pthread_cond_signal]
    · intro q
      by_cases hq : q = pool
      · subst hq; simp
      · simp [Function.update_noteq hq]
    · simp
    · simp
  · intro h
    refine ⟨_, by rw [libtask_condition_signal]; exact signalFuel_no_task _ _ h, ?_, ?_, ?_, ?_, ?_,
      ?_, ?_⟩
    · rw [cond_setCond_same]; rfl
    · intro c hcne
      exact cond_setCond_ne _ _ hcne
    · intro c
      by_cases hcc : c = cond
      · subst hcc; rw [cond_setCond_same]; rfl
      · rw [cond_setCond_ne _ _ hcc]
    · intro q; simp
    · intro q; simp
    · simp
    · simp

/-- C3 at concrete heaps: the condition 0 of `signal_scene` holds tasks 0 and
1, and the waiting condition of pool 0 holds no task. -/
theorem condition_signal_prefers_task_witness :
    (∃ s1, libtask_condition_signal signal_scene (.cond 0) = .ret () s1 ∧
      (s1.cond (.cond 0)).list = [1] ∧ (s1.cond (.cond 0)).blocked = 1 ∧
      (s1.pools 0).waiting_list = [0] ∧ (s1.cond (.waiting_condition 0)).blocked = 0) ∧
    (∃ s1, libtask_condition_signal signal_scene (.waiting_condition 0) = .ret () s1 ∧
      (s1.cond (.waiting_condition 0)).blocked = 0 ∧
      (s1.cond (.cond 0)).list = [0, 1] ∧ (s1.pools 0).waiting_list = []) := by
  constructor
  · obtain ⟨s1, h1, h2, h3, h4, -, -, -, h8, -⟩ :=
      (condition_signal_prefers_task signal_scene (.cond 0) (Nat.lt_succ_self 0)).1
        0 [1] 0 rfl rfl (by decide) rfl
    exact ⟨s1, h1, h2, h3, h4, h8⟩
  · obtain ⟨s1, h1, h2, -, h4, h5, -⟩ :=
      (condition_signal_prefers_task signal_scene (.waiting_condition 0) (Nat.lt_succ_self 0)).2
        rfl
    exact ⟨s1, h1, h2, h4 (.cond 0), h5 0⟩


/-! ## Facts about the broadcast loop -/

theorem libtask_condition_signal_holding_no_task (held : List Nat) {s : State}
    {cond : CondRef} (h : (s.cond cond).list = []) :
    libtask_condition_signal_holding held s cond
      = .ret () (s.setCond cond (pthread_cond_signal (s.cond cond))) :=
  signalFuel_no_task _ held h

theorem libtask_condition_signal_no_task {s : State} {cond : CondRef}
    (h : (s.cond cond).list = []) :
    libtask_condition_signal s cond
      = .ret () (s.setCond cond (pthread_cond_signal (s.cond cond))) :=
  signalFuel_no_task _ _ h

theorem wakeup_first_local {s : State} {task pool : Nat} (rest : List Nat) {held : List Nat}
    {spinlock : Option Nat}
    (hp : (s.tasks task).task_pool = some pool)
    (hw : (s.pools pool).waiting_condition.list = [])
    (hs : ¬ (spinlock ≠ some pool ∧ pool ∈ held)) :
    libtask_condition_wakeup_first libtask_condition_signal_holding held spinlock s
        (task :: rest) (fun s1 _ => s1)
      = .ret (true, rest)
        ((s.setPool pool
            { s.pools pool with waiting_list := (s.pools pool).waiting_list ++ [task] }).setCond
          (.waiting_condition pool) (pthread_cond_signal (s.pools pool).waiting_condition)) := by
  have hnested : ∀ held1, libtask_condition_signal_holding held1
      (s.setPool pool
        { s.pools pool with
          waiting_list := libtask_list_push_back (s.pools pool).waiting_list task })
      (.waiting_condition pool) = _ :=
    fun held1 => libtask_condition_signal_holding_no_task held1 (by simp [hw])
  simp only [libtask_condition_wakeup_first, hp]
  rw [if_neg hs]
  dsimp only at hnested ⊢
  rw [hnested]
  simp [libtask_list_push_back]

theorem broadcast_drain_spec (cond : CondRef) (ws : List Nat) :
    ∀ s : State,
      (∀ w ∈ ws, ∃ p, (s.tasks w).task_pool = some p ∧
        (s.pools p).waiting_condition.list = []) →
      ∃ s1, broadcast_drain cond ws s = .ret () s1 ∧ s1.tasks = s.tasks ∧
        (∀ p, (s1.pools p).waiting_list
          = (s.pools p).waiting_list
            ++ ws.filter (fun w => decide ((s.tasks w).task_pool = some p))) ∧
        (∀ p, (s1.pools p).ntasks = (s.pools p).ntasks) ∧
        (∀ c, (s1.cond c).list = (s.cond c).list) ∧ s1.sems = s.sems := by
  induction ws with
  | nil =>
    intro s _
    exact ⟨s, rfl, rfl, by simp, by simp, by simp, rfl⟩
  | cons w rest ih =>
    intro s h
    obtain ⟨p, hp, hw⟩ := h w (List.mem_cons_self _ _)
    have hlist : ∀ c, (((s.setPool p
        { s.pools p with waiting_list := (s.pools p).waiting_list ++ [w] }).setCond
          (.waiting_condition p) (pthread_cond_signal (s.pools p).waiting_condition)).cond c).list
        = (s.cond c).list := by
      intro c
      by_cases hc : c = .waiting_condition p
      · subst hc
        rw [cond_setCond_same]
        simp [pthread_cond_signal]
      · rw [cond_setCond_ne _ _ hc, cond_setPool_waiting_list]
    obtain ⟨s1, h1, h2, h3, h4, h5, h6⟩ := ih
      ((s.setPool p
        { s.pools p with waiting_list := (s.pools p).waiting_list ++ [w] }).setCond
          (.waiting_condition p) (pthread_cond_signal (s.pools p).waiting_condition))
      (by
        intro w' hw'
        obtain ⟨p', hp', hw''⟩ := h w' (List.mem_cons_of_mem _ hw')
        refine ⟨p', by simpa using hp', ?_⟩
        have := hlist (.waiting_condition p')
        simp only [cond_waiting_condition] at this
        rw [this, hw''])
    refine ⟨s1, ?_, ?_, ?_, ?_, ?_, ?_⟩
    · rw [broadcast_drain, wakeup_first_local rest hp hw (held_no_spin s cond p)]
      exact h1
    · rw [h2]; simp
    · intro q
      rw [h3 q]
      simp only [setCond_tasks, setPool_tasks, setCond_pool_waiting_list, setPool_pools]
      by_cases hq : q = p
      · subst hq
        simp [hp]
      · have : (s.tasks w).task_pool ≠ some q := by
          rw [hp]; intro e; exact hq (Option.some.inj e).symm
        simp [Function.update_noteq hq, this]
    · intro q
      rw [h4 q]
      by_cases hq : q = p
      · subst hq; simp
      · simp [Function.update_noteq hq]
    · intro c
      rw [h5 c, hlist c]
    · rw [h6]; simp

/-! ## C4: `libtask_condition_broadcast` re-queues every waiter -/

/-- C4, counterexample.  Tasks 0 and 1 of pool 0 wait on a condition while
task 2 of the same pool is parked on the waiting condition of the pool.  The
broadcast re-queues task 0, the signal to the waiting condition of the pool
re-queues task 2, and only then task 1 follows: the two waiters of the
condition are not the back of the runnable list in their waiting order. -/
theorem condition_broadcast_interleaves :
    ∃ s1, libtask_condition_broadcast broadcast_nested (.cond 0) = .ret () s1 ∧
      (broadcast_nested.cond (.cond 0)).list = [0, 1] ∧
      (broadcast_nested.pools 0).waiting_list = [] ∧
      (s1.pools 0).waiting_list = [0, 2, 1] ∧
      (s1.pools 0).waiting_list ≠ (broadcast_nested.pools 0).waiting_list ++ [0, 1] :=
  ⟨_, rfl, rfl, rfl, rfl, by decide⟩

/-- C4, amended.  When every task waiter of the condition is a member of a
pool whose waiting condition is the condition itself or holds no task
waiter, the broadcast returns with an empty list, every pool's runnable list
is its old runnable list followed by its waiters in their waiting order, no
`ntasks` changes and no other list, semaphore or task changes.  A waiter
whose link was in the condition list only, once, is afterwards exactly once
in the runnable list of its pool and in no other list. -/
theorem condition_broadcast_requeues (s : State) (cond : CondRef)
    (hw : ∀ w ∈ (s.cond cond).list, ∃ p, (s.tasks w).task_pool = some p ∧
      (.waiting_condition p = cond ∨ (s.pools p).waiting_condition.list = [])) :
    ∃ s1, libtask_condition_broadcast s cond = .ret () s1 ∧
      (s1.cond cond).list = [] ∧
      (∀ p, (s1.pools p).waiting_list
        = (s.pools p).waiting_list
          ++ (s.cond cond).list.filter (fun w => decide ((s.tasks w).task_pool = some p))) ∧
      (∀ p, (s1.pools p).ntasks = (s.pools p).ntasks) ∧
      (∀ c, c ≠ cond → (s1.cond c).list = (s.cond c).list) ∧
      s1.sems = s.sems ∧ s1.tasks = s.tasks ∧
      (∀ w p, w ∈ (s.cond cond).list → (s.tasks w).task_pool = some p →
        (s.cond cond).list.Nodup → (∀ q, w ∉ (s.pools q).waiting_list) →
        (∀ c, c ≠ cond → w ∉ (s.cond c).list) → (∀ m, w ∉ (s.sems m).waiting_list) →
        (s1.pools p).waiting_list.count w = 1 ∧
          (∀ q, q ≠ p → w ∉ (s1.pools q).waiting_list) ∧
          (∀ c, w ∉ (s1.cond c).list) ∧ ∀ m, w ∉ (s1.sems m).waiting_list) := by
  have h0 : ∀ w ∈ (s.cond cond).list, ∃ p,
      ((s.setCond cond { s.cond cond with list := [] }).tasks w).task_pool = some p ∧
      ((s.setCond cond { s.cond cond with list := [] }).pools p).waiting_condition.list = [] := by
    intro w hwm
    obtain ⟨p, hp, hor⟩ := hw w hwm
    refine ⟨p, by simpa using hp, ?_⟩
    rw [← cond_waiting_condition]
    by_cases hc : .waiting_condition p = cond
    · subst hc
      rw [cond_setCond_same]
    · rw [cond_setCond_ne _ _ hc]
      rcases hor with hor | hor
      · exact absurd hor hc
      · simpa using hor
  obtain ⟨s1, h1, h2, h3, h4, h5, h6⟩ := broadcast_drain_spec cond (s.cond cond).list _ h0
  have hl1 : (s1.cond cond).list = [] := by rw [h5 cond, cond_setCond_same]
  have hlists : ∀ p, (s1.pools p).waiting_list
      = (s.pools p).waiting_list
        ++ (s.cond cond).list.filter (fun w => decide ((s.tasks w).task_pool = some p)) := by
    intro p
    rw [h3 p]
    simp
  have hconds : ∀ c, c ≠ cond → (s1.cond c).list = (s.cond c).list := by
    intro c hc
    rw [h5 c, cond_setCond_ne _ _ hc]
  refine ⟨s1.setCond cond (pthread_cond_broadcast (s1.cond cond)), ?_, ?_, ?_, ?_, ?_, ?_, ?_, ?_⟩
  · unfold libtask_condition_broadcast
    dsimp only at h1 ⊢
    rw [h1]
  · rw [cond_setCond_same]
    simpa [pthread_cond_broadcast] using hl1
  · intro p
    rw [setCond_pool_waiting_list]
    exact hlists p
  · intro p
    rw [setCond_pool_ntasks, h4 p]
    simp
  · intro c hc
    rw [cond_setCond_ne _ _ hc]
    exact hconds c hc
  · rw [setCond_sems, h6]
    simp
  · rw [setCond_tasks, h2]
    simp
  · intro w p hwm hp hnd hpools hcs hsems
    refine ⟨?_, ?_, ?_, ?_⟩
    · rw [setCond_pool_waiting_list, hlists p, List.count_append,
        List.count_eq_zero_of_not_mem (hpools p),
        List.count_eq_one_of_mem (hnd.filter _) (List.mem_filter.mpr ⟨hwm, by simpa using hp⟩)]
    · intro q hq hmem
      rw [setCond_pool_waiting_list, hlists q, List.mem_append] at hmem
      rcases hmem with hmem | hmem
      · exact hpools q hmem
      · have := (List.mem_filter.mp hmem).2
        simp only [decide_eq_true_eq] at this
        rw [hp] at this
        exact hq (Option.some.inj this).symm
    · intro c hmem
      by_cases hc : c = cond
      · subst hc
        rw [cond_setCond_same] at hmem
        simp [pthread_cond_broadcast, hl1] at hmem
      · rw [cond_setCond_ne _ _ hc, hconds c hc] at hmem
        exact hcs c hc hmem
    · intro m hmem
      rw [setCond_sems, h6] at hmem
      exact hsems m (by simpa using hmem)


/-- C4 at a concrete heap: 100 waiters across 3 pools. -/
theorem condition_broadcast_requeues_witness :
    ∃ s1, libtask_condition_broadcast broadcast_hundred (.cond 0) = .ret () s1 ∧
      (broadcast_hundred.cond (.cond 0)).list = List.range 100 ∧
      (s1.cond (.cond 0)).list = [] ∧
      (∀ p, (s1.pools p).waiting_list
        = (List.range 100).filter
            (fun w => decide ((broadcast_hundred.tasks w).task_pool = some p))) ∧
      (s1.pools 0).waiting_list.length = 34 ∧ (s1.pools 1).waiting_list.length = 33 ∧
      (s1.pools 2).waiting_list.length = 33 ∧
      (s1.pools 1).waiting_list.take 4 = [1, 4, 7, 10] ∧
      (∀ p, (s1.pools p).ntasks = 34) ∧
      (s1.pools 2).waiting_list.count 5 = 1 ∧ 5 ∉ (s1.pools 0).waiting_list ∧
      5 ∉ (s1.pools 1).waiting_list := by
  have hmem : ∀ w ∈ (broadcast_hundred.cond (.cond 0)).list,
      (broadcast_hundred.tasks w).task_pool = some (w % 3) := by
    intro w hw
    have hlt : w < 100 := List.mem_range.mp hw
    simp [broadcast_hundred, parked_task, hlt]
  obtain ⟨s1, h1, h2, h3, h4, -, -, -, h8⟩ :=
    condition_broadcast_requeues broadcast_hundred (.cond 0)
      (fun w hw => ⟨w % 3, hmem w hw, Or.inr rfl⟩)
  have h5 := h8 5 2 (List.mem_range.mpr (by decide)) rfl (List.nodup_range 100)
    (fun q => by simp [broadcast_hundred])
    (fun c hc => by
      cases c with
      | cond c =>
        have : c ≠ 0 := fun e => hc (by rw [e])
        simp [broadcast_hundred, this]
      | waiting_condition p => simp [broadcast_hundred])
    (fun m => by simp [broadcast_hundred, State.empty])
  have e0 := h3 0
  have e1 := h3 1
  have e2 := h3 2
  refine ⟨s1, h1, rfl, h2, fun p => by rw [h3 p]; rfl, ?_, ?_, ?_, ?_, h4, h5.1, ?_, ?_⟩
  · rw [e0]; rfl
  · rw [e1]; rfl
  · rw [e2]; rfl
  · rw [e1]; rfl
  · exact h5.2.1 0 (by decide)
  · exact h5.2.1 1 (by decide)

/-! ## Facts about semaphores -/

@[simp] theorem running_sems (s : State) (task : Nat) : (s.running task).sems = s.sems := rfl

@[simp] theorem running_tasks (s : State) (task : Nat) : (s.running task).tasks = s.tasks := rfl

@[simp] theorem running_pools (s : State) (task : Nat) : (s.running task).pools = s.pools := rfl

@[simp] theorem running_conds (s : State) (task : Nat) : (s.running task).conds = s.conds := rfl

@[simp] theorem running_npool (s : State) (task : Nat) : (s.running task).npool = s.npool := rfl

@[simp] theorem running_current (s : State) (task : Nat) :
    (s.running task).libtask_current_task = some task := rfl

theorem libtask_semaphore_up_empty {s : State} {sem : Nat}
    (h : (s.sems sem).waiting_list = []) :
    libtask_semaphore_up s sem
      = .ret 0 (s.setSem sem { s.sems sem with count := int32_t ((s.sems sem).count + 1) }) := by
  simp [libtask_semaphore_up, h]

theorem libtask_semaphore_up_waiter {s : State} {sem task pool : Nat} {rest : List Nat}
    (h : (s.sems sem).waiting_list = task :: rest) (hp : (s.tasks task).task_pool = some pool) :
    libtask_semaphore_up s sem
      = .ret 0
        ((s.setSem sem { s.sems sem with waiting_list := rest }).setPool pool
          { s.pools pool with
            ntasks := (s.pools pool).ntasks + 1
            waiting_list := (s.pools pool).waiting_list ++ [task] }) := by
  simp [libtask_semaphore_up, h, hp, libtask_list_push_back, State.setPool]

theorem libtask_semaphore_up_orphan {s : State} {sem task : Nat} {rest : List Nat}
    (h : (s.sems sem).waiting_list = task :: rest) (hp : (s.tasks task).task_pool = none) :
    libtask_semaphore_up s sem = .abort := by
  simp [libtask_semaphore_up, h, hp]

theorem libtask_semaphore_down_available {s : State} {sem task : Nat}
    (hc : s.libtask_current_task = some task) (h : 0 < (s.sems sem).count) :
    libtask_semaphore_down s sem
      = .ret 0 (s.setSem sem { s.sems sem with count := int32_t ((s.sems sem).count - 1) }) := by
  simp [libtask_semaphore_down, libtask_get_task_current, hc, h]

theorem libtask_semaphore_down_thread {s : State} {sem : Nat}
    (hc : s.libtask_current_task = none) :
    libtask_semaphore_down s sem = .ret EINVAL s := by
  simp [libtask_semaphore_down, libtask_get_task_current, hc]

theorem libtask_semaphore_down_parks {s : State} {sem task : Nat}
    (hc : s.libtask_current_task = some task) (h : (s.sems sem).count ≤ 0) :
    libtask_semaphore_down s sem
      = .susp 0
        (s.setSem sem { s.sems sem with waiting_list := (s.sems sem).waiting_list ++ [task] }) := by
  have : ¬ 0 < (s.sems sem).count := by omega
  simp [libtask_semaphore_down, libtask_get_task_current, hc, this, libtask__task_suspend,
    libtask_list_push_back]

theorem int32_t_of_range {x : Int} (h1 : -2147483648 ≤ x) (h2 : x ≤ 2147483647) :
    int32_t x = x := by
  unfold int32_t
  omega

theorem SemInv.sem_op {sem : Nat} {C : Int} {r r1 : SemRun} (op : SemOp)
    (h : SemInv sem C r) (hf : op.fits sem r = true) (hs : r.step sem op = some r1) :
    SemInv sem C r1 := by
  obtain ⟨h1, h2, h3, h4⟩ := h
  cases op with
  | up =>
    simp only [SemRun.step] at hs
    cases hl : (r.heap.sems sem).waiting_list with
    | nil =>
      have hlt : (r.heap.sems sem).count < 2147483647 := by
        simpa [SemOp.fits, hl] using hf
      rw [libtask_semaphore_up_empty hl, int32_t_of_range (by omega) (by omega)] at hs
      simp only [hl, List.isEmpty_nil, if_true, Option.some.injEq] at hs
      subst hs
      refine ⟨?_, ?_, ?_, ?_⟩
      · simp [h1]; ring
      · simp; omega
      · simp [hl]
      · simp; omega
    | cons task rest =>
      have h0 := h3 (by rw [hl]; simp)
      cases hp : (r.heap.tasks task).task_pool with
      | none =>
        rw [libtask_semaphore_up_orphan hl hp] at hs
        cases hs
      | some pool =>
        rw [libtask_semaphore_up_waiter hl hp] at hs
        simp only [hl, List.isEmpty_cons, Bool.false_eq_true, if_false, Option.some.injEq] at hs
        subst hs
        refine ⟨?_, ?_, ?_, ?_⟩
        · simp [h1]; ring
        · simpa using h2
        · intro _; simpa using h0
        · simpa using h4
  | down task =>
    simp only [SemRun.step] at hs
    by_cases hc : 0 < (r.heap.sems sem).count
    · rw [@libtask_semaphore_down_available (r.heap.running task) sem task rfl hc,
        int32_t_of_range (by simp only [running_sems]; omega)
          (by simp only [running_sems]; omega)] at hs
      simp only [beq_self_eq_true, if_true, Option.some.injEq] at hs
      subst hs
      refine ⟨?_, ?_, ?_, ?_⟩
      · simp [h1]; ring
      · simp; omega
      · intro hne
        have := h3 (by simpa using hne)
        omega
      · simp; omega
    · rw [@libtask_semaphore_down_parks (r.heap.running task) sem task rfl
        (by simp only [running_sems]; omega)] at hs
      simp only [Option.some.injEq] at hs
      subst hs
      refine ⟨?_, ?_, ?_, ?_⟩
      · simpa using h1
      · simpa using h2
      · intro _
        simp
        omega
      · simpa using h4
  | thread_down =>
    simp only [SemRun.step] at hs
    rw [@libtask_semaphore_down_thread r.heap.idle sem rfl] at hs
    simp only [EINVAL, Option.some.injEq] at hs
    subst hs
    exact ⟨by simpa [State.idle] using h1, by simpa [State.idle] using h2,
      by simpa [State.idle] using h3, by simpa [State.idle] using h4⟩

theorem SemInv.sem_ops {sem : Nat} {C : Int} (ops : List SemOp) :
    ∀ {r r1 : SemRun}, SemInv sem C r → no_overflow sem ops r = true →
      run_sem_ops sem ops r = some r1 → SemInv sem C r1 := by
  induction ops with
  | nil =>
    intro r r1 h _ hr
    simp only [run_sem_ops, Option.some.injEq] at hr
    exact hr ▸ h
  | cons op ops ih =>
    intro r r1 h hf hr
    simp only [run_sem_ops] at hr
    simp only [no_overflow, Bool.and_eq_true] at hf
    split at hr
    · rename_i r2 hstep
      rw [hstep] at hf
      exact ih (h.sem_op op hf.1 hstep) hf.2 hr
    · cases hr

theorem SemInv.sem_init {s s0 : State} {sem : Nat} {C : Int} (hC : 0 ≤ C)
    (hC' : C ≤ 2147483647)
    (hinit : libtask_semaphore_initialize s sem C = .ret 0 s0) :
    SemInv sem C { heap := s0, ups := 0, downs := 0 } := by
  unfold libtask_semaphore_initialize at hinit
  injection hinit with _ hs
  subst hs
  refine ⟨by simp, by simpa using hC, by simp, by simpa using hC'⟩

/-! ## C5 and C6: the counter of a semaphore -/

/-- C5, counterexample.  A semaphore initialised with `count = 2147483647`
and an empty waiting list: one `libtask_semaphore_up` (one up, no down)
increments the `int32_t` counter, which wraps to -2147483648; the waiting
list is empty and the counter is not `C + U - D = 2147483648`. -/
theorem semaphore_count_wraps :
    ∃ r, run_sem_ops 0 [.up] { heap := sem_fresh 2147483647, ups := 0, downs := 0 } = some r ∧
      r.ups = 1 ∧ r.downs = 0 ∧ (r.heap.sems 0).waiting_list = [] ∧
      (r.heap.sems 0).count = -2147483648 ∧
      (r.heap.sems 0).count ≠ 2147483647 + (r.ups : Int) - (r.downs : Int) :=
  ⟨_, rfl, rfl, rfl, rfl, by decide, by decide⟩

/-- C5, amended.  A semaphore initialised with `count = C`, `0 <= C <=
2147483647`: after every sequence of ups and of downs called by running
tasks in which no call aborts and no up on an empty waiting list finds the
counter at 2147483647, with `ups` the number of ups and `downs` the number
of downs that have completed (they returned at once, or an up released
them), the counter is `C + ups - downs`; this holds after every step, in
particular whenever the waiting list is empty. -/
theorem semaphore_conservation (s s0 : State) (sem : Nat) (C : Int) (ops : List SemOp)
    (r : SemRun) (hC : 0 ≤ C) (hC' : C ≤ 2147483647)
    (hinit : libtask_semaphore_initialize s sem C = .ret 0 s0)
    (hfit : no_overflow sem ops { heap := s0, ups := 0, downs := 0 } = true)
    (hrun : run_sem_ops sem ops { heap := s0, ups := 0, downs := 0 } = some r) :
    (r.heap.sems sem).count = C + r.ups - r.downs :=
  (SemInv.sem_ops ops (SemInv.sem_init hC hC' hinit) hfit hrun).1

/-- C5 at a concrete run from `count = 1`: a down that returns, a down that
parks, the up that releases it, one more up; the counter ends at 1 + 2 - 2. -/
theorem semaphore_conservation_witness :
    run_sem_ops 0 sem_ops_example { heap := sem_fresh 1, ups := 0, downs := 0 }
        = some (the_run (run_sem_ops 0 sem_ops_example
            { heap := sem_fresh 1, ups := 0, downs := 0 })) ∧
      no_overflow 0 sem_ops_example { heap := sem_fresh 1, ups := 0, downs := 0 } = true ∧
      (the_run (run_sem_ops 0 sem_ops_example
        { heap := sem_fresh 1, ups := 0, downs := 0 })).ups = 2 ∧
      (the_run (run_sem_ops 0 sem_ops_example
        { heap := sem_fresh 1, ups := 0, downs := 0 })).downs = 2 ∧
      ((the_run (run_sem_ops 0 sem_ops_example
        { heap := sem_fresh 1, ups := 0, downs := 0 })).heap.sems 0).waiting_list = [] ∧
      ((the_run (run_sem_ops 0 sem_ops_example
        { heap := sem_fresh 1, ups := 0, downs := 0 })).heap.sems 0).count
        = 1 + ((2 : Nat) : Int) - ((2 : Nat) : Int) :=
  ⟨rfl, by decide, rfl, rfl, rfl,
    semaphore_conservation sem_scene (sem_fresh 1) 0 1 sem_ops_example _ (by decide)
      (by decide) rfl (by decide) rfl⟩

/-- C6, counterexample.  A semaphore initialised with `count = 2147483647
>= 0`: after one `libtask_semaphore_up` the `int32_t` counter has wrapped
and `count >= 0` does not hold. -/
theorem semaphore_count_negative :
    (0 : Int) ≤ 2147483647 ∧
    ∃ r, run_sem_ops 0 [.up] { heap := sem_fresh 2147483647, ups := 0, downs := 0 } = some r ∧
      (r.heap.sems 0).count = -2147483648 ∧ ¬ 0 ≤ (r.heap.sems 0).count :=
  ⟨by decide, _, rfl, by decide, by decide⟩

/-- C6, amended.  A semaphore initialised with `0 <= count <= 2147483647`:
after every sequence of ups and downs in which no call aborts and no up on
an empty waiting list finds the counter at 2147483647, `count >= 0`, and
`count = 0` whenever the waiting list is not empty. -/
theorem semaphore_count_nonnegative (s s0 : State) (sem : Nat) (C : Int) (ops : List SemOp)
    (r : SemRun) (hC : 0 ≤ C) (hC' : C ≤ 2147483647)
    (hinit : libtask_semaphore_initialize s sem C = .ret 0 s0)
    (hfit : no_overflow sem ops { heap := s0, ups := 0, downs := 0 } = true)
    (hrun : run_sem_ops sem ops { heap := s0, ups := 0, downs := 0 } = some r) :
    0 ≤ (r.heap.sems sem).count ∧
      ((r.heap.sems sem).waiting_list ≠ [] → (r.heap.sems sem).count = 0) :=
  ⟨(SemInv.sem_ops ops (SemInv.sem_init hC hC' hinit) hfit hrun).2.1,
    (SemInv.sem_ops ops (SemInv.sem_init hC hC' hinit) hfit hrun).2.2.1⟩

/-- C6 at a concrete run from `count = 0`: a down from a thread is refused,
two downs park, one up releases the first; task 1 still waits and the
counter is 0. -/
theorem semaphore_count_nonnegative_witness :
    run_sem_ops 0 sem_ops_parked { heap := sem_fresh 0, ups := 0, downs := 0 }
        = some (the_run (run_sem_ops 0 sem_ops_parked
            { heap := sem_fresh 0, ups := 0, downs := 0 })) ∧
      no_overflow 0 sem_ops_parked { heap := sem_fresh 0, ups := 0, downs := 0 } = true ∧
      ((the_run (run_sem_ops 0 sem_ops_parked
        { heap := sem_fresh 0, ups := 0, downs := 0 })).heap.sems 0).waiting_list = [1] ∧
      0 ≤ ((the_run (run_sem_ops 0 sem_ops_parked
        { heap := sem_fresh 0, ups := 0, downs := 0 })).heap.sems 0).count ∧
      (((the_run (run_sem_ops 0 sem_ops_parked
          { heap := sem_fresh 0, ups := 0, downs := 0 })).heap.sems 0).waiting_list ≠ [] →
        ((the_run (run_sem_ops 0 sem_ops_parked
          { heap := sem_fresh 0, ups := 0, downs := 0 })).heap.sems 0).count = 0) :=
  ⟨rfl, by decide, rfl,
    semaphore_count_nonnegative sem_scene (sem_fresh 0) 0 0 sem_ops_parked _ (by decide)
      (by decide) rfl (by decide) rfl⟩


/-! ## C7 and C8: the hand-off of `libtask_semaphore_up` -/

/-- C7. A semaphore whose waiting list is `w1 :: rest`, `w1` being a member
of `pool`: `libtask_semaphore_up` returns 0, leaves `count` unchanged, leaves
exactly `rest` waiting, in order, and appends `w1` to the back of the
runnable list of `pool`; no other waiting list changes.  The list is in the
order of the downs: a down that parks goes to the back of the waiting list. -/
theorem semaphore_up_hands_off (s : State) (sem w1 pool : Nat) (rest : List Nat)
    (h : (s.sems sem).waiting_list = w1 :: rest)
    (hp : (s.tasks w1).task_pool = some pool) :
    (∃ s1, libtask_semaphore_up s sem = .ret 0 s1 ∧
      (s1.sems sem).count = (s.sems sem).count ∧
      (s1.sems sem).waiting_list = rest ∧
      (s1.pools pool).waiting_list = (s.pools pool).waiting_list ++ [w1] ∧
      (∀ q, q ≠ pool → (s1.pools q).waiting_list = (s.pools q).waiting_list) ∧
      (∀ m, m ≠ sem → s1.sems m = s.sems m) ∧ s1.conds = s.conds ∧ s1.tasks = s.tasks) ∧
    (∀ t, (s.sems sem).count ≤ 0 →
      ∃ s2, libtask_semaphore_down (s.running t) sem = .susp 0 s2 ∧
        (s2.sems sem).waiting_list = w1 :: (rest ++ [t]) ∧
        (s2.sems sem).count = (s.sems sem).count) := by
  constructor
  · refine ⟨_, libtask_semaphore_up_waiter h hp, ?_, ?_, ?_, ?_, ?_, ?_, ?_⟩
    · simp
    · simp
    · simp
    · intro q hq; simp [Function.update_noteq hq]
    · intro m hm; simp [Function.update_noteq hm]
    · simp
    · simp
  · intro t hc
    refine ⟨_, @libtask_semaphore_down_parks (s.running t) sem t rfl (by simpa using hc), ?_, ?_⟩
    · simp [h]
    · simp

/-- C7 at a concrete heap: `count = 0`, task 0 parks in down, one up makes it
runnable in pool 0 and the counter stays 0. -/
theorem semaphore_up_hands_off_witness :
    ∃ s0 s1, libtask_semaphore_down ((sem_fresh 0).running 0) 0 = .susp 0 s0 ∧
      (s0.sems 0).waiting_list = [0] ∧ (s0.sems 0).count = 0 ∧
      libtask_semaphore_up s0 0 = .ret 0 s1 ∧
      (s1.sems 0).count = 0 ∧ (s1.sems 0).waiting_list = [] ∧
      (s1.pools 0).waiting_list = [0] := by
  obtain ⟨s1, h1, h2, h3, h4, -⟩ :=
    (semaphore_up_hands_off
      (((sem_fresh 0).running 0).setSem 0 { count := 0, waiting_list := [0] }) 0 0 0 [] rfl rfl).1
  exact ⟨_, s1, rfl, rfl, rfl, h1, h2, h3, h4⟩

/-- A down that parks leaves `ntasks` of the task's pool alone, and the up
that releases the task adds one to it; the members of the pool are the same. -/
theorem semaphore_down_up_ntasks (s : State) (sem task pool : Nat)
    (hp : (s.tasks task).task_pool = some pool) (hc : (s.sems sem).count ≤ 0)
    (hl : (s.sems sem).waiting_list = []) :
    ∃ s1 s2, libtask_semaphore_down (s.running task) sem = .susp 0 s1 ∧
      (s1.pools pool).ntasks = (s.pools pool).ntasks ∧
      libtask_semaphore_up s1 sem = .ret 0 s2 ∧
      (s2.pools pool).ntasks = (s.pools pool).ntasks + 1 ∧ s2.tasks = s.tasks := by
  have hd := @libtask_semaphore_down_parks (s.running task) sem task rfl (by simpa using hc)
  have hu := @libtask_semaphore_up_waiter
    ((s.running task).setSem sem
      { (s.running task).sems sem with
        waiting_list := ((s.running task).sems sem).waiting_list ++ [task] })
    sem task pool [] (by simp [hl]) (by simpa using hp)
  exact ⟨_, _, hd, by simp, hu, by simp, by simp⟩

/-- C8, the code at the failing input.  Pool 0 has the two members 0 and 1
and `ntasks = 2`; task 0 parks in `libtask_semaphore_down` on a semaphore with
`count = 0` and `libtask_semaphore_up` releases it.  The tasks and their pools
are as before, but `ntasks` is 3: the up adds one and no down takes it away. -/
theorem semaphore_handoff_changes_ntasks :
    ∃ s1 s2, libtask_semaphore_down ((sem_fresh 0).running 0) 0 = .susp 0 s1 ∧
      libtask_semaphore_up s1 0 = .ret 0 s2 ∧
      ((sem_fresh 0).pools 0).ntasks = 2 ∧ (s1.pools 0).ntasks = 2 ∧
      (s2.pools 0).ntasks = 3 ∧ s2.tasks = (sem_fresh 0).tasks := by
  obtain ⟨s1, s2, h1, h2, h3, h4, h5⟩ :=
    semaphore_down_up_ntasks (sem_fresh 0) 0 0 0 rfl (by decide) rfl
  exact ⟨s1, s2, h1, h3, rfl, h2, h4, h5⟩

/-! ## Facts about yield and the pool switch -/

theorem unlink_unlink (task : Nat) (list : List Nat) :
    unlink task (unlink task list) = unlink task list := by
  simp [unlink]

theorem unlink_append_self (task : Nat) (list : List Nat) :
    unlink task (list ++ [task]) = unlink task list := by
  simp [unlink]

theorem unlink_if_linked_unlink (s : State) (task q : Nat) :
    unlink task ((unlink_if_linked s task).pools q).waiting_list
      = unlink task (s.pools q).waiting_list := by
  unfold unlink_if_linked
  split
  · simp [unlink_unlink]
  · rfl

theorem libtask_task_yield_member {s : State} {task pool : Nat}
    (hcur : s.libtask_current_task = some task) (hc : (s.tasks task).complete = false)
    (hp : (s.tasks task).task_pool = some pool) :
    libtask_task_yield s =
      .susp 0
        ((libtask_list_erase s task).setPool pool
          { (libtask_list_erase s task).pools pool with
            waiting_list := unlink task (s.pools pool).waiting_list ++ [task] }) := by
  simp [libtask_task_yield, hcur, hc, hp, libtask_task_schedule,
    libtask_task_pool_push_back_member hp, libtask_task_suspend]

theorem libtask_task_yield_without_pool {s : State} {task : Nat}
    (hcur : s.libtask_current_task = some task) (hc : (s.tasks task).complete = false)
    (hp : (s.tasks task).task_pool = none) :
    libtask_task_yield s = .susp 0 s := by
  simp [libtask_task_yield, hcur, hc, hp, libtask_task_suspend]

theorem count_unlink_append_self (task : Nat) (list : List Nat) :
    (unlink task list ++ [task]).count task = 1 := by
  rw [List.count_append, List.count_eq_zero_of_not_mem (not_mem_unlink task list)]
  simp

theorem libtask_task_pool_erase_lists {s : State} {pool task : Nat}
    (hm : (s.tasks task).task_pool = some pool) (hn : 1 ≤ (s.pools pool).ntasks) :
    ∃ s1, libtask_task_pool_erase s pool task = .ret 0 s1 ∧
      s1.tasks = Function.update s.tasks task { s.tasks task with task_pool := none } ∧
      (∀ q, (s1.pools q).ntasks
        = if q = pool then (s.pools pool).ntasks - 1 else (s.pools q).ntasks) ∧
      (∀ q, unlink task (s1.pools q).waiting_list = unlink task (s.pools q).waiting_list) ∧
      (∀ q, (s1.pools q).waiting_list = (s.pools q).waiting_list ∨
        (s1.pools q).waiting_list = unlink task (s.pools q).waiting_list) ∧
      s1.libtask_current_task = s.libtask_current_task := by
  refine ⟨_, libtask_task_pool_erase_member hm hn, ?_, ?_, ?_, ?_, ?_⟩
  · simp [unlink_if_linked_tasks]
  · intro q
    by_cases hq : q = pool
    · subst hq; simp [unlink_if_linked_ntasks]
    · simp [hq, Function.update_noteq hq, unlink_if_linked_ntasks]
  · intro q
    by_cases hq : q = pool
    · subst hq
      simp only [setPool_pools, Function.update_same]
      rw [unlink_if_linked_unlink]
      simp
    · simp only [setPool_pools, Function.update_noteq hq]
      rw [unlink_if_linked_unlink]
      simp [Function.update_noteq hq]
  · intro q
    have key : ∀ s0 : State, ((unlink_if_linked s0 task).pools q).waiting_list
        = (s0.pools q).waiting_list ∨
        ((unlink_if_linked s0 task).pools q).waiting_list
          = unlink task (s0.pools q).waiting_list := by
      intro s0
      unfold unlink_if_linked
      split
      · right; rfl
      · left; rfl
    have hk := key ((s.setPool pool
      { s.pools pool with ntasks := (s.pools pool).ntasks - 1 }).setTask
        task { s.tasks task with task_pool := none })
    by_cases hq : q = pool
    · subst hq
      simp only [setPool_pools, Function.update_same]
      rcases hk with hk | hk
      · left; rw [hk]; simp
      · right; rw [hk]; simp
    · simp only [setPool_pools, Function.update_noteq hq]
      rcases hk with hk | hk
      · left; rw [hk]; simp [Function.update_noteq hq]
      · right; rw [hk]; simp [Function.update_noteq hq]
  · simp [unlink_if_linked_current]

theorem libtask_task_pool_insert_spec {s : State} {pool task : Nat}
    (h : (s.tasks task).task_pool = none) :
    ∃ s1, libtask_task_pool_insert s pool task = .ret 0 s1 ∧
      s1.tasks = Function.update s.tasks task { s.tasks task with task_pool := some pool } ∧
      (∀ q, (s1.pools q).ntasks
        = if q = pool then (s.pools pool).ntasks + 1 else (s.pools q).ntasks) ∧
      (∀ q, (s1.pools q).waiting_list
        = if q = pool then (s.pools pool).waiting_list ++ [task]
          else (s.pools q).waiting_list) ∧
      s1.libtask_current_task = s.libtask_current_task := by
  refine ⟨_, libtask_task_pool_insert_eq h, ?_, ?_, ?_, ?_⟩
  · simp
  · intro q
    by_cases hq : q = pool
    · subst hq; simp
    · simp [hq, Function.update_noteq hq]
  · intro q
    by_cases hq : q = pool
    · subst hq; simp
    · simp [hq, Function.update_noteq hq]
  · simp

theorem libtask_task_yield_spec {s : State} {task pool : Nat}
    (hcur : s.libtask_current_task = some task) (hc : (s.tasks task).complete = false)
    (hp : (s.tasks task).task_pool = some pool) :
    ∃ s1, libtask_task_yield s = .susp 0 s1 ∧ s1.tasks = s.tasks ∧
      (∀ q, (s1.pools q).ntasks = (s.pools q).ntasks) ∧
      (∀ q, (s1.pools q).waiting_list
        = if q = pool then unlink task (s.pools pool).waiting_list ++ [task]
          else unlink task (s.pools q).waiting_list) := by
  refine ⟨_, libtask_task_yield_member hcur hc hp, ?_, ?_, ?_⟩
  · simp
  · intro q
    by_cases hq : q = pool
    · subst hq; simp
    · simp [Function.update_noteq hq]
  · intro q
    by_cases hq : q = pool
    · subst hq; simp
    · simp [hq, Function.update_noteq hq]

theorem getLast?_append_singleton (l : List Nat) (a : Nat) : (l ++ [a]).getLast? = some a := by
  simp

/-! ## C9: `libtask_task_yield` rotates the runnable list -/

/-- C9. A pool whose runnable list is `t1 :: rest`, with `t1` a member of the
pool that is not complete and not queued a second time: `pop_front` hands out
`t1` and the yield that `t1` then makes leaves the runnable list equal to
`rest ++ [t1]`, with every `ntasks` and every task record unchanged.
Consequently a single worker on a pool into which A and B, each yielding
three times, were inserted in that order executes A, B, A, B, A, B, then
lets both run to completion and leaves the pool empty. -/
theorem yield_rotates (s : State) (pool t1 : Nat) (rest : List Nat)
    (hl : (s.pools pool).waiting_list = t1 :: rest)
    (hm : (s.tasks t1).task_pool = some pool) (hc : (s.tasks t1).complete = false)
    (hnd : t1 ∉ rest) :
    (∃ s1 s2, libtask_task_pool_pop_front s pool = .ret (0, some t1) s1 ∧
      libtask_task_yield (s1.running t1) = .susp 0 s2 ∧
      (s2.pools pool).waiting_list = rest ++ [t1] ∧
      (∀ q, (s2.pools q).ntasks = (s.pools q).ntasks) ∧ s2.tasks = s.tasks) ∧
    ((yield_scene.pools 0).waiting_list = [0, 1] ∧
      (worker 0 6 yield_scene).1 = [0, 1, 0, 1, 0, 1] ∧
      ((worker 0 6 yield_scene).2.heap.pools 0).waiting_list = [0, 1] ∧
      (worker 0 9 yield_scene).1 = [0, 1, 0, 1, 0, 1, 0, 1] ∧
      ((worker 0 9 yield_scene).2.heap.tasks 0).complete = true ∧
      ((worker 0 9 yield_scene).2.heap.tasks 1).complete = true ∧
      ((worker 0 9 yield_scene).2.heap.pools 0).ntasks = 0 ∧
      ((worker 0 9 yield_scene).2.heap.pools 0).waiting_list = []) := by
  have h1 := libtask_task_pool_pop_front_cons hl
  have h2 := @libtask_task_yield_member
    ((s.setPool pool { s.pools pool with waiting_list := rest }).running t1) t1 pool rfl
    (by simpa using hc) (by simpa using hm)
  refine ⟨⟨_, _, h1, h2, ?_, ?_, ?_⟩, by decide, by decide, by decide, by decide, by decide,
    by decide, by decide, by decide⟩
  · simp [unlink_eq_self hnd]
  · intro q
    by_cases hq : q = pool
    · subst hq; simp
    · simp [Function.update_noteq hq]
  · simp

/-- C9 at the heap `yield_scene`: task 0 is popped, yields and is queued behind task 1. -/
theorem yield_rotates_witness :
    ∃ s1 s2, libtask_task_pool_pop_front yield_scene 0 = .ret (0, some 0) s1 ∧
      libtask_task_yield (s1.running 0) = .susp 0 s2 ∧
      (s2.pools 0).waiting_list = [1, 0] ∧ (s2.pools 0).ntasks = 2 := by
  obtain ⟨⟨s1, s2, h1, h2, h3, h4, -⟩, -⟩ :=
    yield_rotates yield_scene 0 0 [1] (by decide) (by decide) (by decide) (by decide)
  exact ⟨s1, s2, h1, h2, h3, by rw [h4 0]; decide⟩

/-! ## C10: `libtask_task_pool_switch` -/

@[simp] theorem queue_pool (s : State) (p : Nat) :
    s.queue (.pool p) = (s.pools p).waiting_list := rfl

@[simp] theorem queue_cond (s : State) (c : CondRef) : s.queue (.cond c) = (s.cond c).list := rfl

@[simp] theorem queue_sem (s : State) (m : Nat) :
    s.queue (.sem m) = (s.sems m).waiting_list := rfl

theorem not_mem_queue_of_link_empty {s : State} {task : Nat} {q : QueueRef}
    (hq : q.allocated s) (h : libtask_list_empty_link s task = true) : task ∉ s.queue q := by
  simp only [libtask_list_empty_link, Bool.not_eq_true', Bool.or_eq_false_iff,
    List.any_eq_false, List.mem_range] at h
  obtain ⟨⟨h1, h2⟩, h3⟩ := h
  cases q with
  | pool p =>
    have := h1 p hq
    simp at this
    simpa using this.1
  | cond c =>
    cases c with
    | cond c =>
      have := h2 c hq
      simpa using this
    | waiting_condition p =>
      have := h1 p hq
      simp at this
      simpa using this.2
  | sem m =>
    have := h3 m hq
    simpa using this

theorem libtask_list_erase_queue (s : State) (task : Nat) (q : QueueRef) :
    (libtask_list_erase s task).queue q = unlink task (s.queue q) := by
  cases q with
  | pool p => rfl
  | cond c => cases c <;> rfl
  | sem m => rfl

theorem unlink_if_linked_queue {s : State} {q : QueueRef} (task : Nat) (hq : q.allocated s) :
    (unlink_if_linked s task).queue q = unlink task (s.queue q) := by
  unfold unlink_if_linked
  by_cases h : libtask_list_empty_link s task = true
  · simp only [h, Bool.not_true, Bool.false_eq_true, if_false]
    exact (unlink_eq_self (not_mem_queue_of_link_empty hq h)).symm
  · simp only [Bool.not_eq_true] at h
    simp only [h, Bool.not_false, if_true]
    exact libtask_list_erase_queue s task q


@[simp] theorem setTask_queue (s : State) (task : Nat) (x : libtask_task_t) (q : QueueRef) :
    (s.setTask task x).queue q = s.queue q := by
  cases q with
  | pool p => rfl
  | cond c => cases c <;> rfl
  | sem m => rfl

theorem setPool_queue (s : State) (p : Nat) (x : libtask_task_pool_t) (q : QueueRef) :
    (s.setPool p x).queue q =
      if q = .pool p then x.waiting_list
      else if q = .cond (.waiting_condition p) then x.waiting_condition.list
      else s.queue q := by
  cases q with
  | pool p' =>
    by_cases h : p' = p
    · subst h; simp
    · simp [h, Function.update_noteq h]
  | cond c =>
    cases c with
    | cond c => simp
    | waiting_condition p' =>
      by_cases h : p' = p
      · subst h; simp
      · simp [h, Function.update_noteq h]
  | sem m => simp

theorem setSem_queue (s : State) (m : Nat) (x : libtask_semaphore_t) (q : QueueRef) :
    (s.setSem m x).queue q = if q = .sem m then x.waiting_list else s.queue q := by
  cases q with
  | pool p => simp
  | cond c => cases c <;> simp
  | sem m' =>
    by_cases h : m' = m
    · subst h; simp
    · simp [h, Function.update_noteq h]

theorem setCond_queue (s : State) (c : CondRef) (x : libtask_condition_t) (q : QueueRef) :
    (s.setCond c x).queue q = if q = .cond c then x.list else s.queue q := by
  cases q with
  | pool p => simp
  | cond c' =>
    by_cases h : c' = c
    · subst h; simp
    · simp [h, cond_setCond_ne _ _ h]
  | sem m => simp

@[simp] theorem running_queue (s : State) (task : Nat) (q : QueueRef) :
    (s.running task).queue q = s.queue q := by
  cases q with
  | pool p => rfl
  | cond c => cases c <;> rfl
  | sem m => rfl

theorem setPool_queue_same (s : State) (p : Nat) (x : libtask_task_pool_t) (q : QueueRef)
    (h1 : x.waiting_list = (s.pools p).waiting_list)
    (h2 : x.waiting_condition = (s.pools p).waiting_condition) :
    (s.setPool p x).queue q = s.queue q := by
  rw [setPool_queue]
  split
  · rename_i h; subst h; simpa using h1
  · split
    · rename_i h; subst h; simp [h2]
    · rfl

theorem libtask_task_pool_erase_member_cases {s : State} {pool task : Nat}
    (hm : (s.tasks task).task_pool = some pool) :
    libtask_task_pool_erase s pool task = .abort ∨
      ∃ s1, libtask_task_pool_erase s pool task = .ret 0 s1 := by
  by_cases hn : 1 ≤ (s.pools pool).ntasks
  · exact Or.inr ⟨_, libtask_task_pool_erase_member hm hn⟩
  · left
    unfold libtask_task_pool_erase
    simp only [hm, ne_eq, not_true_eq_false, if_false]
    rw [if_pos]
    simp only [setPool_pools, Function.update_same]
    omega

theorem libtask_task_pool_erase_queue {s s1 : State} {pool task : Nat} {e : error_t}
    (h : libtask_task_pool_erase s pool task = .ret e s1) (q : QueueRef) :
    (q.allocated s → (s.tasks task).task_pool = some pool →
      s1.queue q = unlink task (s.queue q)) ∧
    (s1.queue q = s.queue q ∨ s1.queue q = unlink task (s.queue q)) := by
  by_cases hm : (s.tasks task).task_pool = some pool
  · by_cases hn : 1 ≤ (s.pools pool).ntasks
    · rw [libtask_task_pool_erase_member hm hn] at h
      injection h with _ hs
      subst hs
      have key : ((unlink_if_linked
          ((s.setPool pool { s.pools pool with ntasks := (s.pools pool).ntasks - 1 }).setTask
            task { s.tasks task with task_pool := none }) task).setPool pool
          { (unlink_if_linked
              ((s.setPool pool { s.pools pool with ntasks := (s.pools pool).ntasks - 1 }).setTask
                task { s.tasks task with task_pool := none }) task).pools pool with
            refcount := (s.pools pool).refcount - 1 }).queue q
          = (unlink_if_linked
              ((s.setPool pool { s.pools pool with ntasks := (s.pools pool).ntasks - 1 }).setTask
                task { s.tasks task with task_pool := none }) task).queue q :=
        setPool_queue_same _ _ _ _ rfl rfl
      have hq0 : ((s.setPool pool { s.pools pool with ntasks := (s.pools pool).ntasks - 1 }).setTask
            task { s.tasks task with task_pool := none }).queue q = s.queue q := by
        rw [setTask_queue]
        exact setPool_queue_same _ _ _ _ rfl rfl
      constructor
      · intro hq _
        rw [key, unlink_if_linked_queue task (by cases q <;> [exact hq; (rename_i c; cases c <;> exact hq); exact hq]), hq0]
      · rw [key]
        unfold unlink_if_linked
        split
        · right; rw [libtask_list_erase_queue, hq0]
        · left; exact hq0
    · rcases libtask_task_pool_erase_member_cases hm with h' | ⟨s2, h'⟩
      · rw [h'] at h; cases h
      · exfalso
        unfold libtask_task_pool_erase at h'
        simp only [hm, ne_eq, not_true_eq_false, if_false] at h'
        rw [if_pos (by simp only [setPool_pools, Function.update_same]; omega)] at h'
        cases h'
  · rw [libtask_task_pool_erase_foreign hm] at h
    injection h with _ hs
    subst hs
    exact ⟨fun _ hm' => absurd hm' hm, Or.inl rfl⟩

/-! ## C13: `libtask_task_pool_erase` -/

/-- C13. `libtask_task_pool_erase` returns `EINVAL` exactly when the task is
not a member of the pool, and then changes nothing.  For a member (which the
pool counts: `ntasks >= 1`) it returns 0, takes exactly one off `ntasks`,
leaves every other pool's counter and every other task alone, clears
`task_pool`, and takes the task out of every allocated list, the other
queued tasks keeping their order; the link is empty afterwards. -/
theorem pool_erase_atomic (s : State) (pool task : Nat) :
    ((s.tasks task).task_pool ≠ some pool →
      libtask_task_pool_erase s pool task = .ret EINVAL s) ∧
    ((s.tasks task).task_pool = some pool → 1 ≤ (s.pools pool).ntasks →
      ∃ s1, libtask_task_pool_erase s pool task = .ret 0 s1 ∧
        (s1.pools pool).ntasks = (s.pools pool).ntasks - 1 ∧
        (∀ p, p ≠ pool → (s1.pools p).ntasks = (s.pools p).ntasks) ∧
        (s1.tasks task).task_pool = none ∧
        (∀ t, t ≠ task → s1.tasks t = s.tasks t) ∧
        (∀ q, q.allocated s → s1.queue q = (s.queue q).filter (fun x => x != task)) ∧
        libtask_list_empty_link s1 task = true) ∧
    (∀ e s1, libtask_task_pool_erase s pool task = .ret e s1 →
      (e = EINVAL ↔ (s.tasks task).task_pool ≠ some pool)) := by
  refine ⟨libtask_task_pool_erase_foreign, ?_, ?_⟩
  · intro hm hn
    obtain ⟨s1, he, ht, hnt, -, hle, -, hnp, hnc, hns⟩ := libtask_task_pool_erase_spec hm hn
    refine ⟨s1, he, ?_, ?_, ?_, ?_, ?_, hle⟩
    · simpa using hnt pool
    · intro p hp; simpa [hp] using hnt p
    · simp [ht]
    · intro t htt; simp [ht, Function.update_noteq htt]
    · intro q hq
      exact ((libtask_task_pool_erase_queue he q).1 hq hm)
  · intro e s1 h
    by_cases hm : (s.tasks task).task_pool = some pool
    · rcases libtask_task_pool_erase_member_cases hm with h' | ⟨s2, h'⟩
      · rw [h'] at h; cases h
      · rw [h'] at h
        injection h with h1 _
        constructor
        · intro he; rw [he] at h1; exact absurd h1 (by decide)
        · intro hne; exact absurd hm hne
    · rw [libtask_task_pool_erase_foreign hm] at h
      injection h with h1 _
      exact ⟨fun _ => hm, fun _ => h1.symm⟩

/-- C13 at the heap `switch_scene`: task 1 is the queued member of pool 1 and
is no member of pool 0. -/
theorem pool_erase_atomic_witness :
    libtask_task_pool_erase switch_scene 0 1 = .ret EINVAL switch_scene ∧
    (∃ s1, libtask_task_pool_erase switch_scene 1 1 = .ret 0 s1 ∧
      (s1.pools 1).ntasks = 0 ∧ (s1.tasks 1).task_pool = none ∧
      s1.queue (.pool 1) = [] ∧ libtask_list_empty_link s1 1 = true) := by
  constructor
  · exact (pool_erase_atomic switch_scene 0 1).1 (by decide)
  · obtain ⟨s1, h1, h2, -, h4, -, h6, h7⟩ :=
      (pool_erase_atomic switch_scene 1 1).2.1 rfl (by decide)
    exact ⟨s1, h1, by rw [h2]; decide, h4,
      by rw [h6 (.pool 1) (Nat.lt_succ_self 1)]; decide, h7⟩

theorem State.ext_fields (a b : State) (h1 : a.tasks = b.tasks) (h2 : a.pools = b.pools)
    (h3 : a.conds = b.conds) (h4 : a.sems = b.sems) (h5 : a.ntask = b.ntask)
    (h6 : a.npool = b.npool) (h7 : a.ncond = b.ncond) (h8 : a.nsem = b.nsem)
    (h9 : a.all_task_list = b.all_task_list)
    (h10 : a.libtask_current_task = b.libtask_current_task) : a = b := by
  cases a
  cases b
  simp_all

/-! ## C14 and C15: `libtask_task_pool_pop_front` and `libtask_task_pool_push_back` -/

/-- C14. `libtask_task_pool_pop_front` reports `ENOENT` exactly when the
waiting list is empty, and then changes nothing; otherwise it hands out the
head, leaves the rest queued in the same order, and leaves `ntasks`, every
task record (so the pool of the task it hands out), every other pool, every
condition and every semaphore unchanged. -/
theorem pool_pop_front_head (s : State) (pool : Nat) :
    ((s.pools pool).waiting_list = [] →
      libtask_task_pool_pop_front s pool = .ret (ENOENT, none) s) ∧
    (∀ task rest, (s.pools pool).waiting_list = task :: rest →
      ∃ s1, libtask_task_pool_pop_front s pool = .ret (0, some task) s1 ∧
        (s1.pools pool).waiting_list = rest ∧
        (s1.pools pool).ntasks = (s.pools pool).ntasks ∧
        s1.tasks = s.tasks ∧
        (∀ p, p ≠ pool → s1.pools p = s.pools p) ∧
        s1.conds = s.conds ∧ s1.sems = s.sems) ∧
    (∀ e t s1, libtask_task_pool_pop_front s pool = .ret (e, t) s1 →
      (e = ENOENT ↔ (s.pools pool).waiting_list = [])) := by
  refine ⟨libtask_task_pool_pop_front_nil, ?_, ?_⟩
  · intro task rest h
    refine ⟨_, libtask_task_pool_pop_front_cons h, ?_, ?_, ?_, ?_, ?_, ?_⟩
    · simp
    · simp
    · simp
    · intro p hp; simp [Function.update_noteq hp]
    · simp
    · simp
  · intro e t s1 h
    cases hl : (s.pools pool).waiting_list with
    | nil =>
      rw [libtask_task_pool_pop_front_nil hl] at h
      injection h with h1 _
      injection h1 with h1 _
      simp [← h1]
    | cons task rest =>
      rw [libtask_task_pool_pop_front_cons hl] at h
      injection h with h1 _
      injection h1 with h1 _
      simp [← h1, ENOENT]

/-- C14 at the heap `switch_scene`: pool 0 has an empty list, pool 1 holds task 1. -/
theorem pool_pop_front_head_witness :
    libtask_task_pool_pop_front switch_scene 0 = .ret (ENOENT, none) switch_scene ∧
    (∃ s1, libtask_task_pool_pop_front switch_scene 1 = .ret (0, some 1) s1 ∧
      (s1.pools 1).waiting_list = [] ∧ (s1.pools 1).ntasks = 1 ∧
      (s1.tasks 1).task_pool = some 1) := by
  constructor
  · exact (pool_pop_front_head switch_scene 0).1 rfl
  · obtain ⟨s1, h1, h2, h3, h4, -⟩ := (pool_pop_front_head switch_scene 1).2.1 1 [] rfl
    exact ⟨s1, h1, h2, by rw [h3]; decide, by rw [h4]; decide⟩

theorem libtask_task_pool_push_back_foreign {s : State} {pool task : Nat}
    (h : (s.tasks task).task_pool ≠ some pool) :
    libtask_task_pool_push_back s pool task = .ret EINVAL s := by
  simp [libtask_task_pool_push_back, h]

/-- C15. For a member of the pool, `libtask_task_pool_push_back` returns 0
and leaves the waiting list equal to the other queued tasks, in their order,
followed by the task: the task is last and occurs once, whether or not it
was queued; no `ntasks` and no task record changes; a second push_back
returns 0 and leaves the heap as the first one left it.  For a task that is
not a member it returns `EINVAL` and changes nothing. -/
theorem pool_push_back_idempotent (s : State) (pool task : Nat) :
    ((s.tasks task).task_pool = some pool →
      ∃ s1, libtask_task_pool_push_back s pool task = .ret 0 s1 ∧
        (s1.pools pool).waiting_list
          = (s.pools pool).waiting_list.filter (fun x => x != task) ++ [task] ∧
        (s1.pools pool).waiting_list.count task = 1 ∧
        (s1.pools pool).waiting_list.getLast? = some task ∧
        (∀ p, (s1.pools p).ntasks = (s.pools p).ntasks) ∧
        s1.tasks = s.tasks ∧
        libtask_task_pool_push_back s1 pool task = .ret 0 s1) ∧
    ((s.tasks task).task_pool ≠ some pool →
      libtask_task_pool_push_back s pool task = .ret EINVAL s) := by
  refine ⟨?_, libtask_task_pool_push_back_foreign⟩
  intro hm
  refine ⟨_, libtask_task_pool_push_back_member hm, ?_, ?_, ?_, ?_, ?_, ?_⟩
  · simp [unlink]
  · simpa using count_unlink_append_self task (s.pools pool).waiting_list
  · simp
  · intro p
    by_cases hp : p = pool
    · subst hp; simp
    · simp [Function.update_noteq hp]
  · simp
  · rw [libtask_task_pool_push_back_member (by simpa using hm)]
    congr 1
    have hpools : ∀ p, (((libtask_list_erase
        ((libtask_list_erase s task).setPool pool
          { (libtask_list_erase s task).pools pool with
            waiting_list := unlink task (s.pools pool).waiting_list ++ [task] }) task).setPool pool
          { (libtask_list_erase
              ((libtask_list_erase s task).setPool pool
                { (libtask_list_erase s task).pools pool with
                  waiting_list := unlink task (s.pools pool).waiting_list ++ [task] })
              task).pools pool with
            waiting_list := unlink task
              (((libtask_list_erase s task).setPool pool
                { (libtask_list_erase s task).pools pool with
                  waiting_list := unlink task (s.pools pool).waiting_list ++ [task] }).pools
                pool).waiting_list ++ [task] }).pools p)
        = (((libtask_list_erase s task).setPool pool
          { (libtask_list_erase s task).pools pool with
            waiting_list := unlink task (s.pools pool).waiting_list ++ [task] }).pools p) := by
      intro p
      by_cases hp : p = pool
      · subst hp
        simp [libtask_list_erase, unlink_unlink, unlink_append_self]
      · simp [libtask_list_erase, unlink_unlink, Function.update_noteq hp]
    apply State.ext_fields
    · rfl
    · funext p; exact hpools p
    · funext c
      simp [libtask_list_erase, unlink_unlink]
    · funext m
      simp [libtask_list_erase, unlink_unlink]
    all_goals rfl

/-- C15 at the heap `switch_scene`: task 1 is queued in pool 1, task 0 is an
off-queue member of pool 0, and task 1 is no member of pool 0. -/
theorem pool_push_back_idempotent_witness :
    (∃ s1, libtask_task_pool_push_back switch_scene 1 1 = .ret 0 s1 ∧
      (s1.pools 1).waiting_list = [1] ∧
      libtask_task_pool_push_back s1 1 1 = .ret 0 s1) ∧
    (∃ s1, libtask_task_pool_push_back switch_scene 0 0 = .ret 0 s1 ∧
      (s1.pools 0).waiting_list = [0] ∧ (s1.pools 0).ntasks = 1) ∧
    libtask_task_pool_push_back switch_scene 0 1 = .ret EINVAL switch_scene := by
  refine ⟨?_, ?_, ?_⟩
  · obtain ⟨s1, h1, h2, -, -, -, -, h7⟩ := (pool_push_back_idempotent switch_scene 1 1).1 rfl
    exact ⟨s1, h1, by rw [h2]; decide, h7⟩
  · obtain ⟨s1, h1, h2, -, -, h5, -⟩ := (pool_push_back_idempotent switch_scene 0 0).1 rfl
    exact ⟨s1, h1, by rw [h2]; decide, by rw [h5 0]; decide⟩
  · exact (pool_push_back_idempotent switch_scene 0 1).2 (by decide)

/-! ## C12, C17 and C19: signals on enqueue, finalize from within, the checks of erase -/

theorem cond_blocked_setPool (s : State) (p : Nat) (x : libtask_task_pool_t) (c : CondRef)
    (h : x.waiting_condition.blocked = (s.pools p).waiting_condition.blocked) :
    ((s.setPool p x).cond c).blocked = (s.cond c).blocked := by
  cases c with
  | cond c => rfl
  | waiting_condition q =>
    by_cases hq : q = p
    · subst hq; simp [h]
    · simp [Function.update_noteq hq]

theorem cond_blocked_libtask_list_erase (s : State) (task : Nat) (c : CondRef) :
    ((libtask_list_erase s task).cond c).blocked = (s.cond c).blocked := by
  cases c <;> rfl

/-- The pool operations and `libtask_semaphore_up` of these sources never
signal a condition: the number of blocked threads of every condition is the
same after the call. -/
theorem enqueue_leaves_blocked (s s1 : State) (e : error_t) (c : CondRef) :
    (∀ pool task, libtask_task_pool_insert s pool task = .ret e s1 →
      (s1.cond c).blocked = (s.cond c).blocked) ∧
    (∀ pool task, libtask_task_pool_push_back s pool task = .ret e s1 →
      (s1.cond c).blocked = (s.cond c).blocked) ∧
    (∀ sem, libtask_semaphore_up s sem = .ret e s1 →
      (s1.cond c).blocked = (s.cond c).blocked) := by
  refine ⟨?_, ?_, ?_⟩
  · intro pool task h
    unfold libtask_task_pool_insert at h
    split at h
    · cases h
    · injection h with _ hs
      subst hs
      rw [cond_blocked_setPool _ _ _ _ (by simp)]
      show ((s.setPool pool _).cond c).blocked = _
      rw [cond_blocked_setPool _ _ _ _ (by simp)]
  · intro pool task h
    unfold libtask_task_pool_push_back at h
    split at h
    · injection h with _ hs
      subst hs
      rfl
    · injection h with _ hs
      subst hs
      rw [cond_blocked_setPool _ _ _ _ (by simp), cond_blocked_libtask_list_erase]
  · intro sem h
    cases hl : (s.sems sem).waiting_list with
    | nil =>
      rw [libtask_semaphore_up_empty hl] at h
      injection h with _ hs
      subst hs
      cases c <;> rfl
    | cons task rest =>
      cases hp : (s.tasks task).task_pool with
      | none =>
        rw [libtask_semaphore_up_orphan hl hp] at h
        cases h
      | some pool =>
        rw [libtask_semaphore_up_waiter hl hp] at h
        injection h with _ hs
        subst hs
        rw [cond_blocked_setPool _ _ _ _ (by simp)]
        cases c <;> rfl

/-- C12, the code at the failing input.  Pool 0 has one idle worker blocked
on its waiting condition.  `libtask_task_pool_insert` of task 0,
`libtask_task_pool_push_back` of the off-queue member 1 and the
`libtask_semaphore_up` that releases task 2 each put a task on the waiting
list of the pool and leave the worker blocked: none of them signals the
waiting condition.  Only the wake-up of task 3 by `libtask_condition_signal`
(through `libtask_condition_wakeup_first`) releases the worker. -/
theorem pool_enqueue_does_not_signal :
    (idle_worker_scene.pools 0).waiting_condition.blocked = 1 ∧
    (∃ s1, libtask_task_pool_insert idle_worker_scene 0 0 = .ret 0 s1 ∧
      (s1.pools 0).waiting_list = [0] ∧ (s1.pools 0).waiting_condition.blocked = 1) ∧
    (∃ s1, libtask_task_pool_push_back idle_worker_scene 0 1 = .ret 0 s1 ∧
      (s1.pools 0).waiting_list = [1] ∧ (s1.pools 0).waiting_condition.blocked = 1) ∧
    (∃ s1, libtask_semaphore_up idle_worker_scene 0 = .ret 0 s1 ∧
      (s1.pools 0).waiting_list = [2] ∧ (s1.pools 0).waiting_condition.blocked = 1) ∧
    (∃ s1, libtask_condition_signal idle_worker_scene (.cond 0) = .ret () s1 ∧
      (s1.pools 0).waiting_list = [3] ∧ (s1.pools 0).waiting_condition.blocked = 0) :=
  ⟨rfl, ⟨_, rfl, rfl, rfl⟩, ⟨_, rfl, rfl, rfl⟩, ⟨_, rfl, rfl, rfl⟩, ⟨_, rfl, rfl, rfl⟩⟩

/-- In the heap in which `libtask_task_execute` swaps a task in, a
`libtask_task_finalize` of that task aborts as soon as somebody else holds a
reference. -/
theorem libtask_task_finalize_while_executing (s : State) (task : Nat)
    (h : 1 ≤ (s.tasks task).refcount) :
    libtask_task_finalize
      { s.setTask task { s.tasks task with refcount := (s.tasks task).refcount + 1 } with
        libtask_current_task := some task } task = .abort := by
  unfold libtask_task_finalize
  rw [if_pos]
  simp only [setTask_tasks, Function.update_same]
  have h1 : (1 : Int) ≤ (s.tasks task).refcount := h
  show (1 : Int) < (s.tasks task).refcount + 1
  omega

/-- C17, counterexample.  Task 0 was created, so its creator
holds one reference; it has no pool and its link is empty; its entry
function calls `libtask_task_finalize` on itself.  `libtask_task_execute`
takes a second reference before it swaps the task in, so the first `CHECK`
of `libtask_task_finalize`, that the count is at most 1, fails: the call
aborts and never reaches the test that would return `EINVAL`. -/
theorem finalize_from_within_aborts :
    (finalize_scene.tasks 0).refcount = 1 ∧ (finalize_scene.tasks 0).task_pool = none ∧
    libtask_list_empty_link finalize_scene 0 = true ∧
    (finalize_scene.tasks 0).function.calls = [.task_finalize 0] ∧
    libtask_task_execute finalize_scene 0 = .abort ∧
    libtask_task_finalize
      { finalize_scene.setTask 0
          { finalize_scene.tasks 0 with refcount := (finalize_scene.tasks 0).refcount + 1 } with
        libtask_current_task := some 0 } 0 = .abort :=
  ⟨rfl, rfl, rfl, rfl, rfl, libtask_task_finalize_while_executing finalize_scene 0 (by decide)⟩

/-- C17, amended.  A task that is executing calls `libtask_task_finalize` on
itself.  When it has no pool, an empty wait link and a reference count of at
most one (the reference of the executor is the only one), the call returns
`EINVAL` and leaves the heap as it is, so the stack, the mutex and the link in
the list of all tasks are intact.  When the count is above one (a handle is
held besides the reference of the executor), or the task has a pool, or its
wait link is in a list, the call aborts on a `CHECK`. -/
theorem finalize_from_within (s : State) (task : Nat)
    (hcur : s.libtask_current_task = some task) :
    ((s.tasks task).refcount ≤ 1 → (s.tasks task).task_pool = none →
      libtask_list_empty_link s task = true →
      libtask_task_finalize s task = .ret EINVAL s) ∧
    ((1 < (s.tasks task).refcount ∨ (s.tasks task).task_pool ≠ none ∨
        libtask_list_empty_link s task = false) →
      libtask_task_finalize s task = .abort) := by
  constructor
  · intro hr hp hl
    have hr' : ¬ (s.tasks task).refcount > 1 := not_lt.mpr hr
    unfold libtask_task_finalize
    rw [if_neg hr', if_neg (by simp [hp]), if_neg (by simp [hl]), if_pos hcur]
  · intro h
    unfold libtask_task_finalize
    by_cases hr : (s.tasks task).refcount > 1
    · rw [if_pos hr]
    · rw [if_neg hr]
      by_cases hp : (s.tasks task).task_pool ≠ none
      · rw [if_pos hp]
      · rw [if_neg hp]
        rcases h with h | h | h
        · exact absurd h hr
        · exact absurd h hp
        · rw [if_pos (by simp [h])]

/-- C17 at `embedded_scene`: task 0 was initialised in place, so the
reference `libtask_task_execute` takes is the only one.  The finalize it
calls on itself returns `EINVAL`, the entry function goes on to return, and
after the execute the task is complete with its stack, its mutex and its
link in the list of all tasks intact. -/
theorem finalize_from_within_witness :
    libtask_task_finalize
        { embedded_scene.setTask 0
            { embedded_scene.tasks 0 with
              refcount := (embedded_scene.tasks 0).refcount + 1 } with
          libtask_current_task := some 0 } 0
      = .ret EINVAL
        { embedded_scene.setTask 0
            { embedded_scene.tasks 0 with
              refcount := (embedded_scene.tasks 0).refcount + 1 } with
          libtask_current_task := some 0 } ∧
    (∃ s1, libtask_task_execute embedded_scene 0 = .ret 0 s1 ∧
      (s1.tasks 0).complete = true ∧ (s1.tasks 0).stack = some 4096 ∧
      (s1.tasks 0).mutex = true ∧ s1.all_task_list = [0]) :=
  ⟨(finalize_from_within
      { embedded_scene.setTask 0
          { embedded_scene.tasks 0 with
            refcount := (embedded_scene.tasks 0).refcount + 1 } with
        libtask_current_task := some 0 } 0 rfl).1 (by decide) rfl rfl,
    ⟨_, rfl, rfl, rfl, rfl, rfl⟩⟩

theorem sum_map_range_update {α : Type} (f : α → Nat) (g : Nat → α) (x : α) :
    ∀ {n i : Nat}, i < n →
      ((List.range n).map (fun j => f (Function.update g i x j))).sum + f (g i)
        = ((List.range n).map (fun j => f (g j))).sum + f x := by
  intro n
  induction n with
  | zero => intro i h; omega
  | succ n ih =>
    intro i h
    simp only [List.range_succ, List.map_append, List.sum_append, List.map_cons, List.map_nil,
      List.sum_cons, List.sum_nil]
    by_cases hi : i = n
    · subst hi
      have hsame : (List.range i).map (fun j => f (Function.update g i x j))
          = (List.range i).map (fun j => f (g j)) := by
        apply List.map_congr_left
        intro j hj
        have : j ≠ i := by have := List.mem_range.mp hj; omega
        simp [Function.update_noteq this]
      rw [hsame]
      simp
      omega
    · have := @ih i (by omega)
      have hn : n ≠ i := fun e => hi e.symm
      simp only [Function.update_noteq hn]
      omega

theorem waiters_congr {s s1 : State} (hp : s1.npool = s.npool) (hc : s1.ncond = s.ncond)
    (h : ∀ c, (s1.cond c).list.length = (s.cond c).list.length) : s1.waiters = s.waiters := by
  have h1 : (fun p => (s1.pools p).waiting_condition.list.length)
      = fun p => (s.pools p).waiting_condition.list.length := by
    funext p; exact h (.waiting_condition p)
  have h2 : (fun c => (s1.conds c).list.length) = fun c => (s.conds c).list.length := by
    funext c; exact h (.cond c)
  simp only [State.waiters, hp, hc, h1, h2]

theorem waiters_setCond {s : State} {cond : CondRef} (hc : cond.allocated s)
    (x : libtask_condition_t) :
    (s.setCond cond x).waiters + (s.cond cond).list.length = s.waiters + x.list.length := by
  cases cond with
  | cond c =>
    have := sum_map_range_update (fun r : libtask_condition_t => r.list.length) s.conds x hc
    simp only [State.waiters, State.setCond, cond_cond] at this ⊢
    omega
  | waiting_condition p =>
    have := sum_map_range_update
      (fun r : libtask_task_pool_t => r.waiting_condition.list.length) s.pools
      { s.pools p with waiting_condition := x } hc
    simp only [State.waiters, State.setCond, State.setPool, cond_waiting_condition] at this ⊢
    omega

theorem allocated_congr {s s1 : State} (hp : s1.npool = s.npool) (hc : s1.ncond = s.ncond)
    (c : CondRef) : c.allocated s1 ↔ c.allocated s := by
  cases c <;> simp [CondRef.allocated, hp, hc]

theorem waiters_have_pools_of_suffix {s s1 : State} (ht : s1.tasks = s.tasks)
    (hp : s1.npool = s.npool) (hc : s1.ncond = s.ncond)
    (h : ∀ c, (s1.cond c).list <:+ (s.cond c).list) (hw : s.waiters_have_pools) :
    s1.waiters_have_pools := by
  intro c hca t htm
  obtain ⟨p, h1, h2⟩ := hw c ((allocated_congr hp hc c).mp hca) t ((h c).subset htm)
  exact ⟨p, by rw [ht]; exact h1, by rw [hp]; exact h2⟩

/-! ## What no operation changes: `complete`, the saved context, the counters -/

theorem Framed.refl (s : State) : Framed s s := ⟨rfl, rfl, rfl, rfl, fun _ => ⟨rfl, rfl⟩⟩

theorem Framed.trans {s s1 s2 : State} (h1 : Framed s s1) (h2 : Framed s1 s2) : Framed s s2 := by
  obtain ⟨a1, a2, a3, a4, a5⟩ := h1
  obtain ⟨b1, b2, b3, b4, b5⟩ := h2
  exact ⟨b1.trans a1, b2.trans a2, b3.trans a3, b4.trans a4,
    fun t => ⟨(b5 t).1.trans (a5 t).1, (b5 t).2.trans (a5 t).2⟩⟩

theorem Framed.of_tasks {s s' : State} (h1 : s'.ntask = s.ntask) (h2 : s'.npool = s.npool)
    (h3 : s'.ncond = s.ncond) (h4 : s'.nsem = s.nsem) (h5 : s'.tasks = s.tasks) : Framed s s' :=
  ⟨h1, h2, h3, h4, fun t => by rw [h5]; exact ⟨rfl, rfl⟩⟩

theorem framed_setPool (s : State) (p : Nat) (x : libtask_task_pool_t) :
    Framed s (s.setPool p x) := Framed.of_tasks rfl rfl rfl rfl rfl

theorem framed_setSem (s : State) (m : Nat) (x : libtask_semaphore_t) :
    Framed s (s.setSem m x) := Framed.of_tasks rfl rfl rfl rfl rfl

theorem framed_setCond (s : State) (c : CondRef) (x : libtask_condition_t) :
    Framed s (s.setCond c x) := by
  cases c <;> exact Framed.of_tasks rfl rfl rfl rfl rfl

theorem framed_called_by (s : State) (caller : Option Nat) : Framed s (s.called_by caller) :=
  Framed.of_tasks rfl rfl rfl rfl rfl

theorem framed_libtask_list_erase (s : State) (task : Nat) :
    Framed s (libtask_list_erase s task) := Framed.of_tasks rfl rfl rfl rfl rfl

theorem framed_unlink_if_linked (s : State) (task : Nat) :
    Framed s (unlink_if_linked s task) := by
  unfold unlink_if_linked
  split
  · exact framed_libtask_list_erase s task
  · exact Framed.refl s

theorem framed_setTask (s : State) (task : Nat) (x : libtask_task_t)
    (h1 : x.complete = (s.tasks task).complete) (h2 : x.uct_self = (s.tasks task).uct_self) :
    Framed s (s.setTask task x) := by
  refine ⟨rfl, rfl, rfl, rfl, fun t => ?_⟩
  by_cases h : t = task
  · subst h; simp [h1, h2]
  · simp [Function.update_noteq h]

theorem Framed.setPool {s s1 : State} (p : Nat) (x : libtask_task_pool_t) (h : Framed s s1) :
    Framed s (s1.setPool p x) := h.trans (framed_setPool s1 p x)

theorem Framed.setSem {s s1 : State} (m : Nat) (x : libtask_semaphore_t) (h : Framed s s1) :
    Framed s (s1.setSem m x) := h.trans (framed_setSem s1 m x)

theorem Framed.setCond {s s1 : State} (c : CondRef) (x : libtask_condition_t)
    (h : Framed s s1) : Framed s (s1.setCond c x) := h.trans (framed_setCond s1 c x)

theorem Framed.list_erase {s s1 : State} (task : Nat) (h : Framed s s1) :
    Framed s (libtask_list_erase s1 task) := h.trans (framed_libtask_list_erase s1 task)

theorem Framed.unlink_if_linked {s s1 : State} (task : Nat) (h : Framed s s1) :
    Framed s (unlink_if_linked s1 task) := h.trans (framed_unlink_if_linked s1 task)

theorem Framed.setTask {s s1 : State} (task : Nat) (x : libtask_task_t)
    (h1 : x.complete = (s1.tasks task).complete) (h2 : x.uct_self = (s1.tasks task).uct_self)
    (h : Framed s s1) : Framed s (s1.setTask task x) :=
  h.trans (framed_setTask s1 task x h1 h2)

theorem libtask_task_pool_erase_framed {s s' : State} {pool task : Nat}
    (h : (libtask_task_pool_erase s pool task).after = some s') : Framed s s' := by
  unfold libtask_task_pool_erase at h
  dsimp only at h
  split at h
  · injection h with h; subst h; exact Framed.refl s
  · split at h
    · cases h
    · split at h
      · cases h
      · injection h with h; subst h
        refine Framed.setPool _ _ (Framed.unlink_if_linked _
          (Framed.setTask _ _ ?_ ?_ (Framed.setPool _ _ (Framed.refl s)))) <;> rfl

theorem libtask_task_pool_insert_framed {s s' : State} {pool task : Nat}
    (h : (libtask_task_pool_insert s pool task).after = some s') : Framed s s' := by
  unfold libtask_task_pool_insert at h
  dsimp only at h
  split at h
  · cases h
  · injection h with h; subst h
    refine Framed.setPool _ _ (Framed.setTask _ _ ?_ ?_ (Framed.setPool _ _ (Framed.refl s)))
      <;> rfl

theorem libtask_task_pool_push_back_framed {s s' : State} {pool task : Nat}
    (h : (libtask_task_pool_push_back s pool task).after = some s') : Framed s s' := by
  unfold libtask_task_pool_push_back at h
  dsimp only at h
  split at h
  · injection h with h; subst h; exact Framed.refl s
  · injection h with h; subst h
    exact ((Framed.refl s).list_erase _).setPool _ _

theorem libtask_task_pool_pop_front_framed {s s' : State} {pool : Nat}
    (h : (libtask_task_pool_pop_front s pool).after = some s') : Framed s s' := by
  unfold libtask_task_pool_pop_front at h
  split at h
  · injection h with h; subst h; exact Framed.refl s
  · injection h with h; subst h
    exact (Framed.refl s).setPool _ _

theorem libtask_task_suspend_framed {s s' : State}
    (h : (libtask_task_suspend s).after = some s') : s' = s := by
  unfold libtask_task_suspend at h
  split at h <;> injection h with h <;> exact h.symm

theorem libtask__task_suspend_framed {s s' : State}
    (h : (libtask__task_suspend s).after = some s') : s' = s := by
  unfold libtask__task_suspend at h
  split at h <;> injection h with h <;> exact h.symm

theorem libtask_task_schedule_framed {s s' : State} {task : Nat}
    (h : (libtask_task_schedule s task).after = some s') : Framed s s' := by
  unfold libtask_task_schedule at h
  split at h
  · injection h with h; subst h; exact Framed.refl s
  · split at h
    · exact libtask_task_pool_push_back_framed h
    · injection h with h; subst h; exact Framed.refl s

theorem libtask_semaphore_up_framed {s s' : State} {sem : Nat}
    (h : (libtask_semaphore_up s sem).after = some s') : Framed s s' := by
  unfold libtask_semaphore_up at h
  dsimp only at h
  split at h
  · injection h with h; subst h; exact (Framed.refl s).setSem _ _
  · split at h
    · cases h
    · injection h with h; subst h
      exact (((Framed.refl s).setSem _ _).setPool _ _).setPool _ _

theorem libtask_semaphore_down_framed {s s' : State} {sem : Nat}
    (h : (libtask_semaphore_down s sem).after = some s') : Framed s s' := by
  unfold libtask_semaphore_down at h
  dsimp only at h
  split at h
  · injection h with h; subst h; exact Framed.refl s
  · split at h
    · injection h with h; subst h; exact (Framed.refl s).setSem _ _
    · rw [libtask__task_suspend_framed h]
      exact (Framed.refl s).setSem _ _

theorem Res.after_ret {α : Type} (a : α) (s : State) : (Res.ret a s).after = some s := rfl

theorem Res.after_susp {α : Type} (a : α) (s : State) : (Res.susp a s).after = some s := rfl

theorem Res.after_of_ret {α : Type} {r : Res α} {a : α} {s : State} (h : r = .ret a s) :
    r.after = some s := by rw [h]; rfl

theorem Res.after_of_susp {α : Type} {r : Res α} {a : α} {s : State} (h : r = .susp a s) :
    r.after = some s := by rw [h]; rfl

theorem Res.after_void {α : Type} (r : Res α) : r.void.after = r.after := by
  cases r <;> rfl

theorem libtask_task_yield_framed {s s' : State}
    (h : (libtask_task_yield s).after = some s') : Framed s s' := by
  unfold libtask_task_yield at h
  split at h
  · injection h with h; subst h; exact Framed.refl s
  · split at h
    · injection h with h; subst h; exact Framed.refl s
    · split at h
      · split at h
        · rename_i heq
          injection h with h; subst h
          rw [libtask_task_suspend_framed (Res.after_of_ret heq)]
          exact Framed.refl s
        · rename_i heq
          injection h with h; subst h
          rw [libtask_task_suspend_framed (Res.after_of_susp heq)]
          exact Framed.refl s
        · cases h
        · cases h
      · split at h
        · rename_i heq
          have hf := libtask_task_schedule_framed (Res.after_of_ret heq)
          split at h
          · cases h
          · split at h
            · rename_i heq2
              injection h with h; subst h
              rw [libtask_task_suspend_framed (Res.after_of_ret heq2)]
              exact hf
            · rename_i heq2
              injection h with h; subst h
              rw [libtask_task_suspend_framed (Res.after_of_susp heq2)]
              exact hf
            · cases h
            · cases h
        · cases h
        · cases h
        · cases h

theorem libtask_task_pool_switch_cases {s s' : State} {pool : Nat} {oldp : Bool}
    (h : (libtask_task_pool_switch s pool oldp).after = some s') :
    s' = s ∨ ∃ task s1 s2 s3, s.libtask_current_task = some task ∧
      (s.tasks task).task_pool ≠ some pool ∧
      (s1 = s ∨ ∃ q, s1 = s.setPool q { s.pools q with refcount := (s.pools q).refcount + 1 }) ∧
      ((∃ q, (s1.tasks task).task_pool = some q ∧
          libtask_task_pool_erase s1 q task = .ret 0 s2) ∨
        ((s1.tasks task).task_pool = none ∧ s2 = s1)) ∧
      libtask_task_pool_insert s2 pool task = .ret 0 s3 ∧
      (libtask_task_yield s3).after = some s' := by
  unfold libtask_task_pool_switch at h
  cases hcur : s.libtask_current_task with
  | none =>
    simp only [hcur] at h
    injection h with h
    exact Or.inl h.symm
  | some task =>
    simp only [hcur] at h
    split at h
    · injection h with h
      exact Or.inl h.symm
    · rename_i hne
      right
      have tail : ∀ s2, (match libtask_task_pool_insert s2 pool task with
            | .ret error s3 =>
              if (error != 0) = true then Res.abort
              else
                match libtask_task_yield s3 with
                | .ret e s4 =>
                  Res.ret (e, if oldp = true then (s.tasks task).task_pool else none) s4
                | .susp e s4 =>
                  Res.susp (e, if oldp = true then (s.tasks task).task_pool else none) s4
                | .abort => Res.abort
                | .timeout => Res.timeout
            | .susp _ _ => Res.abort
            | .abort => Res.abort
            | .timeout => Res.timeout).after = some s' →
          ∃ s3, libtask_task_pool_insert s2 pool task = .ret 0 s3 ∧
            (libtask_task_yield s3).after = some s' := by
        intro s2 h2
        split at h2
        · rename_i e3 s3 heq3
          split at h2
          · cases h2
          · rename_i he3
            have he3' : e3 = 0 := by simpa using he3
            subst he3'
            refine ⟨s3, heq3, ?_⟩
            split at h2
            · rename_i heq4; rw [heq4]; exact h2
            · rename_i heq4; rw [heq4]; exact h2
            · cases h2
            · cases h2
        · cases h2
        · cases h2
        · cases h2
      have rest : ∀ s1 q, (s1.tasks task).task_pool = some q →
          (s1 = s ∨
            ∃ q, s1 = s.setPool q { s.pools q with refcount := (s.pools q).refcount + 1 }) →
          (match libtask_task_pool_erase s1 q task with
            | .ret error s2 =>
              if (error != 0) = true then Res.abort
              else
                match libtask_task_pool_insert s2 pool task with
                | .ret error s3 =>
                  if (error != 0) = true then Res.abort
                  else
                    match libtask_task_yield s3 with
                    | .ret e s4 =>
                      Res.ret (e, if oldp = true then (s.tasks task).task_pool else none) s4
                    | .susp e s4 =>
                      Res.susp (e, if oldp = true then (s.tasks task).task_pool else none) s4
                    | .abort => Res.abort
                    | .timeout => Res.timeout
                | .susp _ _ => Res.abort
                | .abort => Res.abort
                | .timeout => Res.timeout
            | .susp _ _ => Res.abort
            | .abort => Res.abort
            | .timeout => Res.timeout).after = some s' →
          ∃ task_1 s1 s2 s3, some task = some task_1 ∧
            (s.tasks task_1).task_pool ≠ some pool ∧
            (s1 = s ∨
              ∃ q, s1 = s.setPool q { s.pools q with refcount := (s.pools q).refcount + 1 }) ∧
            ((∃ q, (s1.tasks task_1).task_pool = some q ∧
                libtask_task_pool_erase s1 q task_1 = .ret 0 s2) ∨
              ((s1.tasks task_1).task_pool = none ∧ s2 = s1)) ∧
            libtask_task_pool_insert s2 pool task_1 = .ret 0 s3 ∧
            (libtask_task_yield s3).after = some s' := by
        intro s1 q hp hs1 h
        split at h
        · rename_i e2 s2 heq2
          split at h
          · cases h
          · rename_i he2
            have he2' : e2 = 0 := by simpa using he2
            subst he2'
            obtain ⟨s3, h3, h4⟩ := tail s2 h
            exact ⟨task, s1, s2, s3, rfl, hne, hs1, Or.inl ⟨q, hp, heq2⟩, h3, h4⟩
        · cases h
        · cases h
        · cases h
      cases hp : (s.tasks task).task_pool with
      | none =>
        simp only [hp, ite_self] at h
        rw [if_neg (by decide)] at h
        obtain ⟨s3, h3, h4⟩ := tail s (by simpa only [hp, ite_self] using h)
        exact ⟨task, s, s, s3, rfl, hne, Or.inl rfl, Or.inr ⟨hp, rfl⟩, h3, h4⟩
      | some q =>
        cases ho : oldp with
        | false =>
          simp only [ho, hp, Bool.false_eq_true, if_false] at h
          exact rest s q hp (Or.inl rfl) (by simpa only [ho, hp, Bool.false_eq_true, if_false] using h)
        | true =>
          simp only [ho, hp, if_true, setPool_tasks] at h
          exact rest _ q (by simpa using hp) (Or.inr ⟨q, rfl⟩)
            (by simpa only [ho, hp, if_true] using h)

theorem libtask_task_pool_switch_framed {s s' : State} {pool : Nat} {oldp : Bool}
    (h : (libtask_task_pool_switch s pool oldp).after = some s') : Framed s s' := by
  rcases libtask_task_pool_switch_cases h with h | ⟨task, s1, s2, s3, -, -, h1, h2, h3, h4⟩
  · rw [h]; exact Framed.refl s
  · have f1 : Framed s s1 := by
      rcases h1 with h1 | ⟨q, h1⟩
      · rw [h1]; exact Framed.refl s
      · rw [h1]; exact framed_setPool _ _ _
    have f2 : Framed s1 s2 := by
      rcases h2 with ⟨q, -, h2⟩ | ⟨-, h2⟩
      · exact libtask_task_pool_erase_framed (Res.after_of_ret h2)
      · rw [h2]; exact Framed.refl s1
    exact ((f1.trans f2).trans (libtask_task_pool_insert_framed (Res.after_of_ret h3))).trans
      (libtask_task_yield_framed h4)

theorem libtask_condition_wait_framed {s s' : State} {cond : CondRef}
    (h : (libtask_condition_wait s cond).after = some s') : Framed s s' := by
  unfold libtask_condition_wait at h
  split at h
  · dsimp only at h
    split at h
    · rename_i heq
      injection h with h; subst h
      rw [libtask__task_suspend_framed (Res.after_of_ret heq)]
      exact framed_setCond _ _ _
    · rename_i heq
      injection h with h; subst h
      rw [libtask__task_suspend_framed (Res.after_of_susp heq)]
      exact framed_setCond _ _ _
    · cases h
    · cases h
  · injection h with h; subst h
    exact framed_setCond _ _ _

theorem libtask_task_finalize_framed {s s' : State} {task : Nat}
    (h : (libtask_task_finalize s task).after = some s') : Framed s s' := by
  unfold libtask_task_finalize at h
  dsimp only at h
  split at h
  · cases h
  · split at h
    · cases h
    · split at h
      · cases h
      · split at h
        · injection h with h; subst h; exact Framed.refl s
        · injection h with h; subst h
          refine Framed.setTask _ _ ?_ ?_ (Framed.of_tasks rfl rfl rfl rfl rfl) <;> rfl

theorem signalFuel_cases {fuel : Nat} {held : List Nat} {s s' : State} {cond : CondRef}
    (h : (signalFuel (fuel + 1) held s cond).after = some s') :
    ((s.cond cond).list = [] ∧ s' = s.setCond cond (pthread_cond_signal (s.cond cond))) ∨
    ∃ task rest p held1, (s.cond cond).list = task :: rest ∧
      (s.tasks task).task_pool = some p ∧
      ¬ (s.spinlock cond ≠ some p ∧ p ∈ held) ∧
      held1 = (if s.spinlock cond ≠ some p then p :: held else held) ∧
      signalFuel fuel held1
        ((s.setCond cond { s.cond cond with list := rest }).setPool p
          { (s.setCond cond { s.cond cond with list := rest }).pools p with
            waiting_list := libtask_list_push_back
              ((s.setCond cond { s.cond cond with list := rest }).pools p).waiting_list task })
        (.waiting_condition p) = .ret () s' := by
  cases hl : (s.cond cond).list with
  | nil =>
    rw [signalFuel_no_task fuel held hl] at h
    injection h with h
    exact Or.inl ⟨rfl, h.symm⟩
  | cons task rest =>
    right
    rw [signalFuel, hl] at h
    simp only [libtask_condition_wakeup_first, setCond_tasks] at h
    cases hp : (s.tasks task).task_pool with
    | none => simp only [hp] at h; cases h
    | some p =>
      simp only [hp] at h
      by_cases hs : s.spinlock cond ≠ some p ∧ p ∈ held
      · rw [if_pos hs] at h
        cases h
      · rw [if_neg hs] at h
        refine ⟨task, rest, p, _, rfl, hp, hs, rfl, ?_⟩
        dsimp only at h ⊢
        split at h
        · rename_i woken x s1 heq
          split at heq
          · rename_i heq2
            injection heq with h1 h2
            subst h2
            cases h1
            rw [heq2]
            rw [if_neg (by decide)] at h
            injection h with h; subst h; rfl
          · cases heq
          · cases heq
          · cases heq
        · cases h
        · cases h
        · cases h

theorem signalFuel_framed : ∀ (fuel : Nat) {held : List Nat} {s s' : State} {cond : CondRef},
    (signalFuel fuel held s cond).after = some s' → Framed s s' ∧ s'.tasks = s.tasks := by
  intro fuel
  induction fuel with
  | zero => intro held s s' cond h; cases h
  | succ fuel ih =>
    intro held s s' cond h
    rcases signalFuel_cases h with ⟨-, h1⟩ | ⟨task, rest, p, held1, -, -, -, -, h1⟩
    · rw [h1]; exact ⟨framed_setCond _ _ _, by simp⟩
    · obtain ⟨f, t⟩ := ih (Res.after_of_ret h1)
      exact ⟨(((Framed.refl s).setCond _ _).setPool _ _).trans f, by rw [t]; simp⟩

theorem libtask_condition_signal_framed {s s' : State} {cond : CondRef}
    (h : (libtask_condition_signal s cond).after = some s') :
    Framed s s' ∧ s'.tasks = s.tasks :=
  signalFuel_framed _ h

theorem broadcast_drain_cases {cond : CondRef} {task : Nat} {rest : List Nat} {s s' : State}
    (h : (broadcast_drain cond (task :: rest) s).after = some s') :
    ∃ p held1 s3, (s.tasks task).task_pool = some p ∧
      held1 = (if s.spinlock cond ≠ some p then p :: s.held cond else s.held cond) ∧
      libtask_condition_signal_holding held1
        (s.setPool p
          { s.pools p with
            waiting_list := libtask_list_push_back (s.pools p).waiting_list task })
        (.waiting_condition p) = .ret () s3 ∧
      (broadcast_drain cond rest s3).after = some s' := by
  rw [broadcast_drain] at h
  simp only [libtask_condition_wakeup_first] at h
  cases hp : (s.tasks task).task_pool with
  | none => simp only [hp] at h; cases h
  | some p =>
    simp only [hp] at h
    rw [if_neg (held_no_spin s cond p)] at h
    split at h
    · rename_i x s1 heq
      split at heq
      · rename_i heq2
        injection heq with h1 h2
        subst h2
        exact ⟨p, _, _, rfl, rfl, heq2, h⟩
      · cases heq
      · cases heq
      · cases heq
    · cases h
    · cases h
    · cases h

theorem broadcast_drain_framed (cond : CondRef) : ∀ (ws : List Nat) {s s' : State},
    (broadcast_drain cond ws s).after = some s' → Framed s s' ∧ s'.tasks = s.tasks := by
  intro ws
  induction ws with
  | nil =>
    intro s s' h
    injection h with h; subst h
    exact ⟨Framed.refl _, rfl⟩
  | cons w rest ih =>
    intro s s' h
    obtain ⟨p, held1, s3, -, -, h1, h2⟩ := broadcast_drain_cases h
    obtain ⟨f1, t1⟩ := signalFuel_framed _ (Res.after_of_ret h1)
    obtain ⟨f2, t2⟩ := ih h2
    exact ⟨(((Framed.refl s).setPool _ _).trans f1).trans f2, by rw [t2, t1]; simp⟩

theorem libtask_condition_broadcast_cases {s s' : State} {cond : CondRef}
    (h : (libtask_condition_broadcast s cond).after = some s') :
    ∃ s2, (broadcast_drain cond (s.cond cond).list
        (s.setCond cond { s.cond cond with list := [] })).after = some s2 ∧
      s' = s2.setCond cond (pthread_cond_broadcast (s2.cond cond)) := by
  unfold libtask_condition_broadcast at h
  dsimp only at h
  split at h
  · rename_i heq
    injection h with h
    exact ⟨_, Res.after_of_ret heq, h.symm⟩
  · cases h
  · cases h
  · cases h

theorem libtask_condition_broadcast_framed {s s' : State} {cond : CondRef}
    (h : (libtask_condition_broadcast s cond).after = some s') :
    Framed s s' ∧ s'.tasks = s.tasks := by
  obtain ⟨s2, h1, h2⟩ := libtask_condition_broadcast_cases h
  obtain ⟨f, t⟩ := broadcast_drain_framed cond _ h1
  rw [h2]
  exact ⟨(((Framed.refl s).setCond _ _).trans f).setCond _ _, by simp [t]⟩

theorem Call.call_framed {s s' : State} {c : Call} (h : (c.run s).after = some s') :
    Framed s s' := by
  cases c with
  | task_suspend =>
    rw [Call.run, Res.after_void] at h
    rw [libtask_task_suspend_framed h]; exact Framed.refl s
  | task_yield =>
    rw [Call.run, Res.after_void] at h
    exact libtask_task_yield_framed h
  | task_pool_switch pool =>
    rw [Call.run, Res.after_void] at h
    exact libtask_task_pool_switch_framed h
  | semaphore_down sem =>
    rw [Call.run, Res.after_void] at h
    exact libtask_semaphore_down_framed h
  | semaphore_up sem =>
    rw [Call.run, Res.after_void] at h
    exact libtask_semaphore_up_framed h
  | condition_wait cond => exact libtask_condition_wait_framed h
  | condition_signal cond => exact (libtask_condition_signal_framed h).1
  | condition_broadcast cond => exact (libtask_condition_broadcast_framed h).1
  | task_finalize task =>
    rw [Call.run, Res.after_void] at h
    exact libtask_task_finalize_framed h

theorem Framed.except {s s' : State} (task : Nat) (h : Framed s s') :
    FramedExcept task s s' :=
  ⟨h.1, h.2.1, h.2.2.1, h.2.2.2.1, fun t _ => h.2.2.2.2 t⟩

theorem FramedExcept.chain {task : Nat} {s s1 s2 : State} (h1 : FramedExcept task s s1)
    (h2 : FramedExcept task s1 s2) : FramedExcept task s s2 := by
  obtain ⟨a1, a2, a3, a4, a5⟩ := h1
  obtain ⟨b1, b2, b3, b4, b5⟩ := h2
  exact ⟨b1.trans a1, b2.trans a2, b3.trans a3, b4.trans a4,
    fun t ht => ⟨(b5 t ht).1.trans (a5 t ht).1, (b5 t ht).2.trans (a5 t ht).2⟩⟩

theorem framedExcept_setTask (s : State) (task : Nat) (x : libtask_task_t) :
    FramedExcept task s (s.setTask task x) :=
  ⟨rfl, rfl, rfl, rfl, fun t ht => by simp [Function.update_noteq ht]⟩

theorem framedExcept_current (s : State) (task : Nat) (c : Option Nat) :
    FramedExcept task s { s with libtask_current_task := c } :=
  ⟨rfl, rfl, rfl, rfl, fun _ _ => ⟨rfl, rfl⟩⟩

theorem run_function_framed (task : Nat) : ∀ (calls : List Call) {s s' : State},
    (∀ a, run_function task calls s = .ret a s' → Framed s s') ∧
    (∀ a, run_function task calls s = .susp a s' →
      FramedExcept task s s' ∧ ∃ rest, (s'.tasks task).uct_self = .inside rest) := by
  intro calls
  induction calls with
  | nil =>
    intro s s'
    constructor
    · intro a h
      rw [run_function] at h
      injection h with _ h; subst h; exact Framed.refl s
    · intro a h
      rw [run_function] at h
      cases h
  | cons c rest ih =>
    intro s s'
    constructor
    · intro a h
      rw [run_function] at h
      split at h
      · rename_i heq
        exact (Call.call_framed (Res.after_of_ret heq)).trans ((ih).1 a h)
      · cases h
      · cases h
      · cases h
    · intro a h
      rw [run_function] at h
      split at h
      · rename_i heq
        obtain ⟨f, r⟩ := (ih).2 a h
        exact ⟨((Call.call_framed (Res.after_of_ret heq)).except task).chain f, r⟩
      · rename_i heq
        injection h with _ h; subst h
        exact ⟨((Call.call_framed (Res.after_of_susp heq)).except task).chain
          (framedExcept_setTask _ _ _), ⟨rest, by simp⟩⟩
      · cases h
      · cases h

theorem task_main_return_framed {s s' : State} {task : Nat} {a : Unit}
    (h : task_main_return s task = .susp a s') :
    FramedExcept task s s' ∧ (s'.tasks task).uct_self = .final := by
  unfold task_main_return at h
  dsimp only at h
  split at h
  · cases h
  · split at h
    · rename_i e s2 heq
      have f2 : FramedExcept task s s2 := by
        split at heq
        · exact (framedExcept_setTask s task _).chain
            ((libtask_task_pool_erase_framed (Res.after_of_ret heq)).except task)
        · injection heq with _ heq; subst heq
          exact framedExcept_setTask s task _
      split at h
      · cases h
      · split at h
        · cases h
        · split at h
          · rename_i heq3
            injection h with _ h; subst h
            rw [libtask_task_suspend_framed (Res.after_of_susp heq3)]
            exact ⟨f2.chain (framedExcept_setTask _ _ _), by simp⟩
          · cases h
          · cases h
          · cases h
    · cases h
    · cases h
    · cases h

theorem libtask_task_main_framed {s s' : State} {task : Nat} {ctx : Context} {a : Unit}
    (h : libtask_task_main s task ctx = .susp a s') :
    FramedExcept task s s' ∧ (s'.tasks task).uct_self ≠ .main := by
  cases ctx with
  | main =>
    rw [libtask_task_main] at h
    split at h
    · cases h
    · dsimp only at h
      split at h
      · rename_i heq
        obtain ⟨f, u⟩ := task_main_return_framed h
        exact ⟨((framedExcept_setTask s task _).chain
          (((run_function_framed task _).1 _ heq).except task)).chain f, by rw [u]; decide⟩
      · obtain ⟨f, rest, u⟩ := (run_function_framed task _).2 _ h
        exact ⟨(framedExcept_setTask s task _).chain f, by rw [u]; simp⟩
  | inside rest =>
    rw [libtask_task_main] at h
    split at h
    · rename_i heq
      obtain ⟨f, u⟩ := task_main_return_framed h
      exact ⟨(((run_function_framed task _).1 _ heq).except task).chain f, by rw [u]; decide⟩
    · obtain ⟨f, rest, u⟩ := (run_function_framed task _).2 _ h
      exact ⟨f, by rw [u]; simp⟩
  | final =>
    rw [libtask_task_main] at h
    cases h

/-! ## C16: completion is one-shot -/

theorem libtask_task_execute_complete {s : State} {task : Nat}
    (h : (s.tasks task).complete = true) : libtask_task_execute s task = .ret EINVAL s := by
  unfold libtask_task_execute
  rw [if_pos h]

theorem libtask_task_execute_framed {s s' : State} {task : Nat}
    (h : (libtask_task_execute s task).after = some s') :
    FramedExcept task s s' ∧ ((s.tasks task).complete = true → s' = s) ∧
      ((s.tasks task).complete = false → (s'.tasks task).uct_self ≠ .main) := by
  by_cases hc : (s.tasks task).complete = true
  · rw [libtask_task_execute_complete hc] at h
    injection h with h; subst h
    exact ⟨(Framed.refl _).except task, fun _ => rfl, fun h => by rw [hc] at h; cases h⟩
  · unfold libtask_task_execute at h
    rw [if_neg hc] at h
    dsimp only at h
    split at h
    · rename_i heq
      obtain ⟨f, u⟩ := libtask_task_main_framed heq
      injection h with h; subst h
      refine ⟨?_, fun h => absurd h hc, fun _ => by simpa using u⟩
      exact ((((framedExcept_setTask s task _).chain (framedExcept_current _ task _)).chain
        f).chain (framedExcept_current _ task _)).chain (framedExcept_setTask _ task _)
    · cases h
    · cases h
    · cases h

theorem Op.run_framed {s s' : State} {caller : Option Nat} {op : Op}
    (h : op.run s caller = some s') : Framed s s' := by
  refine (framed_called_by s caller).trans ?_
  cases op with
  | pool_insert pool task => exact libtask_task_pool_insert_framed h
  | pool_erase pool task => exact libtask_task_pool_erase_framed h
  | pool_push_back pool task => exact libtask_task_pool_push_back_framed h
  | pool_pop_front pool => exact libtask_task_pool_pop_front_framed h
  | pool_switch pool oldp => exact libtask_task_pool_switch_framed h
  | task_yield => exact libtask_task_yield_framed h
  | task_schedule task => exact libtask_task_schedule_framed h
  | condition_wait cond => exact libtask_condition_wait_framed h
  | condition_signal cond => exact (libtask_condition_signal_framed h).1
  | condition_broadcast cond => exact (libtask_condition_broadcast_framed h).1
  | semaphore_up sem => exact libtask_semaphore_up_framed h
  | semaphore_down sem => exact libtask_semaphore_down_framed h

theorem LifeOp.run_kept {s s' : State} {op : LifeOp} (h : op.run s = some s') (task : Nat)
    (ht : task < s.ntask) :
    task < s'.ntask ∧ ((s.tasks task).complete = true → (s'.tasks task).complete = true) ∧
      ((s.tasks task).uct_self ≠ .main → (s'.tasks task).uct_self ≠ .main) ∧
      (enters_function s task op = true → (s'.tasks task).uct_self ≠ .main) := by
  have of_framed : Framed s s' → enters_function s task op = false →
      task < s'.ntask ∧ ((s.tasks task).complete = true → (s'.tasks task).complete = true) ∧
      ((s.tasks task).uct_self ≠ .main → (s'.tasks task).uct_self ≠ .main) ∧
      (enters_function s task op = true → (s'.tasks task).uct_self ≠ .main) := by
    intro f he
    refine ⟨by rw [f.1]; exact ht, fun hc => by rw [(f.2.2.2.2 task).1]; exact hc,
      fun hu => by rw [(f.2.2.2.2 task).2]; exact hu, fun h => by rw [he] at h; cases h⟩
  cases op with
  | queue caller op => exact of_framed (Op.run_framed h) rfl
  | task_create function argument stack_size =>
    have hne : task ≠ s.ntask := Nat.ne_of_lt ht
    rw [LifeOp.run, libtask_task_create_eq] at h
    injection h with h; subst h
    refine ⟨Nat.lt_succ_of_lt ht, ?_, ?_, fun h => by cases h⟩
    · intro hc; simpa [Function.update_noteq hne] using hc
    · intro hu; simpa [Function.update_noteq hne] using hu
  | task_execute t =>
    obtain ⟨f, hcomp, hrun⟩ := libtask_task_execute_framed h
    have f' : FramedExcept t s s' := (framedExcept_current s t none).chain f
    by_cases htt : task = t
    · subst htt
      refine ⟨by rw [f'.1]; exact ht, ?_, ?_, ?_⟩
      · intro hc
        rw [hcomp hc]; exact hc
      · intro hu
        cases hc : (s.tasks task).complete with
        | true => rw [hcomp hc]; exact hu
        | false => exact hrun hc
      · intro he
        cases hc : (s.tasks task).complete with
        | true => simp [enters_function, hc] at he
        | false => exact hrun hc
    · refine ⟨by rw [f'.1]; exact ht, ?_, ?_, ?_⟩
      · intro hc; rw [(f'.2.2.2.2 task htt).1]; exact hc
      · intro hu; rw [(f'.2.2.2.2 task htt).2]; exact hu
      · intro he
        have : t ≠ task := fun e => htt e.symm
        simp [enters_function, this] at he
  | task_suspend caller =>
    have := libtask_task_suspend_framed h
    exact of_framed (by rw [this]; exact framed_called_by s caller) rfl
  | task_finalize caller t =>
    exact of_framed ((framed_called_by s caller).trans (libtask_task_finalize_framed h)) rfl
  | task_pool_create =>
    rw [LifeOp.run, libtask_task_pool_create_eq] at h
    injection h with h; subst h
    exact ⟨ht, fun hc => hc, fun hu => hu, fun h => by cases h⟩

theorem run_life_ops_kept (task : Nat) : ∀ (ops : List LifeOp) {s s' : State},
    run_life_ops ops s = some s' → task < s.ntask →
    task < s'.ntask ∧ ((s.tasks task).complete = true → (s'.tasks task).complete = true) ∧
      ((s.tasks task).uct_self ≠ .main → (s'.tasks task).uct_self ≠ .main) := by
  intro ops
  induction ops with
  | nil =>
    intro s s' h ht
    injection h with h; subst h
    exact ⟨ht, id, id⟩
  | cons op rest ih =>
    intro s s' h ht
    rw [run_life_ops] at h
    split at h
    · rename_i s1 heq
      obtain ⟨a1, a2, a3, -⟩ := LifeOp.run_kept heq task ht
      obtain ⟨b1, b2, b3⟩ := ih h a1
      exact ⟨b1, fun hc => b2 (a2 hc), fun hu => b3 (a3 hu)⟩
    · cases h

theorem entries_eq_zero (task : Nat) : ∀ (ops : List LifeOp) (s : State),
    task < s.ntask → (s.tasks task).uct_self ≠ .main → entries task ops s = 0 := by
  intro ops
  induction ops with
  | nil => intro s _ _; rfl
  | cons op rest ih =>
    intro s ht hu
    have he : enters_function s task op = false := by
      cases op <;> simp [enters_function, hu]
    rw [entries, he]
    cases hr : op.run s with
    | none => rfl
    | some s1 =>
      obtain ⟨a1, -, a3, -⟩ := LifeOp.run_kept hr task ht
      simpa using ih s1 a1 (a3 hu)

theorem entries_le_one (task : Nat) : ∀ (ops : List LifeOp) (s : State),
    task < s.ntask → entries task ops s ≤ 1 := by
  intro ops
  induction ops with
  | nil => intro s _; exact Nat.zero_le _
  | cons op rest ih =>
    intro s ht
    rw [entries]
    cases hr : op.run s with
    | none => split <;> simp
    | some s1 =>
      obtain ⟨a1, -, -, a4⟩ := LifeOp.run_kept hr task ht
      cases he : enters_function s task op with
      | true =>
        have := entries_eq_zero task rest s1 a1 (a4 he)
        simp [this]
      | false =>
        simpa using ih s1 a1

/-- C16. For a created task that is complete, `libtask_task_execute` returns
`EINVAL` and leaves the heap as it is (no reference taken, no current task
set, no entry function run, no list changed); `libtask_task_schedule` on it
and `libtask_task_yield` called by it return `EINVAL` and leave the heap as it
is; and after every sequence of public operations that does not abort (the
operations on the lists of waiting tasks made by any caller, creation of
tasks and pools, execute, suspend and finalize) the task is still complete
and execute still returns `EINVAL`.  For every created task, no sequence of
public operations enters its entry function at the start more than once.
`libtask_task_initialize` runs as part of `libtask_task_create`, on a new task. -/
theorem completion_is_one_shot (s : State) (task : Nat) (ht : task < s.ntask) :
    ((s.tasks task).complete = true →
      libtask_task_execute s task = .ret EINVAL s ∧
      libtask_task_schedule s task = .ret EINVAL s ∧
      libtask_task_yield (s.called_by (some task)) = .ret EINVAL (s.called_by (some task)) ∧
      ∀ ops s', run_life_ops ops s = some s' →
        (s'.tasks task).complete = true ∧ libtask_task_execute s' task = .ret EINVAL s') ∧
    (∀ ops, entries task ops s ≤ 1) := by
  refine ⟨fun hc => ⟨libtask_task_execute_complete hc, ?_, ?_, ?_⟩,
    fun ops => entries_le_one task ops s ht⟩
  · unfold libtask_task_schedule
    rw [if_pos hc]
  · have hc' : ((s.called_by (some task)).tasks task).complete = true := hc
    unfold libtask_task_yield
    simp only [State.called_by]
    rw [if_pos hc]
  · intro ops s' h
    have := (run_life_ops_kept task ops h ht).2.1 hc
    exact ⟨this, libtask_task_execute_complete this⟩

/-- C16 at `completed_scene`, whose task 0 has run its entry function to the end. -/
theorem completion_is_one_shot_witness :
    (completed_scene.tasks 0).complete = true ∧
    libtask_task_execute completed_scene 0 = .ret EINVAL completed_scene ∧
    libtask_task_schedule completed_scene 0 = .ret EINVAL completed_scene ∧
    entries 0 [.task_create successor 41 4096, .task_execute 1, .task_execute 0,
      .task_execute 1] completed_scene ≤ 1 := by
  have h := completion_is_one_shot completed_scene 0 (Nat.lt_succ_self 0)
  exact ⟨rfl, (h.1 rfl).1, (h.1 rfl).2.1, h.2 _⟩

/-! ## C11: wait-link exclusivity -/

theorem Exclusive.of_sublist {s s' : State} (h : Exclusive s)
    (hq : ∀ q, (s'.queue q).Sublist (s.queue q)) : Exclusive s' :=
  ⟨fun q => (h.1 q).sublist (hq q),
    fun t q q' h1 h2 => h.2 t q q' ((hq q).subset h1) ((hq q').subset h2)⟩

theorem Exclusive.of_eq {s s' : State} (h : Exclusive s) (hq : ∀ q, s'.queue q = s.queue q) :
    Exclusive s' :=
  h.of_sublist (fun q => by rw [hq q])

theorem Exclusive.requeue {s s' : State} (h : Exclusive s) (t : Nat) (q0 : QueueRef)
    (h0 : s'.queue q0 = unlink t (s.queue q0) ++ [t])
    (h1 : ∀ q, q ≠ q0 → s'.queue q = unlink t (s.queue q)) : Exclusive s' := by
  have hmem : ∀ x q, x ∈ s'.queue q → (x = t ∧ q = q0) ∨ (x ≠ t ∧ x ∈ s.queue q) := by
    intro x q hx
    by_cases hq : q = q0
    · subst hq
      rw [h0, List.mem_append] at hx
      rcases hx with hx | hx
      · exact Or.inr ⟨(mem_unlink.mp hx).2, (mem_unlink.mp hx).1⟩
      · exact Or.inl ⟨by simpa using hx, rfl⟩
    · rw [h1 q hq] at hx
      exact Or.inr ⟨(mem_unlink.mp hx).2, (mem_unlink.mp hx).1⟩
  constructor
  · intro q
    by_cases hq : q = q0
    · subst hq
      rw [h0]
      refine List.Nodup.append (nodup_unlink (h.1 q)) (List.nodup_singleton t) ?_
      intro x hx1 hx2
      have : x = t := by simpa using hx2
      subst this
      exact not_mem_unlink x _ hx1
    · rw [h1 q hq]
      exact nodup_unlink (h.1 q)
  · intro x q q' hx hx'
    rcases hmem x q hx with ⟨e1, e2⟩ | ⟨n1, m1⟩
    · rcases hmem x q' hx' with ⟨_, e4⟩ | ⟨n2, _⟩
      · rw [e2, e4]
      · exact absurd e1 n2
    · rcases hmem x q' hx' with ⟨e3, _⟩ | ⟨_, m2⟩
      · exact absurd e3 n1
      · exact h.2 x q q' m1 m2

theorem Exclusive.push {s s' : State} (h : Exclusive s) (t : Nat) (q0 : QueueRef)
    (hu : s.unlinked t) (h0 : s'.queue q0 = s.queue q0 ++ [t])
    (h1 : ∀ q, q ≠ q0 → s'.queue q = s.queue q) : Exclusive s' :=
  h.requeue t q0 (by rw [h0, unlink_eq_self (hu q0)])
    (fun q hq => by rw [h1 q hq, unlink_eq_self (hu q)])

theorem unlink_head {t : Nat} {rest : List Nat} (h : (t :: rest).Nodup) :
    unlink t (t :: rest) = rest := by
  have : t ∉ rest := (List.nodup_cons.mp h).1
  simp [unlink, List.filter_cons]
  intro a ha
  exact fun e => this (e ▸ ha)

theorem Exclusive.transfer {s s' : State} (h : Exclusive s) {t : Nat} {rest : List Nat}
    {q0 q1 : QueueRef} (hq1 : s.queue q1 = t :: rest) (hne : q0 ≠ q1)
    (h1 : s'.queue q1 = rest) (h0 : s'.queue q0 = s.queue q0 ++ [t])
    (hothers : ∀ q, q ≠ q0 → q ≠ q1 → s'.queue q = s.queue q) :
    Exclusive s' ∧ ∀ x, s.unlinked x → s'.unlinked x := by
  have hin : t ∈ s.queue q1 := by rw [hq1]; exact List.mem_cons_self _ _
  have hout : ∀ q, q ≠ q1 → t ∉ s.queue q := fun q hq hm => hq (h.2 t q q1 hm hin)
  constructor
  · refine h.requeue t q0 (by rw [h0, unlink_eq_self (hout q0 hne)]) ?_
    intro q hq
    by_cases hq' : q = q1
    · subst hq'
      rw [h1, hq1, unlink_head (hq1 ▸ h.1 q)]
    · rw [hothers q hq hq', unlink_eq_self (hout q hq')]
  · intro x hx q hm
    by_cases hq : q = q0
    · subst hq
      rw [h0, List.mem_append] at hm
      rcases hm with hm | hm
      · exact hx q hm
      · have : x = t := by simpa using hm
        subst this
        exact hx q1 hin
    · by_cases hq' : q = q1
      · subst hq'
        rw [h1] at hm
        exact hx q (by rw [hq1]; exact List.mem_cons_of_mem _ hm)
      · rw [hothers q hq hq'] at hm
        exact hx q hm

theorem setPool_queue_other (s : State) (p : Nat) (x : libtask_task_pool_t) {q : QueueRef}
    (hx : x.waiting_condition = (s.pools p).waiting_condition) (hq : q ≠ .pool p) :
    (s.setPool p x).queue q = s.queue q := by
  rw [setPool_queue, if_neg hq]
  split
  · rename_i h; subst h; rw [hx]; rfl
  · rfl

theorem called_by_queue (s : State) (caller : Option Nat) (q : QueueRef) :
    (s.called_by caller).queue q = s.queue q := by
  cases q with
  | pool p => rfl
  | cond c => cases c <;> rfl
  | sem m => rfl

theorem unlinked_called_by {s : State} {caller : Option Nat} {t : Nat} (h : s.unlinked t) :
    (s.called_by caller).unlinked t :=
  fun q => by rw [called_by_queue]; exact h q

theorem Exclusive.called_by {s : State} (h : Exclusive s) (caller : Option Nat) :
    Exclusive (s.called_by caller) :=
  h.of_eq (called_by_queue s caller)

theorem libtask_task_pool_insert_exclusive {s s' : State} {pool task : Nat}
    (h : (libtask_task_pool_insert s pool task).after = some s') (hx : Exclusive s)
    (hu : s.unlinked task) : Exclusive s' := by
  by_cases hp : (s.tasks task).task_pool = none
  · rw [libtask_task_pool_insert_eq hp] at h
    injection h with h; subst h
    refine hx.push task (.pool pool) hu ?_ ?_
    · rw [setPool_queue, if_pos rfl]; rfl
    · intro q hq
      rw [setPool_queue_other _ _ _ ?_ hq, setTask_queue]
      rfl
  · unfold libtask_task_pool_insert at h
    rw [if_pos hp] at h
    cases h

theorem libtask_task_pool_erase_ret {s s' : State} {pool task : Nat}
    (h : (libtask_task_pool_erase s pool task).after = some s') :
    ∃ e, libtask_task_pool_erase s pool task = .ret e s' := by
  by_cases hm : (s.tasks task).task_pool = some pool
  · rcases libtask_task_pool_erase_member_cases hm with h' | ⟨s1, h'⟩
    · rw [h'] at h; cases h
    · rw [h'] at h ⊢
      injection h with h; subst h
      exact ⟨0, rfl⟩
  · rw [libtask_task_pool_erase_foreign hm] at h ⊢
    injection h with h; subst h
    exact ⟨EINVAL, rfl⟩

theorem libtask_task_pool_erase_exclusive {s s' : State} {pool task : Nat}
    (h : (libtask_task_pool_erase s pool task).after = some s') (hx : Exclusive s) :
    Exclusive s' := by
  obtain ⟨e, he⟩ := libtask_task_pool_erase_ret h
  refine hx.of_sublist (fun q => ?_)
  rcases (libtask_task_pool_erase_queue he q).2 with h1 | h1
  · rw [h1]
  · rw [h1]; exact List.filter_sublist _

theorem requeue_exclusive {s : State} (hx : Exclusive s) (pool task : Nat) :
    Exclusive ((libtask_list_erase s task).setPool pool
      { (libtask_list_erase s task).pools pool with
        waiting_list := unlink task (s.pools pool).waiting_list ++ [task] }) := by
  refine hx.requeue task (.pool pool) ?_ ?_
  · rw [setPool_queue, if_pos rfl]; rfl
  · intro q hq
    rw [setPool_queue_other _ _ _ ?_ hq, libtask_list_erase_queue]
    rfl

theorem libtask_task_pool_push_back_exclusive {s s' : State} {pool task : Nat}
    (h : (libtask_task_pool_push_back s pool task).after = some s') (hx : Exclusive s) :
    Exclusive s' := by
  by_cases hm : (s.tasks task).task_pool = some pool
  · rw [libtask_task_pool_push_back_member hm] at h
    injection h with h; subst h
    exact requeue_exclusive hx pool task
  · rw [libtask_task_pool_push_back_foreign hm] at h
    injection h with h; subst h
    exact hx

theorem libtask_task_pool_pop_front_exclusive {s s' : State} {pool : Nat}
    (h : (libtask_task_pool_pop_front s pool).after = some s') (hx : Exclusive s) :
    Exclusive s' := by
  cases hl : (s.pools pool).waiting_list with
  | nil =>
    rw [libtask_task_pool_pop_front_nil hl] at h
    injection h with h; subst h
    exact hx
  | cons task rest =>
    rw [libtask_task_pool_pop_front_cons hl] at h
    injection h with h; subst h
    refine hx.of_sublist (fun q => ?_)
    by_cases hq : q = .pool pool
    · subst hq
      rw [setPool_queue, if_pos rfl, queue_pool, hl]
      exact List.sublist_cons_self _ _
    · rw [setPool_queue_other _ _ _ ?_ hq]
      rfl

theorem libtask_task_schedule_exclusive {s s' : State} {task : Nat}
    (h : (libtask_task_schedule s task).after = some s') (hx : Exclusive s) :
    Exclusive s' := by
  unfold libtask_task_schedule at h
  split at h
  · injection h with h; subst h; exact hx
  · split at h
    · exact libtask_task_pool_push_back_exclusive h hx
    · injection h with h; subst h; exact hx

theorem libtask_task_yield_exclusive {s s' : State}
    (h : (libtask_task_yield s).after = some s') (hx : Exclusive s)
    (hc : ∀ t, (s.tasks t).complete = false) : Exclusive s' := by
  cases hcur : s.libtask_current_task with
  | none =>
    unfold libtask_task_yield at h
    simp only [hcur] at h
    injection h with h; subst h; exact hx
  | some task =>
    cases hp : (s.tasks task).task_pool with
    | none =>
      rw [libtask_task_yield_without_pool hcur (hc task) hp] at h
      injection h with h; subst h; exact hx
    | some pool =>
      rw [libtask_task_yield_member hcur (hc task) hp] at h
      injection h with h; subst h
      exact requeue_exclusive hx pool task

theorem libtask_condition_wait_exclusive {s s' : State} {cond : CondRef}
    (h : (libtask_condition_wait s cond).after = some s') (hx : Exclusive s)
    (hu : ∀ t, s.libtask_current_task = some t → s.unlinked t) : Exclusive s' := by
  unfold libtask_condition_wait at h
  split at h
  · rename_i task hcur
    have key : Exclusive (s.setCond cond
        { s.cond cond with list := libtask_list_push_back (s.cond cond).list task }) := by
      refine hx.push task (.cond cond) (hu task hcur) ?_ ?_
      · rw [setCond_queue, if_pos rfl]; rfl
      · intro q hq
        rw [setCond_queue, if_neg hq]
    dsimp only at h
    split at h
    · rename_i heq
      injection h with h; subst h
      rw [libtask__task_suspend_framed (Res.after_of_ret heq)]
      exact key
    · rename_i heq
      injection h with h; subst h
      rw [libtask__task_suspend_framed (Res.after_of_susp heq)]
      exact key
    · cases h
    · cases h
  · injection h with h; subst h
    refine hx.of_eq (fun q => ?_)
    rw [setCond_queue]
    split
    · rename_i hq; subst hq; rfl
    · rfl

theorem libtask_semaphore_up_exclusive {s s' : State} {sem : Nat}
    (h : (libtask_semaphore_up s sem).after = some s') (hx : Exclusive s) : Exclusive s' := by
  cases hl : (s.sems sem).waiting_list with
  | nil =>
    rw [libtask_semaphore_up_empty hl] at h
    injection h with h; subst h
    refine hx.of_eq (fun q => ?_)
    rw [setSem_queue]
    split
    · rename_i hq; subst hq; rfl
    · rfl
  | cons task rest =>
    cases hp : (s.tasks task).task_pool with
    | none =>
      rw [libtask_semaphore_up_orphan hl hp] at h
      cases h
    | some pool =>
      rw [libtask_semaphore_up_waiter hl hp] at h
      injection h with h; subst h
      refine (@Exclusive.transfer s _ hx task rest (.pool pool) (.sem sem) hl (by simp) ?_ ?_ ?_).1
      · rw [setPool_queue_other _ _ _ ?_ (by simp), setSem_queue, if_pos rfl]
        rfl
      · rw [setPool_queue, if_pos rfl]; rfl
      · intro q hq hq'
        rw [setPool_queue_other _ _ _ ?_ hq, setSem_queue, if_neg hq']
        rfl

theorem libtask_semaphore_down_exclusive {s s' : State} {sem : Nat}
    (h : (libtask_semaphore_down s sem).after = some s') (hx : Exclusive s)
    (hu : ∀ t, s.libtask_current_task = some t → s.unlinked t) : Exclusive s' := by
  cases hcur : s.libtask_current_task with
  | none =>
    rw [libtask_semaphore_down_thread hcur] at h
    injection h with h; subst h; exact hx
  | some task =>
    by_cases hcnt : 0 < (s.sems sem).count
    · rw [libtask_semaphore_down_available hcur hcnt] at h
      injection h with h; subst h
      refine hx.of_eq (fun q => ?_)
      rw [setSem_queue]
      split
      · rename_i hq; subst hq; rfl
      · rfl
    · rw [libtask_semaphore_down_parks hcur (not_lt.mp hcnt)] at h
      injection h with h; subst h
      refine hx.push task (.sem sem) (hu task hcur) ?_ ?_
      · rw [setSem_queue, if_pos rfl]; rfl
      · intro q hq
        rw [setSem_queue, if_neg hq]

theorem signalFuel_exclusive : ∀ (fuel : Nat) {held : List Nat} {s s' : State}
    {cond : CondRef},
    (signalFuel fuel held s cond).after = some s' → Exclusive s →
    Exclusive s' ∧ ∀ x, s.unlinked x → s'.unlinked x := by
  intro fuel
  induction fuel with
  | zero => intro held s s' cond h; cases h
  | succ fuel ih =>
    intro held s s' cond h hx
    rcases signalFuel_cases h with ⟨-, h1⟩ | ⟨task, rest, p, held1, hl, hp, -, -, h1⟩
    · have hq : ∀ q, s'.queue q = s.queue q := by
        intro q
        rw [h1, setCond_queue]
        split
        · rename_i hq; subst hq; rfl
        · rfl
      exact ⟨hx.of_eq hq, fun x hu q => by rw [hq q]; exact hu q⟩
    · obtain ⟨hx2, hu2⟩ := @Exclusive.transfer s
        ((s.setCond cond { s.cond cond with list := rest }).setPool p
          { (s.setCond cond { s.cond cond with list := rest }).pools p with
            waiting_list := libtask_list_push_back
              ((s.setCond cond { s.cond cond with list := rest }).pools p).waiting_list task })
        hx task rest (.pool p) (.cond cond) hl (by simp)
        (by rw [setPool_queue_other _ _ _ ?_ (by simp), setCond_queue, if_pos rfl]; rfl)
        (by rw [setPool_queue, if_pos rfl]; simp [libtask_list_push_back])
        (by
          intro q hq hq'
          rw [setPool_queue_other _ _ _ ?_ hq, setCond_queue, if_neg hq']
          rfl)
      obtain ⟨hx3, hu3⟩ := ih (Res.after_of_ret h1) hx2
      exact ⟨hx3, fun x hu => hu3 x (hu2 x hu)⟩

theorem broadcast_drain_exclusive (cond : CondRef) : ∀ (ws : List Nat) {s s' : State},
    (broadcast_drain cond ws s).after = some s' → Exclusive s → ws.Nodup →
    (∀ w ∈ ws, s.unlinked w) → Exclusive s' := by
  intro ws
  induction ws with
  | nil =>
    intro s s' h hx _ _
    injection h with h; subst h; exact hx
  | cons w rest ih =>
    intro s s' h hx hnd hu
    obtain ⟨p, held1, s3, -, -, h1, h2⟩ := broadcast_drain_cases h
    have h0 : (s.setPool p
        { s.pools p with
          waiting_list := libtask_list_push_back (s.pools p).waiting_list w }).queue (.pool p)
          = s.queue (.pool p) ++ [w] := by
      rw [setPool_queue, if_pos rfl]; rfl
    have hoth : ∀ q, q ≠ .pool p → (s.setPool p
        { s.pools p with
          waiting_list := libtask_list_push_back (s.pools p).waiting_list w }).queue q
          = s.queue q := by
      intro q hq
      rw [setPool_queue_other _ _ _ ?_ hq]
      rfl
    have hx2 := hx.push w (.pool p) (hu w (List.mem_cons_self _ _)) h0 hoth
    obtain ⟨hx3, hu3⟩ := signalFuel_exclusive _ (Res.after_of_ret h1) hx2
    refine ih h2 hx3 (List.nodup_cons.mp hnd).2 ?_
    intro x hxr
    apply hu3
    intro q hm
    by_cases hq : q = .pool p
    · subst hq
      rw [h0, List.mem_append] at hm
      rcases hm with hm | hm
      · exact hu x (List.mem_cons_of_mem _ hxr) _ hm
      · have : x = w := by simpa using hm
        subst this
        exact (List.nodup_cons.mp hnd).1 hxr
    · rw [hoth q hq] at hm
      exact hu x (List.mem_cons_of_mem _ hxr) q hm

theorem libtask_condition_broadcast_exclusive {s s' : State} {cond : CondRef}
    (h : (libtask_condition_broadcast s cond).after = some s') (hx : Exclusive s) :
    Exclusive s' := by
  obtain ⟨s2, h1, h2⟩ := libtask_condition_broadcast_cases h
  have hq1 : ∀ q, (s.setCond cond { s.cond cond with list := [] }).queue q
      = if q = .cond cond then [] else s.queue q := by
    intro q; rw [setCond_queue]
  have hx1 : Exclusive (s.setCond cond { s.cond cond with list := [] }) := by
    refine hx.of_sublist (fun q => ?_)
    rw [hq1 q]
    split
    · exact List.nil_sublist _
    · exact List.Sublist.refl _
  have hx2 := broadcast_drain_exclusive cond _ h1 hx1 (hx.1 (.cond cond)) (by
    intro w hw q hm
    rw [hq1 q] at hm
    split at hm
    · cases hm
    · rename_i hq
      exact hq (hx.2 w q (.cond cond) hm hw))
  rw [h2]
  refine hx2.of_eq (fun q => ?_)
  rw [setCond_queue]
  split
  · rename_i hq; subst hq; rfl
  · rfl

theorem libtask_task_pool_erase_current {s s' : State} {pool task : Nat} {e : error_t}
    (h : libtask_task_pool_erase s pool task = .ret e s') :
    s'.libtask_current_task = s.libtask_current_task := by
  by_cases hm : (s.tasks task).task_pool = some pool
  · by_cases hn : 1 ≤ (s.pools pool).ntasks
    · obtain ⟨s1, h1, -, -, -, -, hc, -⟩ := libtask_task_pool_erase_spec hm hn
      rw [h1] at h
      injection h with _ h; subst h
      exact hc
    · exfalso
      unfold libtask_task_pool_erase at h
      simp only [hm, ne_eq, not_true_eq_false, if_false] at h
      rw [if_pos (by simp only [setPool_pools, Function.update_same]; omega)] at h
      cases h
  · rw [libtask_task_pool_erase_foreign hm] at h
    injection h with _ h; subst h; rfl

theorem libtask_task_pool_switch_exclusive {s s' : State} {pool : Nat} {oldp : Bool}
    (h : (libtask_task_pool_switch s pool oldp).after = some s') (hx : Exclusive s)
    (hc : ∀ t, (s.tasks t).complete = false) : Exclusive s' := by
  rcases libtask_task_pool_switch_cases h with h | ⟨task, s1, s2, s3, hcur, -, h1, h2, h3, h4⟩
  · rw [h]; exact hx
  · have f1 : Framed s s1 ∧ Exclusive s1 ∧ s1.libtask_current_task = some task := by
      rcases h1 with h1 | ⟨q, h1⟩
      · rw [h1]; exact ⟨Framed.refl s, hx, hcur⟩
      · rw [h1]
        exact ⟨framed_setPool _ _ _,
          hx.of_eq (fun q' => setPool_queue_same _ _ _ _ rfl rfl), hcur⟩
    obtain ⟨f1, hx1, hcur1⟩ := f1
    have f2 : Framed s1 s2 ∧ Exclusive s2 ∧ s2.libtask_current_task = some task := by
      rcases h2 with ⟨q, -, h2⟩ | ⟨-, h2⟩
      · exact ⟨libtask_task_pool_erase_framed (Res.after_of_ret h2),
          libtask_task_pool_erase_exclusive (Res.after_of_ret h2) hx1,
          by rw [libtask_task_pool_erase_current h2]; exact hcur1⟩
      · rw [h2]; exact ⟨Framed.refl s1, hx1, hcur1⟩
    obtain ⟨f2, hx2, hcur2⟩ := f2
    have hc2 : (s2.tasks task).complete = false := by
      rw [(f2.2.2.2.2 task).1, (f1.2.2.2.2 task).1]; exact hc task
    by_cases hp : (s2.tasks task).task_pool = none
    · rw [libtask_task_pool_insert_eq hp] at h3
      injection h3 with _ h3
      have hcur3 : s3.libtask_current_task = some task := by rw [← h3]; exact hcur2
      have hc3 : (s3.tasks task).complete = false := by rw [← h3]; simpa using hc2
      have hp3 : (s3.tasks task).task_pool = some pool := by rw [← h3]; simp
      have hq3 : (s3.pools pool).waiting_list = s2.queue (.pool pool) ++ [task] := by
        rw [← h3]; simp
      have hq3' : ∀ q, q ≠ .pool pool → s3.queue q = s2.queue q := by
        intro q hq
        rw [← h3, setPool_queue_other _ _ _ ?_ hq, setTask_queue]
        rfl
      rw [libtask_task_yield_member hcur3 hc3 hp3] at h4
      injection h4 with h4
      subst h4
      refine hx2.requeue task (.pool pool) ?_ ?_
      · rw [setPool_queue, if_pos rfl]
        show unlink task (s3.pools pool).waiting_list ++ [task] = _
        rw [hq3, unlink_append_self]
      · intro q hq
        rw [setPool_queue_other _ _ _ ?_ hq, libtask_list_erase_queue, hq3' q hq]
        rfl
    · unfold libtask_task_pool_insert at h3
      rw [if_pos hp] at h3
      cases h3

theorem Op.run_exclusive {s s' : State} {caller : Option Nat} {op : Op}
    (h : op.run s caller = some s') (hx : Exclusive s)
    (hc : ∀ t, (s.tasks t).complete = false) (hd : op.disciplined s caller) :
    Exclusive s' := by
  have hx' := hx.called_by caller
  cases op with
  | pool_insert pool task =>
    exact libtask_task_pool_insert_exclusive h hx' (unlinked_called_by hd)
  | pool_erase pool task => exact libtask_task_pool_erase_exclusive h hx'
  | pool_push_back pool task => exact libtask_task_pool_push_back_exclusive h hx'
  | pool_pop_front pool => exact libtask_task_pool_pop_front_exclusive h hx'
  | pool_switch pool oldp => exact libtask_task_pool_switch_exclusive h hx' hc
  | task_yield => exact libtask_task_yield_exclusive h hx' hc
  | task_schedule task => exact libtask_task_schedule_exclusive h hx'
  | condition_wait cond =>
    exact libtask_condition_wait_exclusive h hx' (fun t ht => unlinked_called_by (hd t ht))
  | condition_signal cond => exact (signalFuel_exclusive _ h hx').1
  | condition_broadcast cond => exact libtask_condition_broadcast_exclusive h hx'
  | semaphore_up sem => exact libtask_semaphore_up_exclusive h hx'
  | semaphore_down sem =>
    exact libtask_semaphore_down_exclusive h hx' (fun t ht => unlinked_called_by (hd t ht))

theorem run_ops_exclusive : ∀ (ops : List (Option Nat × Op)) {s s' : State},
    run_ops ops s = some s' → Exclusive s → (∀ t, (s.tasks t).complete = false) →
    disciplined ops s → Exclusive s' := by
  intro ops
  induction ops with
  | nil =>
    intro s s' h hx _ _
    injection h with h; subst h; exact hx
  | cons step rest ih =>
    intro s s' h hx hc hd
    obtain ⟨caller, op⟩ := step
    rw [run_ops] at h
    split at h
    · rename_i s1 heq
      have f := Op.run_framed heq
      exact ih h (Op.run_exclusive heq hx hc hd.1)
        (fun t => by rw [(f.2.2.2.2 t).1]; exact hc t) (hd.2 s1 heq)
    · cases h

theorem State.fresh.exclusive {s : State} (h : s.fresh) : Exclusive s :=
  ⟨fun q => by rw [h.1 q]; exact List.nodup_nil,
    fun t q q' h1 _ => by rw [h.1 q] at h1; cases h1⟩

theorem State.fresh.unlinked {s : State} (h : s.fresh) (t : Nat) : s.unlinked t :=
  fun q => by rw [h.1 q]; exact List.not_mem_nil t

theorem disciplined_cons {caller : Option Nat} {op : Op} {rest : List (Option Nat × Op)}
    {s s1 : State} (hr : op.run s caller = some s1) (hd : op.disciplined s caller)
    (h : disciplined rest s1) : disciplined ((caller, op) :: rest) s :=
  ⟨hd, fun s2 h2 => by rw [hr] at h2; injection h2 with h2; subst h2; exact h⟩

theorem unlinked_after_pop {s s' : State} {caller : Option Nat} {pool t : Nat}
    (hx : Exclusive s) (hr : Op.run s caller (.pool_pop_front pool) = some s')
    (hh : (s.queue (.pool pool)).head? = some t) : s'.unlinked t := by
  cases hl : (s.pools pool).waiting_list with
  | nil => rw [queue_pool, hl] at hh; cases hh
  | cons task rest =>
    rw [queue_pool, hl] at hh
    injection hh with hh
    subst hh
    have hl' : ((s.called_by caller).pools pool).waiting_list = task :: rest := hl
    rw [Op.run, libtask_task_pool_pop_front_cons hl'] at hr
    injection hr with hr
    subst hr
    have hin : task ∈ s.queue (.pool pool) := by rw [queue_pool, hl]; exact List.mem_cons_self _ _
    have hnd : (task :: rest).Nodup := by rw [← hl]; exact hx.1 (.pool pool)
    intro q hm
    by_cases hq : q = .pool pool
    · subst hq
      rw [setPool_queue, if_pos rfl] at hm
      exact (List.nodup_cons.mp hnd).1 hm
    · rw [setPool_queue_other _ _ _ ?_ hq, called_by_queue] at hm
      · exact hq (hx.2 task q (.pool pool) hm hin)
      · rfl

theorem step_exclusive {s s' : State} {caller : Option Nat} {op : Op}
    (hr : op.run s caller = some s')
    (hx : Exclusive s ∧ ∀ t, (s.tasks t).complete = false) (hd : op.disciplined s caller) :
    Exclusive s' ∧ ∀ t, (s'.tasks t).complete = false :=
  ⟨Op.run_exclusive hr hx.1 hx.2 hd,
    fun t => by rw [((Op.run_framed hr).2.2.2.2 t).1]; exact hx.2 t⟩

/-- C11, counterexample.  Task 0, pool 0, condition 0 and semaphore 0 are
freshly created: every list of waiting tasks is empty.  The task is inserted
into the pool and popped by a worker; running, it calls
`libtask_task_schedule` on itself, which puts its link back on the waiting
list of the pool, and then `libtask_semaphore_down` on the semaphore (count
0): the link is in the waiting list of the pool and in that of the
semaphore.  With `libtask_condition_wait` in place of the down the link is
in the list of the pool and in that of the condition.  After a
`libtask_condition_wait` by the task, which has no pool, a
`libtask_task_pool_insert` of it leaves the link in the list of the
condition and in that of the pool, and a second `libtask_condition_wait` by
it leaves the link twice in the list of the condition. -/
theorem wait_link_in_two_queues :
    exclusive_fresh.fresh ∧
    (∃ s, run_ops [(none, .pool_insert 0 0), (none, .pool_pop_front 0),
          (some 0, .task_schedule 0), (some 0, .semaphore_down 0)] exclusive_fresh = some s ∧
        0 ∈ s.queue (.pool 0) ∧ 0 ∈ s.queue (.sem 0) ∧
        (s.queue (.pool 0)).count 0 + (s.queue (.sem 0)).count 0 = 2) ∧
    (∃ s, run_ops [(none, .pool_insert 0 0), (none, .pool_pop_front 0),
          (some 0, .task_schedule 0), (some 0, .condition_wait (.cond 0))] exclusive_fresh
          = some s ∧
        0 ∈ s.queue (.pool 0) ∧ 0 ∈ s.queue (.cond (.cond 0))) ∧
    (∃ s, run_ops [(some 0, .condition_wait (.cond 0)), (none, .pool_insert 0 0)]
        exclusive_fresh = some s ∧ 0 ∈ s.queue (.cond (.cond 0)) ∧ 0 ∈ s.queue (.pool 0)) ∧
    (∃ s, run_ops [(some 0, .condition_wait (.cond 0)), (some 0, .condition_wait (.cond 0))]
        exclusive_fresh = some s ∧ (s.queue (.cond (.cond 0))).count 0 = 2) := by
  refine ⟨⟨fun q => ?_, fun t => rfl⟩, ⟨_, rfl, ?_, ?_, ?_⟩, ⟨_, rfl, ?_, ?_⟩,
    ⟨_, rfl, ?_, ?_⟩, ⟨_, rfl, ?_⟩⟩
  · cases q with
    | pool p => rfl
    | cond c => cases c <;> rfl
    | sem m => rfl
  all_goals decide

/-- C11, amended.  In every heap reached from freshly created objects (every
list of waiting tasks empty, no task complete) by a sequence of the public
operations pool insert, erase, push_back, pop_front and switch, task yield
and schedule, condition wait, signal and broadcast, semaphore up and down,
each made by any caller, in which `libtask_task_pool_insert` is applied only
to a task whose wait link is in no list and `libtask_condition_wait` and
`libtask_semaphore_down` are called only by a task whose wait link is in no
list: every task occurs at most once in each pool waiting list, condition
list and semaphore waiting list, and in at most one of them. -/
theorem wait_link_exclusive (s s' : State) (ops : List (Option Nat × Op)) (hf : s.fresh)
    (hd : disciplined ops s) (hr : run_ops ops s = some s') :
    ∀ t, (∀ q, (s'.queue q).count t ≤ 1) ∧
      ∀ q q', t ∈ s'.queue q → t ∈ s'.queue q' → q = q' := by
  have hx := run_ops_exclusive ops hr hf.exclusive hf.2 hd
  intro t
  exact ⟨fun q => List.nodup_iff_count_le_one.mp (hx.1 q) t, hx.2 t⟩

/-- C11 at the run `exclusive_run` from `exclusive_fresh`: the task parks
on the semaphore and waits on the condition right after a worker popped it,
so its link is in no list at these calls. -/
theorem wait_link_exclusive_witness :
    exclusive_fresh.fresh ∧ disciplined exclusive_run exclusive_fresh ∧
    (exclusive_at 9).queue (.pool 0) = [0] ∧
    ∀ t, (∀ q, ((exclusive_at 9).queue q).count t ≤ 1) ∧
      ∀ q q', t ∈ (exclusive_at 9).queue q → t ∈ (exclusive_at 9).queue q' → q = q' := by
  have hf : exclusive_fresh.fresh := by
    refine ⟨fun q => ?_, fun t => rfl⟩
    cases q with
    | pool p => rfl
    | cond c => cases c <;> rfl
    | sem m => rfl
  have i0 : Exclusive (exclusive_at 0) ∧ ∀ t, ((exclusive_at 0).tasks t).complete = false :=
    ⟨hf.exclusive, hf.2⟩
  have r0 : Op.run (exclusive_at 0) none (.pool_insert 0 0) = some (exclusive_at 1) := rfl
  have d0 : Op.disciplined (exclusive_at 0) none (.pool_insert 0 0) := hf.unlinked 0
  have i1 := step_exclusive r0 i0 d0
  have r1 : Op.run (exclusive_at 1) none (.pool_pop_front 0) = some (exclusive_at 2) := rfl
  have d1 : Op.disciplined (exclusive_at 1) none (.pool_pop_front 0) := trivial
  have i2 := step_exclusive r1 i1 d1
  have r2 : Op.run (exclusive_at 2) (some 0) (.semaphore_down 0) = some (exclusive_at 3) := rfl
  have d2 : Op.disciplined (exclusive_at 2) (some 0) (.semaphore_down 0) := by
    intro t ht
    injection ht with ht
    subst ht
    exact unlinked_after_pop i1.1 r1 rfl
  have i3 := step_exclusive r2 i2 d2
  have r3 : Op.run (exclusive_at 3) none (.semaphore_up 0) = some (exclusive_at 4) := rfl
  have d3 : Op.disciplined (exclusive_at 3) none (.semaphore_up 0) := trivial
  have i4 := step_exclusive r3 i3 d3
  have r4 : Op.run (exclusive_at 4) none (.pool_pop_front 0) = some (exclusive_at 5) := rfl
  have d4 : Op.disciplined (exclusive_at 4) none (.pool_pop_front 0) := trivial
  have i5 := step_exclusive r4 i4 d4
  have r5 : Op.run (exclusive_at 5) (some 0) (.condition_wait (.cond 0)) = some (exclusive_at 6) := rfl
  have d5 : Op.disciplined (exclusive_at 5) (some 0) (.condition_wait (.cond 0)) := by
    intro t ht
    injection ht with ht
    subst ht
    exact unlinked_after_pop i4.1 r4 rfl
  have i6 := step_exclusive r5 i5 d5
  have r6 : Op.run (exclusive_at 6) none (.condition_broadcast (.cond 0)) = some (exclusive_at 7) := rfl
  have d6 : Op.disciplined (exclusive_at 6) none (.condition_broadcast (.cond 0)) := trivial
  have i7 := step_exclusive r6 i6 d6
  have r7 : Op.run (exclusive_at 7) none (.pool_pop_front 0) = some (exclusive_at 8) := rfl
  have d7 : Op.disciplined (exclusive_at 7) none (.pool_pop_front 0) := trivial
  have i8 := step_exclusive r7 i7 d7
  have r8 : Op.run (exclusive_at 8) (some 0) (.task_yield) = some (exclusive_at 9) := rfl
  have d8 : Op.disciplined (exclusive_at 8) (some 0) (.task_yield) := trivial
  have i9 := step_exclusive r8 i8 d8
  have hd : disciplined exclusive_run (exclusive_at 0) :=
    (disciplined_cons r0 d0
      (disciplined_cons r1 d1
      (disciplined_cons r2 d2
      (disciplined_cons r3 d3
      (disciplined_cons r4 d4
      (disciplined_cons r5 d5
      (disciplined_cons r6 d6
      (disciplined_cons r7 d7
      (disciplined_cons r8 d8
      (show disciplined [] (exclusive_at 9) from trivial))))))))))
  exact ⟨hf, hd, rfl, wait_link_exclusive exclusive_fresh (exclusive_at 9) exclusive_run hf hd rfl⟩

/-! ## C18: the recursion of signal and the loop of broadcast -/

theorem waiter_pools_allocated_of_suffix {s s1 : State} (ht : s1.tasks = s.tasks)
    (hp : s1.npool = s.npool) (hc : s1.ncond = s.ncond)
    (h : ∀ c, (s1.cond c).list <:+ (s.cond c).list) (hw : s.waiter_pools_allocated) :
    s1.waiter_pools_allocated := by
  intro c hca t htm p hpt
  rw [hp]
  exact hw c ((allocated_congr hp hc c).mp hca) t ((h c).subset htm) p (by rw [← ht]; exact hpt)

theorem State.waiters_have_pools.allocated {s : State} (h : s.waiters_have_pools) :
    s.waiter_pools_allocated := by
  intro c hca t htm p hpt
  obtain ⟨p', h1, h2⟩ := h c hca t htm
  rw [h1] at hpt
  injection hpt with hpt
  rw [← hpt]; exact h2

theorem pop_suffix (s : State) (cond : CondRef) {task : Nat} {rest : List Nat} (p : Nat)
    (hl : (s.cond cond).list = task :: rest) (c : CondRef) :
    (((s.setCond cond { s.cond cond with list := rest }).setPool p
        { (s.setCond cond { s.cond cond with list := rest }).pools p with
          waiting_list := libtask_list_push_back
            ((s.setCond cond { s.cond cond with list := rest }).pools p).waiting_list
              task }).cond c).list <:+ (s.cond c).list := by
  rw [cond_setPool_waiting_list]
  by_cases hcc : c = cond
  · subst hcc; rw [cond_setCond_same, hl]; exact List.suffix_cons _ _
  · rw [cond_setCond_ne _ _ hcc]

theorem pop_waiters {s : State} {cond : CondRef} {task : Nat} {rest : List Nat} (p : Nat)
    (hc : cond.allocated s) (hl : (s.cond cond).list = task :: rest) :
    ((s.setCond cond { s.cond cond with list := rest }).setPool p
        { (s.setCond cond { s.cond cond with list := rest }).pools p with
          waiting_list := libtask_list_push_back
            ((s.setCond cond { s.cond cond with list := rest }).pools p).waiting_list
              task }).waiters + 1 = s.waiters := by
  have hcg : ((s.setCond cond { s.cond cond with list := rest }).setPool p
      { (s.setCond cond { s.cond cond with list := rest }).pools p with
        waiting_list := libtask_list_push_back
          ((s.setCond cond { s.cond cond with list := rest }).pools p).waiting_list
            task }).waiters
      = (s.setCond cond { s.cond cond with list := rest }).waiters :=
    waiters_congr rfl rfl (fun c => by rw [cond_setPool_waiting_list])
  rw [hcg]
  have : (s.setCond cond { s.cond cond with list := rest }).waiters
      + (s.cond cond).list.length = s.waiters + rest.length :=
    waiters_setCond hc { s.cond cond with list := rest }
  rw [hl, List.length_cons] at this
  omega

theorem signalFuel_suffix : ∀ (fuel : Nat) {held : List Nat} {s s' : State}
    {cond : CondRef},
    (signalFuel fuel held s cond).after = some s' → ∀ c, (s'.cond c).list <:+ (s.cond c).list := by
  intro fuel
  induction fuel with
  | zero => intro held s s' cond h; cases h
  | succ fuel ih =>
    intro held s s' cond h c
    rcases signalFuel_cases h with ⟨-, h1⟩ | ⟨task, rest, p, held1, hl, -, -, -, h1⟩
    · rw [h1]
      by_cases hcc : c = cond
      · subst hcc; rw [cond_setCond_same]; exact List.suffix_refl _
      · rw [cond_setCond_ne _ _ hcc]
    · exact (ih (Res.after_of_ret h1) c).trans (pop_suffix s cond p hl c)


theorem spinlock_setPool (s : State) (p : Nat) (x : libtask_task_pool_t) (c : CondRef) :
    (s.setPool p x).spinlock c = s.spinlock c := by
  cases c <;> rfl

theorem spinlock_setCond (s : State) (cond : CondRef) (x : libtask_condition_t)
    (h : x.spinlock = (s.cond cond).spinlock) (c : CondRef) :
    (s.setCond cond x).spinlock c = s.spinlock c := by
  cases c with
  | waiting_condition p => rfl
  | cond c0 =>
    cases cond with
    | waiting_condition p => rfl
    | cond c1 =>
      by_cases hc : c0 = c1
      · subst hc
        simpa [State.spinlock] using h
      · simp [State.spinlock, Function.update_noteq hc]

theorem pop_spinlock (s : State) (cond : CondRef) (task : Nat) (rest : List Nat) (p : Nat)
    (c : CondRef) :
    ((s.setCond cond { s.cond cond with list := rest }).setPool p
        { (s.setCond cond { s.cond cond with list := rest }).pools p with
          waiting_list := libtask_list_push_back
            ((s.setCond cond { s.cond cond with list := rest }).pools p).waiting_list
              task }).spinlock c = s.spinlock c := by
  rw [spinlock_setPool, spinlock_setCond _ _ _ ?_]
  rfl

theorem signalFuel_spinlock : ∀ (fuel : Nat) {held : List Nat} {s s' : State}
    {cond : CondRef},
    (signalFuel fuel held s cond).after = some s' → ∀ c, s'.spinlock c = s.spinlock c := by
  intro fuel
  induction fuel with
  | zero => intro held s s' cond h; cases h
  | succ fuel ih =>
    intro held s s' cond h c
    rcases signalFuel_cases h with ⟨-, h1⟩ | ⟨task, rest, p, held1, -, -, -, -, h1⟩
    · rw [h1, spinlock_setCond _ _ _ ?_]
      rfl
    · rw [ih (Res.after_of_ret h1) c, pop_spinlock]

theorem descends_of_suffix {s s1 : State} {rank : Nat → Nat} {c : CondRef}
    (ht : s1.tasks = s.tasks) (hs : s1.spinlock c = s.spinlock c)
    (hl : (s1.cond c).list <:+ (s.cond c).list) (h : s.descends rank c) :
    s1.descends rank c := by
  intro p hp t htm q hq
  exact h p (by rw [← hs]; exact hp) t (hl.subset htm) q (by rw [← ht]; exact hq)

theorem ordered_of_suffix {s s1 : State} {rank : Nat → Nat}
    (ht : s1.tasks = s.tasks) (hn : s1.npool = s.npool)
    (hl : ∀ c, (s1.cond c).list <:+ (s.cond c).list) (h : s.ordered rank) :
    s1.ordered rank := by
  intro p hp
  exact descends_of_suffix ht rfl (hl _) (h p (by rw [← hn]; exact hp))

theorem wake_step {s : State} {rank : Nat → Nat} {held : List Nat} {cond : CondRef}
    {task p : Nat} {rest : List Nat}
    (hc : cond.allocated s) (hw : s.waiter_pools_allocated) (ho : s.ordered rank)
    (hd : s.descends rank cond) (hh : s.holds_above rank held cond)
    (hl : (s.cond cond).list = task :: rest) (hp : (s.tasks task).task_pool = some p) :
    ¬ (s.spinlock cond ≠ some p ∧ p ∈ held) ∧
    (CondRef.waiting_condition p).allocated
      ((s.setCond cond { s.cond cond with list := rest }).setPool p
        { (s.setCond cond { s.cond cond with list := rest }).pools p with
          waiting_list := libtask_list_push_back
            ((s.setCond cond { s.cond cond with list := rest }).pools p).waiting_list
              task }) ∧
    ((s.setCond cond { s.cond cond with list := rest }).setPool p
        { (s.setCond cond { s.cond cond with list := rest }).pools p with
          waiting_list := libtask_list_push_back
            ((s.setCond cond { s.cond cond with list := rest }).pools p).waiting_list
              task }).waiter_pools_allocated ∧
    ((s.setCond cond { s.cond cond with list := rest }).setPool p
        { (s.setCond cond { s.cond cond with list := rest }).pools p with
          waiting_list := libtask_list_push_back
            ((s.setCond cond { s.cond cond with list := rest }).pools p).waiting_list
              task }).ordered rank ∧
    ((s.setCond cond { s.cond cond with list := rest }).setPool p
        { (s.setCond cond { s.cond cond with list := rest }).pools p with
          waiting_list := libtask_list_push_back
            ((s.setCond cond { s.cond cond with list := rest }).pools p).waiting_list
              task }).descends rank (.waiting_condition p) ∧
    ((s.setCond cond { s.cond cond with list := rest }).setPool p
        { (s.setCond cond { s.cond cond with list := rest }).pools p with
          waiting_list := libtask_list_push_back
            ((s.setCond cond { s.cond cond with list := rest }).pools p).waiting_list
              task }).holds_above rank
        (if s.spinlock cond ≠ some p then p :: held else held) (.waiting_condition p) ∧
    ((s.setCond cond { s.cond cond with list := rest }).setPool p
        { (s.setCond cond { s.cond cond with list := rest }).pools p with
          waiting_list := libtask_list_push_back
            ((s.setCond cond { s.cond cond with list := rest }).pools p).waiting_list
              task }).waiters + 1 = s.waiters := by
  have hmem : task ∈ (s.cond cond).list := by rw [hl]; exact List.mem_cons_self _ _
  have hpl : p < s.npool := hw cond hc task hmem p hp
  have hnp : (s.setCond cond { s.cond cond with list := rest }).npool = s.npool := by
    cases cond <;> rfl
  have hnc : (s.setCond cond { s.cond cond with list := rest }).ncond = s.ncond := by
    cases cond <;> rfl
  have hbelow : ∀ p0, s.spinlock cond = some p0 → p0 ≠ p → rank p < rank p0 := by
    intro p0 h0 hne
    rcases hd p0 h0 task hmem p hp with h | h
    · exact absurd h.symm hne
    · exact h
  have hord := @ordered_of_suffix s _ rank (by simp) (by rw [setPool_npool, hnp])
    (pop_suffix s cond p hl) ho
  refine ⟨?_, ?_, ?_, hord, ?_, ?_, pop_waiters p hc hl⟩
  · rintro ⟨hne, hin⟩
    cases h0 : s.spinlock cond with
    | none => rw [hh.1 h0] at hin; cases hin
    | some p0 =>
      have h1 := hbelow p0 h0 (fun e => hne (by rw [h0, e]))
      have h2 := hh.2 p0 h0 p hin
      omega
  · show p < _
    rw [setPool_npool, hnp]; exact hpl
  · exact @waiter_pools_allocated_of_suffix s _ (by simp) (by rw [setPool_npool, hnp])
      (by rw [setPool_ncond, hnc]) (pop_suffix s cond p hl) hw
  · exact hord p (by rw [setPool_npool, hnp]; exact hpl)
  · unfold State.holds_above
    refine ⟨fun h => (by cases h), ?_⟩
    intro p' hp' h hin
    have hpp : p' = p := by
      have : some p = some p' := hp'
      exact (Option.some.inj this).symm
    subst hpp
    by_cases hs : s.spinlock cond = some p'
    · rw [if_neg (not_not.mpr hs)] at hin
      exact hh.2 p' hs h hin
    · rw [if_pos hs] at hin
      rcases List.mem_cons.mp hin with e | hin
      · rw [e]
      · cases h0 : s.spinlock cond with
        | none => rw [hh.1 h0] at hin; cases hin
        | some p0 =>
          have h1 := hbelow p0 h0 (fun e => hs (by rw [h0, e]))
          have h2 := hh.2 p0 h0 h hin
          omega

theorem signalFuel_timeout_cases {fuel : Nat} {held : List Nat} {s : State} {cond : CondRef}
    (h : signalFuel (fuel + 1) held s cond = .timeout) :
    ∃ task rest p, (s.cond cond).list = task :: rest ∧ (s.tasks task).task_pool = some p ∧
      ((s.spinlock cond ≠ some p ∧ p ∈ held) ∨
        signalFuel fuel (if s.spinlock cond ≠ some p then p :: held else held)
          ((s.setCond cond { s.cond cond with list := rest }).setPool p
          { (s.setCond cond { s.cond cond with list := rest }).pools p with
            waiting_list := libtask_list_push_back
              ((s.setCond cond { s.cond cond with list := rest }).pools p).waiting_list task })
          (.waiting_condition p) = .timeout) := by
  cases hl : (s.cond cond).list with
  | nil =>
    rw [signalFuel_no_task fuel held hl] at h
    cases h
  | cons task rest =>
    rw [signalFuel, hl] at h
    simp only [libtask_condition_wakeup_first, setCond_tasks] at h
    cases hp : (s.tasks task).task_pool with
    | none => simp only [hp] at h; cases h
    | some p =>
      simp only [hp] at h
      refine ⟨task, rest, p, rfl, hp, ?_⟩
      by_cases hs : s.spinlock cond ≠ some p ∧ p ∈ held
      · exact Or.inl hs
      · right
        rw [if_neg hs] at h
        dsimp only at h ⊢
        split at h
        · split at h <;> cases h
        · cases h
        · cases h
        · rename_i heq
          split at heq
          · cases heq
          · cases heq
          · cases heq
          · rename_i heq2
            exact heq2

theorem signalFuel_no_timeout (rank : Nat → Nat) : ∀ (n : Nat) (held : List Nat) (s : State)
    (cond : CondRef), cond.allocated s → s.waiter_pools_allocated → s.ordered rank →
    s.descends rank cond → s.holds_above rank held cond → s.waiters < n →
    ∀ fuel, s.waiters < fuel → signalFuel fuel held s cond ≠ .timeout := by
  intro n
  induction n with
  | zero => intro held s cond _ _ _ _ _ h; omega
  | succ n ih =>
    intro held s cond hc hw ho hd hh hlt fuel hf htime
    obtain ⟨f, rfl⟩ : ∃ f, fuel = f + 1 := ⟨fuel - 1, by omega⟩
    obtain ⟨task, rest, p, hl, hp, hcase⟩ := signalFuel_timeout_cases htime
    obtain ⟨g1, g2, g3, g4, g5, g6, g7⟩ := wake_step hc hw ho hd hh hl hp
    rcases hcase with hspin | hnested
    · exact g1 hspin
    · exact ih _ _ (.waiting_condition p) g2 g3 g4 g5 g6 (by omega) f (by omega) hnested

theorem signalFuel_returns (rank : Nat → Nat) : ∀ (n : Nat) (held : List Nat) (s : State)
    (cond : CondRef), cond.allocated s → s.waiters_have_pools → s.ordered rank →
    s.descends rank cond → s.holds_above rank held cond → s.waiters < n →
    ∃ s1, (∀ fuel, s.waiters < fuel → signalFuel fuel held s cond = .ret () s1) ∧
      s1.tasks = s.tasks ∧ s1.npool = s.npool ∧ s1.ncond = s.ncond ∧
      (∀ c, (s1.cond c).list <:+ (s.cond c).list) ∧
      s1.waiters + (if (s.cond cond).list = [] then 0 else 1) ≤ s.waiters := by
  intro n
  induction n with
  | zero => intro held s cond _ _ _ _ _ h; omega
  | succ n ih =>
    intro held s cond hc hw ho hd hh hlt
    cases hl : (s.cond cond).list with
    | nil =>
      have hlist : ∀ c, ((s.setCond cond (pthread_cond_signal (s.cond cond))).cond c).list
          = (s.cond c).list := by
        intro c
        by_cases hcc : c = cond
        · subst hcc; rw [cond_setCond_same]; rfl
        · rw [cond_setCond_ne _ _ hcc]
      have hnp : (s.setCond cond (pthread_cond_signal (s.cond cond))).npool = s.npool := by
        cases cond <;> rfl
      have hnc : (s.setCond cond (pthread_cond_signal (s.cond cond))).ncond = s.ncond := by
        cases cond <;> rfl
      refine ⟨s.setCond cond (pthread_cond_signal (s.cond cond)), ?_, by simp, hnp, hnc, ?_, ?_⟩
      · intro fuel hf
        obtain ⟨f, rfl⟩ : ∃ f, fuel = f + 1 := ⟨fuel - 1, by omega⟩
        exact signalFuel_no_task f held hl
      · intro c; rw [hlist c]
      · rw [waiters_congr hnp hnc (fun c => by rw [hlist c])]
        simp
    | cons task rest =>
      obtain ⟨p, hp, hpl⟩ := hw cond hc task (by rw [hl]; simp)
      obtain ⟨g1, g2, g3, g4, g5, g6, g7⟩ := wake_step hc hw.allocated ho hd hh hl hp
      have hnp0 : (s.setCond cond { s.cond cond with list := rest }).npool = s.npool := by
        cases cond <;> rfl
      have hnc0 : (s.setCond cond { s.cond cond with list := rest }).ncond = s.ncond := by
        cases cond <;> rfl
      have hnp : ((s.setCond cond { s.cond cond with list := rest }).setPool p
          { (s.setCond cond { s.cond cond with list := rest }).pools p with
            waiting_list := libtask_list_push_back
              ((s.setCond cond { s.cond cond with list := rest }).pools p).waiting_list task }).npool = s.npool := hnp0
      have hnc : ((s.setCond cond { s.cond cond with list := rest }).setPool p
          { (s.setCond cond { s.cond cond with list := rest }).pools p with
            waiting_list := libtask_list_push_back
              ((s.setCond cond { s.cond cond with list := rest }).pools p).waiting_list task }).ncond = s.ncond := hnc0
      have hsuf := pop_suffix s cond p hl
      obtain ⟨s3, h1, h2, h3, h4, h5, h6⟩ := ih
        (if s.spinlock cond ≠ some p then p :: held else held) _ (.waiting_condition p) g2
        (waiters_have_pools_of_suffix (by simp) hnp hnc hsuf hw) g4 g5 g6 (by omega)
      refine ⟨s3, ?_, by rw [h2]; simp, by rw [h3]; exact hnp, by rw [h4]; exact hnc, ?_, ?_⟩
      · intro fuel hf
        obtain ⟨f, rfl⟩ : ∃ f, fuel = f + 1 := ⟨fuel - 1, by omega⟩
        have hnested := h1 f (by omega)
        rw [signalFuel, hl]
        simp only [libtask_condition_wakeup_first, setCond_tasks, hp]
        rw [if_neg g1]
        dsimp only at hnested ⊢
        rw [hnested]
        simp
      · intro c; exact (h5 c).trans (hsuf c)
      · simp only [reduceCtorEq, if_false]
        have : s3.waiters ≤ _ := Nat.le_of_add_right_le h6
        omega

theorem mem_held {s : State} {cond : CondRef} {h : Nat} (hm : h ∈ s.held cond) :
    s.spinlock cond = some h := by
  unfold State.held at hm
  cases hs : s.spinlock cond with
  | none => rw [hs] at hm; cases hm
  | some q =>
    rw [hs] at hm
    have : h = q := by simpa using hm
    rw [this]

theorem drain_step {s : State} {rank : Nat → Nat} {cond : CondRef} {w p : Nat}
    (hw : s.waiter_pools_allocated) (ho : s.ordered rank) (hpl : p < s.npool)
    (hb : ∀ p0, s.spinlock cond = some p0 → p = p0 ∨ rank p < rank p0) :
    (CondRef.waiting_condition p).allocated (s.setPool p
        { s.pools p with
          waiting_list := libtask_list_push_back (s.pools p).waiting_list w }) ∧
    (s.setPool p
        { s.pools p with
          waiting_list := libtask_list_push_back (s.pools p).waiting_list w }).waiter_pools_allocated ∧
    (s.setPool p
        { s.pools p with
          waiting_list := libtask_list_push_back (s.pools p).waiting_list w }).ordered rank ∧
    (s.setPool p
        { s.pools p with
          waiting_list := libtask_list_push_back (s.pools p).waiting_list w }).descends rank (.waiting_condition p) ∧
    (s.setPool p
        { s.pools p with
          waiting_list := libtask_list_push_back (s.pools p).waiting_list w }).holds_above rank (if s.spinlock cond ≠ some p then p :: s.held cond else s.held cond) (.waiting_condition p) ∧
    (s.setPool p
        { s.pools p with
          waiting_list := libtask_list_push_back (s.pools p).waiting_list w }).waiters = s.waiters ∧
    (∀ c, ((s.setPool p
        { s.pools p with
          waiting_list := libtask_list_push_back (s.pools p).waiting_list w }).cond c).list <:+ (s.cond c).list) := by
  have hsuf : ∀ c, ((s.setPool p
        { s.pools p with
          waiting_list := libtask_list_push_back (s.pools p).waiting_list w }).cond c).list <:+ (s.cond c).list := by
    intro c; rw [cond_setPool_waiting_list]
  have hord : (s.setPool p
        { s.pools p with
          waiting_list := libtask_list_push_back (s.pools p).waiting_list w }).ordered rank :=
    @ordered_of_suffix s (s.setPool p
        { s.pools p with
          waiting_list := libtask_list_push_back (s.pools p).waiting_list w }) rank rfl rfl hsuf ho
  refine ⟨hpl, @waiter_pools_allocated_of_suffix s _ rfl rfl rfl hsuf hw, hord, hord p hpl,
    ?_, waiters_congr rfl rfl (fun c => by rw [cond_setPool_waiting_list]), hsuf⟩
  unfold State.holds_above
  refine ⟨fun h => (by cases h), ?_⟩
  intro p' hp' h hin
  have hpp : p' = p := by
    have : some p = some p' := hp'
    exact (Option.some.inj this).symm
  subst hpp
  have key : h ∈ s.held cond → rank p' ≤ rank h := by
    intro hm
    rcases hb h (mem_held hm) with e | e
    · rw [e]
    · exact Nat.le_of_lt e
  by_cases hs : s.spinlock cond = some p'
  · rw [if_neg (not_not.mpr hs)] at hin
    exact key hin
  · rw [if_pos hs] at hin
    rcases List.mem_cons.mp hin with e | hin
    · rw [e]
    · exact key hin

theorem broadcast_drain_timeout_cases {cond : CondRef} {w : Nat} {rest : List Nat}
    {s : State} (h : broadcast_drain cond (w :: rest) s = .timeout) :
    ∃ p, (s.tasks w).task_pool = some p ∧
      (libtask_condition_signal_holding (if s.spinlock cond ≠ some p then p :: s.held cond else s.held cond) (s.setPool p
        { s.pools p with
          waiting_list := libtask_list_push_back (s.pools p).waiting_list w }) (.waiting_condition p) = .timeout ∨
        ∃ s3, libtask_condition_signal_holding (if s.spinlock cond ≠ some p then p :: s.held cond else s.held cond) (s.setPool p
        { s.pools p with
          waiting_list := libtask_list_push_back (s.pools p).waiting_list w }) (.waiting_condition p) = .ret () s3 ∧
          broadcast_drain cond rest s3 = .timeout) := by
  rw [broadcast_drain] at h
  simp only [libtask_condition_wakeup_first] at h
  cases hp : (s.tasks w).task_pool with
  | none => simp only [hp] at h; cases h
  | some p =>
    simp only [hp] at h
    rw [if_neg (held_no_spin s cond p)] at h
    refine ⟨p, rfl, ?_⟩
    split at h
    · rename_i x s1 heq
      split at heq
      · rename_i heq2
        injection heq with h1 h2
        subst h2
        exact Or.inr ⟨_, heq2, h⟩
      · cases heq
      · cases heq
      · cases heq
    · cases h
    · cases h
    · rename_i heq
      left
      split at heq
      · cases heq
      · cases heq
      · cases heq
      · rename_i heq2
        exact heq2

theorem broadcast_drain_no_timeout (rank : Nat → Nat) (cond : CondRef) :
    ∀ (ws : List Nat) (s : State),
    s.waiter_pools_allocated → s.ordered rank →
    (∀ w ∈ ws, ∀ q, (s.tasks w).task_pool = some q →
      q < s.npool ∧ ∀ p0, s.spinlock cond = some p0 → q = p0 ∨ rank q < rank p0) →
    broadcast_drain cond ws s ≠ .timeout := by
  intro ws
  induction ws with
  | nil => intro s _ _ _ h; cases h
  | cons w rest ih =>
    intro s hw ho hws htime
    obtain ⟨p, hp, h⟩ := broadcast_drain_timeout_cases htime
    obtain ⟨hpl, hb⟩ := hws w (List.mem_cons_self _ _) p hp
    obtain ⟨g1, g2, g3, g4, g5, g6, g7⟩ := @drain_step s rank cond w p hw ho hpl hb
    rcases h with h | ⟨s3, h1, h2⟩
    · exact signalFuel_no_timeout rank _ _ _ (.waiting_condition p) g1 g2 g3 g4 g5
        (Nat.lt_succ_self _) _ (Nat.lt_succ_self _) h
    · obtain ⟨f, t⟩ := signalFuel_framed _ (Res.after_of_ret h1)
      have hsuf := signalFuel_suffix _ (Res.after_of_ret h1)
      have hspin := signalFuel_spinlock _ (Res.after_of_ret h1)
      refine ih s3 (waiter_pools_allocated_of_suffix t f.2.1 f.2.2.1 hsuf g2)
        (ordered_of_suffix t f.2.1 hsuf g3) ?_ h2
      intro w' hw' q hq
      rw [f.2.1, hspin cond, spinlock_setPool]
      exact hws w' (List.mem_cons_of_mem _ hw') q (by rw [t] at hq; exact hq)

theorem broadcast_drain_returns (rank : Nat → Nat) (cond : CondRef) :
    ∀ (ws : List Nat) (s : State),
    s.waiters_have_pools → s.ordered rank →
    (∀ w ∈ ws, ∃ q, (s.tasks w).task_pool = some q ∧
      q < s.npool ∧ ∀ p0, s.spinlock cond = some p0 → q = p0 ∨ rank q < rank p0) →
    ∃ s1, broadcast_drain cond ws s = .ret () s1 ∧ s1.tasks = s.tasks ∧ s1.npool = s.npool ∧
      s1.ncond = s.ncond ∧ (∀ c, (s1.cond c).list <:+ (s.cond c).list) ∧
      s1.waiters ≤ s.waiters := by
  intro ws
  induction ws with
  | nil =>
    intro s _ _ _
    exact ⟨s, rfl, rfl, rfl, rfl, fun c => List.suffix_refl _, Nat.le_refl _⟩
  | cons w rest ih =>
    intro s hw ho hws
    obtain ⟨p, hp, hpl, hb⟩ := hws w (List.mem_cons_self _ _)
    obtain ⟨g1, g2, g3, g4, g5, g6, g7⟩ := @drain_step s rank cond w p hw.allocated ho hpl hb
    have hw2 : (s.setPool p
        { s.pools p with
          waiting_list := libtask_list_push_back (s.pools p).waiting_list w }).waiters_have_pools := @waiters_have_pools_of_suffix s _ rfl rfl rfl g7 hw
    obtain ⟨s3, hnested, h2, h3, h4, h5, h6⟩ :=
      signalFuel_returns rank _ (if s.spinlock cond ≠ some p then p :: s.held cond else s.held cond) (s.setPool p
        { s.pools p with
          waiting_list := libtask_list_push_back (s.pools p).waiting_list w }) (.waiting_condition p) g1 hw2 g3 g4 g5
        (Nat.lt_succ_self _)
    have hret : libtask_condition_signal_holding (if s.spinlock cond ≠ some p then p :: s.held cond else s.held cond) (s.setPool p
        { s.pools p with
          waiting_list := libtask_list_push_back (s.pools p).waiting_list w }) (.waiting_condition p) = .ret () s3 :=
      hnested _ (Nat.lt_succ_self _)
    have hspin := signalFuel_spinlock _ (Res.after_of_ret hret)
    have h2' : s3.tasks = s.tasks := by rw [h2]; rfl
    have h3' : s3.npool = s.npool := by rw [h3]; rfl
    have h4' : s3.ncond = s.ncond := by rw [h4]; rfl
    have h5' : ∀ c, (s3.cond c).list <:+ (s.cond c).list := fun c => (h5 c).trans (g7 c)
    obtain ⟨s1, k1, k2, k3, k4, k5, k6⟩ := ih s3
      (waiters_have_pools_of_suffix h2' h3' h4' h5' hw)
      (ordered_of_suffix h2' h3' h5' ho)
      (by
        intro w' hw'
        obtain ⟨q, hq, hql, hqb⟩ := hws w' (List.mem_cons_of_mem _ hw')
        refine ⟨q, by rw [h2']; exact hq, by rw [h3']; exact hql, ?_⟩
        intro p0 hp0
        rw [hspin cond, spinlock_setPool] at hp0
        exact hqb p0 hp0)
    refine ⟨s1, ?_, by rw [k2, h2'], by rw [k3, h3'], by rw [k4, h4'],
      fun c => (k5 c).trans (h5' c), ?_⟩
    · rw [broadcast_drain]
      simp only [libtask_condition_wakeup_first, hp]
      rw [if_neg (held_no_spin s cond p)]
      dsimp only at hret ⊢
      rw [hret]
      exact k1
    · have : s3.waiters ≤ _ := Nat.le_of_add_right_le h6
      omega

theorem holds_above_entry (s : State) (rank : Nat → Nat) (cond : CondRef) :
    s.holds_above rank (s.held cond) cond := by
  unfold State.holds_above
  constructor
  · intro h; unfold State.held; rw [h]; rfl
  · intro p hp h hin
    have := mem_held hin
    rw [hp] at this
    rw [Option.some.inj this]

theorem broadcast_start {s : State} {rank : Nat → Nat} {cond : CondRef}
    (hc : cond.allocated s) (hw : s.waiter_pools_allocated) (ho : s.ordered rank)
    (hd : s.descends rank cond) :
    (s.setCond cond { s.cond cond with list := [] }).npool = s.npool ∧
    (s.setCond cond { s.cond cond with list := [] }).ncond = s.ncond ∧
    (∀ c, ((s.setCond cond { s.cond cond with list := [] }).cond c).list
      <:+ (s.cond c).list) ∧
    (s.setCond cond { s.cond cond with list := [] }).waiter_pools_allocated ∧
    (s.setCond cond { s.cond cond with list := [] }).ordered rank ∧
    (∀ w ∈ (s.cond cond).list, ∀ q,
      ((s.setCond cond { s.cond cond with list := [] }).tasks w).task_pool = some q →
      q < (s.setCond cond { s.cond cond with list := [] }).npool ∧
      ∀ p0, (s.setCond cond { s.cond cond with list := [] }).spinlock cond = some p0 →
        q = p0 ∨ rank q < rank p0) ∧
    (s.setCond cond { s.cond cond with list := [] }).waiters + (s.cond cond).list.length
      = s.waiters := by
  have hnp : (s.setCond cond { s.cond cond with list := [] }).npool = s.npool := by
    cases cond <;> rfl
  have hnc : (s.setCond cond { s.cond cond with list := [] }).ncond = s.ncond := by
    cases cond <;> rfl
  have hsuf : ∀ c, ((s.setCond cond { s.cond cond with list := [] }).cond c).list
      <:+ (s.cond c).list := by
    intro c
    by_cases hcc : c = cond
    · subst hcc; rw [cond_setCond_same]; exact List.nil_suffix
    · rw [cond_setCond_ne _ _ hcc]
  have hsp : ∀ c, (s.setCond cond { s.cond cond with list := [] }).spinlock c
      = s.spinlock c := by
    intro c
    rw [spinlock_setCond _ _ _ ?_]
    rfl
  refine ⟨hnp, hnc, hsuf, waiter_pools_allocated_of_suffix (by simp) hnp hnc hsuf hw,
    ordered_of_suffix (by simp) hnp hsuf ho, ?_, ?_⟩
  · intro w hwm q hq
    have hq' : (s.tasks w).task_pool = some q := by simpa using hq
    refine ⟨by rw [hnp]; exact hw cond hc w hwm q hq', ?_⟩
    intro p0 hp0
    rw [hsp cond] at hp0
    exact hd p0 hp0 w hwm q hq'
  · have : (s.setCond cond { s.cond cond with list := [] }).waiters
        + (s.cond cond).list.length = s.waiters + ([] : List Nat).length :=
      waiters_setCond hc { s.cond cond with list := [] }
    rw [List.length_nil] at this
    omega

theorem libtask_condition_broadcast_no_timeout {s : State} {rank : Nat → Nat}
    {cond : CondRef} (hc : cond.allocated s) (hw : s.waiter_pools_allocated)
    (ho : s.ordered rank) (hd : s.descends rank cond) :
    libtask_condition_broadcast s cond ≠ .timeout := by
  intro htime
  obtain ⟨-, -, -, g4, g5, g6, -⟩ := broadcast_start hc hw ho hd
  unfold libtask_condition_broadcast at htime
  dsimp only at htime
  split at htime
  · cases htime
  · cases htime
  · cases htime
  · rename_i heq
    exact broadcast_drain_no_timeout rank cond _ _ g4 g5 g6 heq

theorem libtask_condition_broadcast_returns {s : State} {rank : Nat → Nat}
    {cond : CondRef} (hc : cond.allocated s) (hw : s.waiters_have_pools)
    (ho : s.ordered rank) (hd : s.descends rank cond) :
    ∃ s1, libtask_condition_broadcast s cond = .ret () s1 ∧
      (s1.cond cond).list = [] ∧
      (∀ c, (s1.cond c).list <:+ (s.cond c).list) ∧
      s1.waiters + (s.cond cond).list.length ≤ s.waiters := by
  obtain ⟨hnp, hnc, hsuf, -, g5, g6, hwt⟩ := broadcast_start hc hw.allocated ho hd
  obtain ⟨s2, k1, k2, k3, k4, k5, k6⟩ := broadcast_drain_returns rank cond (s.cond cond).list
    (s.setCond cond { s.cond cond with list := [] })
    (waiters_have_pools_of_suffix (by simp) hnp hnc hsuf hw) g5
    (by
      intro w hwm
      obtain ⟨q, hq, -⟩ := hw cond hc w hwm
      have hq' : ((s.setCond cond { s.cond cond with list := [] }).tasks w).task_pool
          = some q := by simpa using hq
      exact ⟨q, hq', g6 w hwm q hq'⟩)
  have hfin : ∀ c, ((s2.setCond cond (pthread_cond_broadcast (s2.cond cond))).cond c).list
      = (s2.cond c).list := by
    intro c
    by_cases hcc : c = cond
    · subst hcc; rw [cond_setCond_same]; rfl
    · rw [cond_setCond_ne _ _ hcc]
  have hnp2 : (s2.setCond cond (pthread_cond_broadcast (s2.cond cond))).npool = s2.npool := by
    cases cond <;> rfl
  have hnc2 : (s2.setCond cond (pthread_cond_broadcast (s2.cond cond))).ncond = s2.ncond := by
    cases cond <;> rfl
  refine ⟨s2.setCond cond (pthread_cond_broadcast (s2.cond cond)), ?_, ?_, ?_, ?_⟩
  · unfold libtask_condition_broadcast
    dsimp only at k1 ⊢
    rw [k1]
  · rw [hfin cond]
    have := k5 cond
    rw [cond_setCond_same] at this
    exact List.eq_nil_of_suffix_nil this
  · intro c
    rw [hfin c]
    exact (k5 c).trans (hsuf c)
  · rw [waiters_congr hnp2 hnc2 (fun c => by rw [hfin c])]
    omega

/-- C18, counterexample.  In `signal_cycle` every queued task has an allocated
pool; task 0 of pool 0 is parked on the waiting condition of pool 1 and task 1
of pool 1 on the waiting condition of pool 0.  `libtask_condition_signal` on
the waiting condition of pool 1, entered with the spinlock of pool 1 held,
pops task 0, takes the spinlock of pool 0 and signals the waiting condition
of pool 0; that call pops task 1 and takes the spinlock of pool 1, which the
thread holds already, so it spins.  No budget gives a result, neither for
the signal nor for the broadcast. -/
theorem condition_signal_spins :
    (CondRef.waiting_condition 1).allocated signal_cycle ∧
    signal_cycle.waiters_have_pools ∧
    (signal_cycle.cond (.waiting_condition 1)).list = [0] ∧
    (signal_cycle.tasks 0).task_pool = some 0 ∧
    (signal_cycle.cond (.waiting_condition 0)).list = [1] ∧
    (signal_cycle.tasks 1).task_pool = some 1 ∧
    signal_cycle.held (.waiting_condition 1) = [1] ∧
    (∀ fuel, signalFuel fuel [1] signal_cycle (.waiting_condition 1) = .timeout) ∧
    libtask_condition_signal signal_cycle (.waiting_condition 1) = .timeout ∧
    libtask_condition_broadcast signal_cycle (.waiting_condition 1) = .timeout := by
  refine ⟨Nat.lt_succ_self 1, ?_, rfl, rfl, rfl, rfl, rfl, ?_, rfl, rfl⟩
  · intro c hca t ht
    cases c with
    | cond c => exact absurd hca (Nat.not_lt_zero c)
    | waiting_condition p =>
      have hp : p < 2 := hca
      have hp' : p = 0 ∨ p = 1 := by omega
      rcases hp' with rfl | rfl
      · have ht' : t ∈ [1] := ht
        have : t = 1 := by simpa using ht'
        subst this
        exact ⟨1, rfl, by decide⟩
      · have ht' : t ∈ [0] := ht
        have : t = 0 := by simpa using ht'
        subst this
        exact ⟨0, rfl, by decide⟩
  · intro fuel
    match fuel with
    | 0 => rfl
    | 1 => rfl
    | n + 2 => rfl

/-- C18, amended.  Let `rank` order the pools so that every task queued on the
waiting condition of an allocated pool, and every task queued on `cond` when
`cond` uses the spinlock of a pool, belongs to that pool or to a pool of
lower rank; let `cond` be allocated and the pool of every queued task that
has one be allocated.  Then the recursion of `libtask_condition_signal`
through `libtask_condition_wakeup_first` ends within every budget above the
number of queued tasks, and so do `libtask_condition_signal` and the drain
loop of `libtask_condition_broadcast`, entered with the spinlock of `cond`
held: no spinlock is taken twice.  When every queued task has a pool, both
return: every budget above the number of queued tasks gives the same heap,
every condition list of the result is a suffix of what it was, so no task is
added to any list, the number of queued tasks drops when the signalled list
held a task, and after a broadcast the list of the condition is empty and the
number of queued tasks has dropped by at least the length of the drained
list.  The condition may be the waiting condition of the woken task's own
pool. -/
theorem condition_wakeups_terminate (s : State) (cond : CondRef) (rank : Nat → Nat)
    (hc : cond.allocated s) (hw : s.waiter_pools_allocated) (ho : s.ordered rank)
    (hd : s.descends rank cond) :
    (∀ fuel, s.waiters < fuel → signalFuel fuel (s.held cond) s cond ≠ .timeout) ∧
    libtask_condition_signal s cond ≠ .timeout ∧
    libtask_condition_broadcast s cond ≠ .timeout ∧
    (s.waiters_have_pools →
      (∃ s1, libtask_condition_signal s cond = .ret () s1 ∧
        (∀ fuel, s.waiters < fuel → signalFuel fuel (s.held cond) s cond = .ret () s1) ∧
        (∀ c, (s1.cond c).list <:+ (s.cond c).list) ∧
        s1.waiters ≤ s.waiters ∧ ((s.cond cond).list ≠ [] → s1.waiters < s.waiters)) ∧
      (∃ s1, libtask_condition_broadcast s cond = .ret () s1 ∧
        (s1.cond cond).list = [] ∧
        (∀ c, (s1.cond c).list <:+ (s.cond c).list) ∧
        s1.waiters + (s.cond cond).list.length ≤ s.waiters)) := by
  have hh := holds_above_entry s rank cond
  refine ⟨signalFuel_no_timeout rank _ _ s cond hc hw ho hd hh (Nat.lt_succ_self _),
    signalFuel_no_timeout rank _ _ s cond hc hw ho hd hh (Nat.lt_succ_self _) _
      (Nat.lt_succ_self _),
    libtask_condition_broadcast_no_timeout hc hw ho hd, ?_⟩
  intro hp
  refine ⟨?_, libtask_condition_broadcast_returns hc hp ho hd⟩
  obtain ⟨s1, h1, -, -, -, h5, h6⟩ :=
    signalFuel_returns rank _ (s.held cond) s cond hc hp ho hd hh (Nat.lt_succ_self _)
  refine ⟨s1, h1 _ (Nat.lt_succ_self _), h1, h5, Nat.le_of_add_right_le h6, ?_⟩
  intro hne
  rw [if_neg hne] at h6
  omega

/-- C18 at `signal_own_pool`, whose two tasks are parked on the waiting
condition of their own pool: the signal returns with fewer queued tasks and
the broadcast leaves the list empty. -/
theorem condition_wakeups_terminate_witness :
    signal_own_pool.waiters_have_pools ∧
    signal_own_pool.ordered (fun _ => 0) ∧
    libtask_condition_signal signal_own_pool (.waiting_condition 0) ≠ .timeout ∧
    (∃ s1, libtask_condition_signal signal_own_pool (.waiting_condition 0) = .ret () s1 ∧
      s1.waiters < signal_own_pool.waiters) ∧
    (∃ s1, libtask_condition_broadcast signal_own_pool (.waiting_condition 0) = .ret () s1 ∧
      (s1.cond (.waiting_condition 0)).list = []) := by
  have hmem : ∀ p, p < signal_own_pool.npool →
      ∀ t ∈ (signal_own_pool.cond (.waiting_condition p)).list,
        (signal_own_pool.tasks t).task_pool = some 0 ∧ p = 0 := by
    intro p hp t ht
    have hp0 : p = 0 := Nat.lt_one_iff.mp hp
    have ht' : t ∈ [0, 1] := ht
    have : t < 2 := by simp at ht'; omega
    exact ⟨by simp [signal_own_pool, this, parked_task], hp0⟩
  have hw : signal_own_pool.waiters_have_pools := by
    intro c hca t ht
    cases c with
    | cond c => exact absurd hca (Nat.not_lt_zero c)
    | waiting_condition p => exact ⟨0, (hmem p hca t ht).1, Nat.lt_succ_self 0⟩
  have ho : signal_own_pool.ordered (fun _ => 0) := by
    intro p hp p' hp' t ht q hq
    have hpp : p' = p := (Option.some.inj hp').symm
    obtain ⟨h1, h2⟩ := hmem p hp t ht
    rw [h1] at hq
    left
    rw [← Option.some.inj hq, hpp, h2]
  have h := condition_wakeups_terminate signal_own_pool (.waiting_condition 0) (fun _ => 0)
    (Nat.lt_succ_self 0) hw.allocated ho (ho 0 (Nat.lt_succ_self 0))
  obtain ⟨⟨s1, h1, -, -, -, h5⟩, ⟨s2, g1, g2, -⟩⟩ := h.2.2.2 hw
  exact ⟨hw, ho, h.2.1, ⟨s1, h1, h5 (by decide)⟩, ⟨s2, g1, g2⟩⟩

end Libtask
